import Mathlib

/-!
# mod-alsa-test: a shallow embedding of `mod-alsa-test.c`

The C program drives the two streams of a sound card through alsa-lib.  The
embedding keeps the program's own control flow and data (`AlsaIO`) and makes
everything outside the program explicit:

* every library or system call consumes one answer of a hardware oracle
  `Hw`, indexed by the number of calls made so far, so that a statement
  quantified over `Hw` speaks about every possible behaviour of the library;
* every call is recorded, with its arguments and its answer, in a trace;
* the mmap'ed ring is a byte-addressed memory `Nat → Nat`.

C data model: LP64 Linux (`int` 32 bit, `long`, `size_t` and
`snd_pcm_uframes_t` 64 bit), `float` IEEE-754 binary32 evaluated in single
precision (`FLT_EVAL_METHOD == 0`).
-/

namespace ModAlsaTest

/-! ## Machine integers -/

/-- Conversion of a mathematical integer to `int` (two's complement, 32 bit). -/
def c_int (x : Int) : Int := (x + 2147483648) % 4294967296 - 2147483648

/-- Conversion to `unsigned int`. -/
def c_uint (x : Int) : Nat := (x % 4294967296).toNat

/-- Conversion to `unsigned long` (`snd_pcm_uframes_t`, `size_t`). -/
def c_ulong (x : Int) : Nat := (x % 18446744073709551616).toNat

/-- Conversion to `long` (`snd_pcm_sframes_t`). -/
def c_long (x : Int) : Int :=
  (x + 9223372036854775808) % 18446744073709551616 - 9223372036854775808

/-! ## Single-precision floating point

A finite binary32 number is kept as significand and exponent, `m * 2 ^ e`.
Each operation computes the exact result and rounds it to 24 significant
bits, to nearest, ties to even.  The exponent range (overflow, subnormal
numbers) is not modelled: the program's values stay far inside it. -/

/-- A finite `float`: the number `m * 2 ^ e`. -/
structure F32 where
  m : Int
  e : Int
  deriving DecidableEq, Repr

/-- The rational number a `float` stands for. -/
def F32.toRat (x : F32) : ℚ := (x.m : ℚ) * (2 : ℚ) ^ x.e

/-- How many low bits `n` has beyond 24: the least `k` with
`n / 2 ^ k < 2 ^ 24`, found by halving (`fuel` bounds the search). -/
def drop24 : Nat → Nat → Nat
  | 0, _ => 0
  | fuel + 1, n => if n < 16777216 then 0 else drop24 fuel (n / 2) + 1

/-- Round `n` (followed by a non-zero tail when `sticky`) to 24 bits, to
nearest, ties to even: the result is `q * 2 ^ k`, returned as `(q, k)`. -/
def rne24 (n : Nat) (sticky : Bool) : Nat × Nat :=
  if n < 16777216 then (n, 0)
  else
    let k := drop24 n n
    let q := n / 2 ^ k
    let r := n % 2 ^ k
    let half := 2 ^ (k - 1)
    if half < r ∨ (r = half ∧ (sticky = true ∨ q % 2 = 1)) then (q + 1, k) else (q, k)

/-- The `float` nearest to `± n * 2 ^ e`. -/
def F32.round (neg : Bool) (n : Nat) (sticky : Bool) (e : Int) : F32 :=
  let qk := rne24 n sticky
  ⟨if neg then -(qk.1 : Int) else (qk.1 : Int), e + qk.2⟩

/-- Conversion of an integer to `float`. -/
def F32.ofInt (i : Int) : F32 := F32.round (decide (i < 0)) i.natAbs false 0

/-- `a * b` in `float`. -/
def F32.mul (a b : F32) : F32 :=
  F32.round (decide (a.m * b.m < 0)) (a.m * b.m).natAbs false (a.e + b.e)

/-- `a / b` in `float` (`b` not zero): the quotient is taken with 64 extra
bits, the remainder decides the sticky bit. -/
def F32.div (a b : F32) : F32 :=
  let n := a.m.natAbs * 2 ^ 64
  let d := b.m.natAbs
  F32.round ((decide (a.m < 0)) != (decide (b.m < 0))) (n / d) (n % d != 0) (a.e - b.e - 64)

/-- `a + b` in `float`. -/
def F32.add (a b : F32) : F32 :=
  let e := min a.e b.e
  let s := a.m * 2 ^ (a.e - e).toNat + b.m * 2 ^ (b.e - e).toNat
  F32.round (decide (s < 0)) s.natAbs false e

/-- Conversion of a non-negative `float` to `size_t`: the fraction is cut off. -/
def F32.toSizeT (x : F32) : Nat :=
  if 0 ≤ x.e then x.m.toNat * 2 ^ x.e.toNat else x.m.toNat / 2 ^ (-x.e).toNat

/-- The constant `0.0f`. -/
def F32.zero : F32 := ⟨0, 0⟩

/-- The constant `1e-6f`, `8796093 * 2 ^ -43`. -/
def F32.micro : F32 := ⟨8796093, -43⟩

/-! ## Data -/

/-- The two streams. -/
inductive Dir
  | play
  | capt
  deriving DecidableEq, Repr

/-- `snd_pcm_channel_area_t`: base address, offset of the first sample in
bits, distance between samples in bits. -/
structure Area where
  addr : Nat
  first : Nat
  step : Nat
  deriving DecidableEq, Repr

/-- `struct timeval`. -/
structure Timeval where
  tv_sec : Int
  tv_usec : Int
  deriving DecidableEq, Repr

/-- `SND_PCM_STATE_XRUN`. -/
def SND_PCM_STATE_XRUN : Nat := 4

/-- `snd_pcm_status_t` as far as `xrun_time` reads it. -/
structure Status where
  state : Nat
  tstamp : Timeval
  trigger_tstamp : Timeval
  deriving DecidableEq, Repr

/-- Everything one library call can hand back: its return value and its
out-parameters.  A call reads the fields that belong to it. -/
structure Resp where
  /-- the return value -/
  ret : Int
  /-- an `unsigned int` or `snd_pcm_uframes_t` out-parameter -/
  val : Nat
  /-- the `int *dir` out-parameter -/
  dir : Int
  /-- `snd_pcm_mmap_begin`: ring offset -/
  offset : Nat
  /-- `snd_pcm_mmap_begin`: frames granted -/
  frames : Nat
  /-- `snd_pcm_mmap_begin`: one area per channel -/
  areas : Nat → Area
  /-- `snd_pcm_poll_descriptors_revents`: decoded events -/
  revents : Nat
  /-- `snd_pcm_status`: the status written -/
  status : Status

/-- The hardware oracle: the answer to the `n`-th call of the run. -/
abbrev Hw := Nat → Resp

/-- The calls that only negotiate parameters, by name. -/
inductive Cfg
  | hw_params_any
  | set_periods_integer
  | set_access (mode : Nat)
  | set_format (fmt : Nat)
  | set_rate (rate : Nat)
  | get_channels_max
  | set_channels (n : Nat)
  | set_period_size (n : Nat)
  | set_periods (n : Nat)
  | set_buffer_size (n : Nat)
  | hw_params
  | sw_params_current
  | set_tstamp_mode
  | set_avail_min (n : Nat)
  | sw_params
  | poll_descriptors_count
  | get_rate
  | get_period_size
  | get_periods
  | get_format
  | get_access
  deriving DecidableEq, Repr

/-- One recorded call, with its arguments and what it returned. -/
inductive Ev
  | pcm_open (d : Dir) (ret : Int)
  | params_malloc (which : Nat) (ret : Int)
  | cfg (d : Dir) (c : Cfg) (ret : Int)
  | link (ret : Int)
  | status (d : Dir) (ret : Int) (xrun_ms : F32)
  | drop (d : Dir) (ret : Int)
  | prepare (d : Dir) (ret : Int)
  | start (d : Dir) (ret : Int)
  | avail_update (d : Dir) (ret : Int)
  | mmap_begin (d : Dir) (req : Nat) (ret : Int) (granted : Nat)
  | mmap_commit (d : Dir) (offset : Nat) (frames : Nat) (ret : Int)
  | poll_descriptors (d : Dir)
  | ppoll (nfds : Int) (ret : Int)
  | poll_revents (d : Dir) (nfds : Int) (rev : Nat)
  | sched_get_priority (ret : Int)
  | thread_create (sched_priority : Option Int) (ret : Int)
  | pcm_close (d : Dir)
  | enter_recover
  | enter_pcm_wait
  deriving DecidableEq, Repr

/-- The program's `AlsaIO` record.  A handle is `true` when it is non-NULL;
pointers are byte addresses. -/
structure AlsaIO where
  samplerate : Nat
  samples_per_period : Nat
  play_periods_per_cycle : Nat
  capt_periods_per_cycle : Nat
  play_nchan : Nat
  capt_nchan : Nat
  run_for : F32
  debug : Bool
  play_handle : Bool
  capt_handle : Bool
  synced : Bool
  play_ptr : Nat → Nat
  capt_ptr : Nat → Nat
  capt_offset : Nat
  play_offset : Nat
  play_bytes_per_sample : Nat
  capt_bytes_per_sample : Nat
  play_step : Nat
  capt_step : Nat
  play_npfd : Int
  capt_npfd : Int

/-- The program state together with what surrounds it. -/
structure World where
  /-- the `AlsaIO` record -/
  io : AlsaIO
  /-- memory, byte by byte -/
  mem : Nat → Nat
  /-- number of library calls made so far -/
  calls : Nat
  /-- the calls made so far, oldest first -/
  trace : List Ev

/-- Make the next library call: take its answer and count it. -/
def World.call (hw : Hw) (w : World) : Resp × World :=
  (hw w.calls, { w with calls := w.calls + 1 })

/-- Record an event. -/
def World.log (w : World) (e : Ev) : World :=
  { w with trace := w.trace ++ [e] }

/-- `for (i = lo; i < lo + n; i++) body (i)`. -/
def for_range : Nat → Nat → (Nat → World → World) → World → World
  | 0, _, _, w => w
  | n + 1, lo, body, w => for_range n (lo + 1) body (body lo w)

/-! ## Buffer cycle: `play_done`, `capt_done`, `clear_chan`, `play_init`, `capt_init` -/

/-- `snd_pcm_mmap_commit (handle, offset, len)` on stream `d`. -/
def mmap_commit (hw : Hw) (d : Dir) (offset : Nat) (frames : Nat) (w : World) : Int × World :=
  let (r, w) := w.call hw
  (r.ret, w.log (Ev.mmap_commit d offset frames r.ret))

/-- `play_done (io, len)`: `len` is an `int`, widened again to
`snd_pcm_uframes_t` by the call. -/
def play_done (hw : Hw) (len : Int) (w : World) : Int × World :=
  if !w.io.play_handle then (0, w)
  else mmap_commit hw Dir.play w.io.play_offset (c_ulong len) w

/-- `capt_done (io, len)`. -/
def capt_done (hw : Hw) (len : Int) (w : World) : Int × World :=
  if !w.io.capt_handle then (0, w)
  else mmap_commit hw Dir.capt w.io.capt_offset (c_ulong len) w

/-- `*((int *) dst) = 0`: four bytes starting at `dst` become zero. -/
def store_int_zero (mem : Nat → Nat) (dst : Nat) : Nat → Nat :=
  fun a => if dst ≤ a ∧ a < dst + 4 then 0 else mem a

/-- The loop of `clear_chan`: `while (len--) { *((int *) dst) = 0; dst += step; }`. -/
def clear_loop (step : Nat) : Nat → Nat → (Nat → Nat) → (Nat → Nat)
  | 0, _, mem => mem
  | len + 1, dst, mem => clear_loop step len (dst + step) (store_int_zero mem dst)

/-- `clear_chan (io, dst, len)`; the stride is `io->play_step`.

Memory is a total map here: every store lands.  In C a store through a
pointer that was never set faults: `play_ptr` is NULL from the `memset` in
`main` until a begin has succeeded, so a first begin that fails is followed
by a store through NULL.  The statements about the playback cycle are made
for begins that succeed, where the pointers are the ones `play_init` has
just computed from the region. -/
def clear_chan (dst : Nat) (len : Nat) (w : World) : World :=
  { w with mem := clear_loop w.io.play_step len dst w.mem }

/-- The address `play_init` and `capt_init` compute for one channel:
`(char*) a->addr + ((a->first + a->step * offset) >> 3)`, the sum in
`unsigned long`. -/
def chan_ptr (a : Area) (offset : Nat) : Nat :=
  a.addr + c_ulong (a.first + a.step * offset) / 8

/-- `play_init (io, len)`. -/
def play_init (hw : Hw) (len : Nat) (w : World) : Int × World :=
  if !w.io.play_handle then (0, w)
  else
    let (r, w) := w.call hw
    let w := w.log (Ev.mmap_begin Dir.play len r.ret r.frames)
    if r.ret < 0 then (-1, w)
    else
      let io := { w.io with play_offset := r.offset }
      let io := { io with play_step := (r.areas 0).step / 8 }
      let io := { io with
        play_ptr := fun i =>
          if i < io.play_nchan then chan_ptr (r.areas i) io.play_offset else io.play_ptr i }
      (c_int r.frames, { w with io := io })

/-- `capt_init (io, len)`. -/
def capt_init (hw : Hw) (len : Nat) (w : World) : Int × World :=
  if !w.io.capt_handle then (0, w)
  else
    let (r, w) := w.call hw
    let w := w.log (Ev.mmap_begin Dir.capt len r.ret r.frames)
    if r.ret < 0 then (-1, w)
    else
      let io := { w.io with capt_offset := r.offset }
      let io := { io with capt_step := (r.areas 0).step / 8 }
      let io := { io with
        capt_ptr := fun i =>
          if i < io.capt_nchan then chan_ptr (r.areas i) io.capt_offset else io.capt_ptr i }
      (c_int r.frames, { w with io := io })

/-! ## Lifecycle: `xrun_time`, `pcm_start`, `pcm_stop`, `recover` -/

/-- `xrun_time`: the pair `(ds, du)` after the borrow step, for a status in
the xrun state.  `tv_sec` and `tv_usec` are `long`, `ds` and `du` are `int`. -/
def xrun_time_parts (stat : Status) : Int × Int :=
  let ds := c_int (stat.tstamp.tv_sec - stat.trigger_tstamp.tv_sec)
  let du := c_int (stat.tstamp.tv_usec - stat.trigger_tstamp.tv_usec)
  if du < 0 then (c_int (ds - 1), c_int (du + 1000000)) else (ds, du)

/-- `xrun_time (stat)`: `ds + 1e-6f * du` in the xrun state, `0.0f` otherwise. -/
def xrun_time (stat : Status) : F32 :=
  if stat.state = SND_PCM_STATE_XRUN then
    let p := xrun_time_parts stat
    F32.add (F32.ofInt p.1) (F32.mul F32.micro (F32.ofInt p.2))
  else F32.zero

/-- The body of `pcm_start`'s inner loop over the channels, shared with
`run_thread`: `clear_chan (io, io->play_ptr [j], samples_per_period)` for
every `j < play_nchan`. -/
def clear_all (w : World) : World :=
  for_range w.io.play_nchan 0
    (fun j w => clear_chan (w.io.play_ptr j) w.io.samples_per_period w) w

/-- One turn of `pcm_start`'s priming loop: `play_init`, silence, `play_done`. -/
def prime_period (hw : Hw) (w : World) : World :=
  let w := (play_init hw w.io.samples_per_period w).2
  let w := clear_all w
  (play_done hw (c_int w.io.samples_per_period) w).2

/-- The last statement of `pcm_start`:
`if (io->capt_handle && !io->synced && ((err = snd_pcm_start (io->capt_handle)) < 0)) return -1;
return 0;`. -/
def pcm_start_capt (hw : Hw) (w : World) : Int × World :=
  if w.io.capt_handle && !w.io.synced then
    let (r, w) := w.call hw
    let w := w.log (Ev.start Dir.capt r.ret)
    if r.ret < 0 then (-1, w) else (0, w)
  else (0, w)

/-- `pcm_start (io)`; `n` is an `unsigned int`, the product an `unsigned long`. -/
def pcm_start (hw : Hw) (w : World) : Int × World :=
  if w.io.play_handle then
    let (r, w) := w.call hw
    let w := w.log (Ev.avail_update Dir.play r.ret)
    let n := c_uint r.ret
    if n ≠ c_ulong (w.io.samples_per_period * w.io.play_periods_per_cycle) then (-1, w)
    else
      let w := for_range w.io.play_periods_per_cycle 0 (fun _ w => prime_period hw w) w
      let (r, w) := w.call hw
      let w := w.log (Ev.start Dir.play r.ret)
      if r.ret < 0 then (-1, w) else pcm_start_capt hw w
  else pcm_start_capt hw w

/-- The last statement of `pcm_stop`:
`if (io->capt_handle && !io->synced && ((err = snd_pcm_drop (io->capt_handle)) < 0)) return -1;
return 0;`. -/
def pcm_stop_capt (hw : Hw) (w : World) : Int × World :=
  if w.io.capt_handle && !w.io.synced then
    let (r, w) := w.call hw
    let w := w.log (Ev.drop Dir.capt r.ret)
    if r.ret < 0 then (-1, w) else (0, w)
  else (0, w)

/-- `pcm_stop (io)`. -/
def pcm_stop (hw : Hw) (w : World) : Int × World :=
  if w.io.play_handle then
    let (r, w) := w.call hw
    let w := w.log (Ev.drop Dir.play r.ret)
    if r.ret < 0 then (-1, w) else pcm_stop_capt hw w
  else pcm_stop_capt hw w

/-- The diagnostic part of `recover`: `snd_pcm_status` on one stream; the
value printed, `1000.f * xrun_time (stat)`, is kept with the event. -/
def recover_status (hw : Hw) (d : Dir) (w : World) : World :=
  let (r, w) := w.call hw
  w.log (Ev.status d r.ret (F32.mul ⟨1000, 0⟩ (xrun_time r.status)))

/-- The end of `recover`: `if (pcm_start (io)) return -1; return 0;`. -/
def recover_start (hw : Hw) (w : World) : Int × World :=
  let (r, w) := pcm_start hw w
  if r ≠ 0 then (-1, w) else (0, w)

/-- The capture half of the re-arming in `recover`, and what follows it. -/
def recover_prepare_capt (hw : Hw) (w : World) : Int × World :=
  if w.io.capt_handle && !w.io.synced then
    let (r, w) := w.call hw
    let w := w.log (Ev.prepare Dir.capt r.ret)
    if r.ret < 0 then (-1, w) else recover_start hw w
  else recover_start hw w

/-- The re-arming in `recover`, `snd_pcm_prepare` on the playback stream
and then on the capture stream, and what follows it. -/
def recover_prepare (hw : Hw) (w : World) : Int × World :=
  if w.io.play_handle then
    let (r, w) := w.call hw
    let w := w.log (Ev.prepare Dir.play r.ret)
    if r.ret < 0 then (-1, w) else recover_prepare_capt hw w
  else recover_prepare_capt hw w

/-- The two status queries at the head of `recover`. -/
def recover_diagnose (hw : Hw) (w : World) : World :=
  let w := if w.io.play_handle then recover_status hw Dir.play w else w
  if w.io.capt_handle then recover_status hw Dir.capt w else w

/-- `recover (io)`. -/
def recover (hw : Hw) (w : World) : Int × World :=
  let w := w.log Ev.enter_recover
  let w := recover_diagnose hw w
  let (r, w) := pcm_stop hw w
  if r ≠ 0 then (-1, w) else recover_prepare hw w

/-! ## Readiness poller: `pcm_wait` -/

/-- `POLLIN`. -/
def POLLIN : Nat := 1

/-- `POLLOUT`. -/
def POLLOUT : Nat := 4

/-- `POLLERR`. -/
def POLLERR : Nat := 8

/-- How one turn of `pcm_wait`'s loop ends: with a `return`, or at the bottom
of the loop body with the new values of `need_play` and `need_capt`. -/
inductive PollStep
  | ret (v : Int)
  | again (need_play need_capt : Bool)
  deriving DecidableEq, Repr

/-- The second half of the loop body of `pcm_wait`: decode the capture events. -/
def pcm_wait_capt_events (hw : Hw) (need_play need_capt : Bool) (n1 n2 : Int) (w : World) :
    PollStep × World :=
  if need_capt then
    let (r, w) := w.call hw
    let w := w.log (Ev.poll_revents Dir.capt (n2 - n1) r.revents)
    if r.revents &&& POLLERR ≠ 0 then (PollStep.ret 0, (recover hw w).2)
    else if r.revents &&& POLLIN ≠ 0 then (PollStep.again need_play false, w)
    else (PollStep.again need_play need_capt, w)
  else (PollStep.again need_play need_capt, w)

/-- The first half of the decoding in the loop body of `pcm_wait`: the
playback events, then the capture events. -/
def pcm_wait_play_events (hw : Hw) (need_play need_capt : Bool) (n1 n2 : Int) (w : World) :
    PollStep × World :=
  if need_play then
    let (r, w) := w.call hw
    let w := w.log (Ev.poll_revents Dir.play n1 r.revents)
    if r.revents &&& POLLERR ≠ 0 then (PollStep.ret 0, (recover hw w).2)
    else if r.revents &&& POLLOUT ≠ 0 then pcm_wait_capt_events hw false need_capt n1 n2 w
    else pcm_wait_capt_events hw need_play need_capt n1 n2 w
  else pcm_wait_capt_events hw need_play need_capt n1 n2 w

/-- `snd_pcm_poll_descriptors` for stream `d`, when it is still waited for. -/
def pcm_wait_descriptors (hw : Hw) (d : Dir) (need : Bool) (w : World) : World :=
  if need then (w.call hw).2.log (Ev.poll_descriptors d) else w

/-- `ppoll` over `n2` descriptors with a timeout of one second, and what
`pcm_wait` does with its result. -/
def pcm_wait_ppoll (hw : Hw) (need_play need_capt : Bool) (n1 n2 : Int) (w : World) :
    PollStep × World :=
  let (r, w) := w.call hw
  let w := w.log (Ev.ppoll n2 r.ret)
  if r.ret < 0 then (PollStep.ret 0, w)
  else if r.ret = 0 then (PollStep.ret 0, w)
  else pcm_wait_play_events hw need_play need_capt n1 n2 w

/-- One turn of the loop of `pcm_wait`: collect the descriptors of the streams
still waited for, `ppoll`, decode the events. -/
def pcm_wait_poll (hw : Hw) (need_play need_capt : Bool) (w : World) : PollStep × World :=
  let n1 : Int := if need_play then 0 + w.io.play_npfd else 0
  let n2 : Int := if need_capt then n1 + w.io.capt_npfd else n1
  let w := pcm_wait_descriptors hw Dir.play need_play w
  let w := pcm_wait_descriptors hw Dir.capt need_capt w
  pcm_wait_ppoll hw need_play need_capt n1 n2 w

/-- The loop `while (need_play || need_capt)` of `pcm_wait`.  `none`: the
loop is still running when the fuel is used up; `some (some v, _)`: the
function returned `v` from inside the loop; `some (none, _)`: the loop ended
with every enabled stream ready. -/
def pcm_wait_loop (hw : Hw) : Nat → Bool → Bool → World → Option (Option Int × World)
  | 0, need_play, need_capt, w =>
    if need_play || need_capt then none else some (none, w)
  | fuel + 1, need_play, need_capt, w =>
    if need_play || need_capt then
      match pcm_wait_poll hw need_play need_capt w with
      | (PollStep.ret v, w) => some (some v, w)
      | (PollStep.again need_play need_capt, w) => pcm_wait_loop hw fuel need_play need_capt w
    else some (none, w)

/-- The end of `pcm_wait`, after the loop: query the available frames of the
two streams and return the smaller count. -/
def pcm_wait_avail (hw : Hw) (w : World) : Int × World :=
  let capt (play_av : Int) (w : World) : Int × World :=
    if w.io.capt_handle then
      let (r, w) := w.call hw
      let w := w.log (Ev.avail_update Dir.capt r.ret)
      if r.ret < 0 then (0, (recover hw w).2)
      else (if r.ret < play_av then r.ret else play_av, w)
    else (if (999999999 : Int) < play_av then 999999999 else play_av, w)
  if w.io.play_handle then
    let (r, w) := w.call hw
    let w := w.log (Ev.avail_update Dir.play r.ret)
    if r.ret < 0 then (0, (recover hw w).2) else capt r.ret w
  else capt 999999999 w

/-- `pcm_wait (io)`. -/
def pcm_wait (hw : Hw) (fuel : Nat) (w : World) : Option (Int × World) :=
  let w := w.log Ev.enter_pcm_wait
  match pcm_wait_loop hw fuel w.io.play_handle w.io.capt_handle w with
  | none => none
  | some (some v, w) => some (v, w)
  | some (none, w) => some (pcm_wait_avail hw w)

/-! ## The worker: `run_thread` -/

/-- `size_t end = io->run_for * io->samplerate / io->samples_per_period`,
computed in `float` and cut off to an integer. -/
def end_cycles (run_for : F32) (samplerate samples_per_period : Nat) : Nat :=
  F32.toSizeT
    (F32.div (F32.mul run_for (F32.ofInt samplerate)) (F32.ofInt samples_per_period))

/-- The body of the inner loop of `run_thread`: one capture period, one
playback period filled with silence. -/
def process_period (hw : Hw) (w : World) : World :=
  let w := (capt_init hw w.io.samples_per_period w).2
  let w := (capt_done hw (c_int w.io.samples_per_period) w).2
  let w := (play_init hw w.io.samples_per_period w).2
  let w := clear_all w
  (play_done hw (c_int w.io.samples_per_period) w).2

/-- The inner loop of `run_thread`,
`while (nr >= (long) io->samples_per_period) { ...; nr -= io->samples_per_period; }`.
`none`: still running when the fuel is used up. -/
def drain (hw : Hw) : Nat → Int → World → Option (Int × World)
  | 0, nr, w =>
    if nr ≥ c_long w.io.samples_per_period then none else some (nr, w)
  | fuel + 1, nr, w =>
    if nr ≥ c_long w.io.samples_per_period then
      drain hw fuel (c_long (nr - w.io.samples_per_period)) (process_period hw w)
    else some (nr, w)

/-- The outer loop of `run_thread`,
`for (loop = 0; io->run_for <= 0 || loop < end; ++loop)`.  `signalled loop`
is the value of the flag `signalled` when it is read at the end of turn
`loop`.  The inner loop takes away at least one frame per turn when a period
is at least one frame long and fits a `long`, so `nr` turns are all it can
need then.  `none`: a
loop is still running when its fuel is used up. -/
def run_thread_loop (hw : Hw) (signalled : Nat → Bool) (fuel : Nat) (end_ : Nat) :
    Nat → Nat → World → Option World
  | 0, loop, w =>
    if decide (w.io.run_for.m ≤ 0) || decide (loop < end_) then none else some w
  | turns + 1, loop, w =>
    if decide (w.io.run_for.m ≤ 0) || decide (loop < end_) then
      match pcm_wait hw fuel w with
      | none => none
      | some (nr, w) =>
        match drain hw nr.toNat nr w with
        | none => none
        | some (_, w) =>
          if signalled loop then some w
          else run_thread_loop hw signalled fuel end_ turns (loop + 1) w
    else some w

/-- `run_thread (io)`.  `turns` bounds the outer loop, `fuel` every loop of
`pcm_wait`. -/
def run_thread (hw : Hw) (signalled : Nat → Bool) (fuel turns : Nat) (w : World) :
    Option World :=
  run_thread_loop hw signalled fuel
    (end_cycles w.io.run_for w.io.samplerate w.io.samples_per_period) turns 0 w

/-! ## Stream configurator: `set_hwpar`, `set_swpar` -/

/-- `SND_PCM_ACCESS_MMAP_INTERLEAVED`. -/
def SND_PCM_ACCESS_MMAP_INTERLEAVED : Nat := 0

/-- `SND_PCM_ACCESS_MMAP_NONINTERLEAVED`. -/
def SND_PCM_ACCESS_MMAP_NONINTERLEAVED : Nat := 1

/-- `SND_PCM_ACCESS_MMAP_COMPLEX`. -/
def SND_PCM_ACCESS_MMAP_COMPLEX : Nat := 2

/-- `SND_PCM_FORMAT_S16_LE`. -/
def SND_PCM_FORMAT_S16_LE : Nat := 2

/-- `SND_PCM_FORMAT_S16_BE`. -/
def SND_PCM_FORMAT_S16_BE : Nat := 3

/-- `SND_PCM_FORMAT_S24_LE`. -/
def SND_PCM_FORMAT_S24_LE : Nat := 6

/-- `SND_PCM_FORMAT_S24_BE`. -/
def SND_PCM_FORMAT_S24_BE : Nat := 7

/-- `SND_PCM_FORMAT_S32_LE`. -/
def SND_PCM_FORMAT_S32_LE : Nat := 10

/-- `SND_PCM_FORMAT_S32_BE`. -/
def SND_PCM_FORMAT_S32_BE : Nat := 11

/-- `SND_PCM_FORMAT_FLOAT_LE`. -/
def SND_PCM_FORMAT_FLOAT_LE : Nat := 14

/-- `SND_PCM_FORMAT_S24_3LE`. -/
def SND_PCM_FORMAT_S24_3LE : Nat := 32

/-- `SND_PCM_FORMAT_S24_3BE`. -/
def SND_PCM_FORMAT_S24_3BE : Nat := 33

/-- `*nchan` of `set_hwpar`: the channel count of one direction. -/
def AlsaIO.nchan (io : AlsaIO) : Dir → Nat
  | Dir.play => io.play_nchan
  | Dir.capt => io.capt_nchan

/-- Assignment to `*nchan`. -/
def AlsaIO.set_nchan (io : AlsaIO) (d : Dir) (n : Nat) : AlsaIO :=
  match d with
  | Dir.play => { io with play_nchan := n }
  | Dir.capt => { io with capt_nchan := n }

/-- `ppc` of `set_hwpar`: the periods per cycle of one direction. -/
def AlsaIO.ppc (io : AlsaIO) : Dir → Nat
  | Dir.play => io.play_periods_per_cycle
  | Dir.capt => io.capt_periods_per_cycle

/-- The handle of one direction. -/
def AlsaIO.handle (io : AlsaIO) : Dir → Bool
  | Dir.play => io.play_handle
  | Dir.capt => io.capt_handle

/-- One parameter call on stream `d`. -/
def cfg_call (hw : Hw) (d : Dir) (c : Cfg) (w : World) : Resp × World :=
  let (r, w) := w.call hw
  (r, w.log (Ev.cfg d c r.ret))

/-- A chain `(f (a) < 0) && (f (b) < 0) && ...`: the calls are made in order
up to the first that does not fail; `true` when all of them failed. -/
def all_fail (hw : Hw) (d : Dir) : List Cfg → World → Bool × World
  | [], w => (true, w)
  | c :: cs, w =>
    let (r, w) := cfg_call hw d c w
    if r.ret < 0 then all_fail hw d cs w else (false, w)

/-- The access modes `set_hwpar` tries, in order. -/
def access_modes : List Cfg :=
  [Cfg.set_access SND_PCM_ACCESS_MMAP_NONINTERLEAVED,
   Cfg.set_access SND_PCM_ACCESS_MMAP_INTERLEAVED,
   Cfg.set_access SND_PCM_ACCESS_MMAP_COMPLEX]

/-- The sample formats `set_hwpar` tries, in order. -/
def sample_formats : List Cfg :=
  [Cfg.set_format SND_PCM_FORMAT_FLOAT_LE, Cfg.set_format SND_PCM_FORMAT_S32_LE,
   Cfg.set_format SND_PCM_FORMAT_S32_BE, Cfg.set_format SND_PCM_FORMAT_S24_3LE,
   Cfg.set_format SND_PCM_FORMAT_S24_3BE, Cfg.set_format SND_PCM_FORMAT_S24_LE,
   Cfg.set_format SND_PCM_FORMAT_S24_BE, Cfg.set_format SND_PCM_FORMAT_S16_LE,
   Cfg.set_format SND_PCM_FORMAT_S16_BE]

/-- The first part of `set_hwpar`, up to and including the sample rate:
`true` when no step has returned `-1`. -/
def set_hwpar_negotiate (hw : Hw) (d : Dir) (w : World) : Bool × World :=
  let (r, w) := cfg_call hw d Cfg.hw_params_any w
  if r.ret < 0 then (false, w)
  else
    let (r, w) := cfg_call hw d Cfg.set_periods_integer w
    if r.ret < 0 then (false, w)
    else
      let (err, w) := all_fail hw d access_modes w
      if err then (false, w)
      else
        let (err, w) := all_fail hw d sample_formats w
        if err then (false, w)
        else
          let (r, w) := cfg_call hw d (Cfg.set_rate w.io.samplerate) w
          if r.ret < 0 then (false, w) else (true, w)

/-- The three assignments of `set_hwpar` that settle `*nchan`:
`if (*nchan == 0) *nchan = max_chan; if (*nchan > 64) *nchan = 2;`. -/
def resolve_nchan (nchan max_chan : Nat) : Nat :=
  let nchan := if nchan = 0 then max_chan else nchan
  let nchan := if nchan > 64 then 2 else nchan
  nchan

/-- The second part of `set_hwpar`, from `snd_pcm_hw_params_get_channels_max`
to the end.  `max_chan` starts as 0 and is what the call leaves in it. -/
def set_hwpar_channels (hw : Hw) (d : Dir) (w : World) : Int × World :=
  let (r, w) := cfg_call hw d Cfg.get_channels_max w
  let max_chan := r.val
  let w := { w with io := w.io.set_nchan d (resolve_nchan (w.io.nchan d) max_chan) }
  if w.io.nchan d < 1 then (0, w)
  else
    let (r, w) := cfg_call hw d (Cfg.set_channels (w.io.nchan d)) w
    if r.ret < 0 then (-1, w)
    else
      let (r, w) := cfg_call hw d (Cfg.set_period_size w.io.samples_per_period) w
      if r.ret < 0 then (-1, w)
      else
        let (r, w) := cfg_call hw d (Cfg.set_periods (w.io.ppc d)) w
        if r.ret < 0 then (-1, w)
        else
          let (r, w) :=
            cfg_call hw d
              (Cfg.set_buffer_size (c_ulong (w.io.samples_per_period * w.io.ppc d))) w
          if r.ret < 0 then (-1, w)
          else
            let (r, w) := cfg_call hw d Cfg.hw_params w
            if r.ret < 0 then (-1, w) else (0, w)

/-- `set_hwpar (io, hwpar, play)`. -/
def set_hwpar (hw : Hw) (d : Dir) (w : World) : Int × World :=
  let (ok, w) := set_hwpar_negotiate hw d w
  if ok then set_hwpar_channels hw d w else (-1, w)

/-- `set_swpar (io, swpar, play)`. -/
def set_swpar (hw : Hw) (d : Dir) (w : World) : Int × World :=
  let (_, w) := cfg_call hw d Cfg.sw_params_current w
  let (r, w) := cfg_call hw d Cfg.set_tstamp_mode w
  if r.ret < 0 then (-1, w)
  else
    let (r, w) := cfg_call hw d (Cfg.set_avail_min w.io.samples_per_period) w
    if r.ret < 0 then (-1, w)
    else
      let (r, w) := cfg_call hw d Cfg.sw_params w
      if r.ret < 0 then (-1, w) else (0, w)

/-! ## Realtime launch: `realtime_pthread_create` -/

/-- The priority `realtime_pthread_create` stores in `parm.sched_priority`:
`priority += p_max; if (priority > p_max) priority = p_max;
if (priority < p_min) priority = p_min;` (integers without overflow). -/
def sched_priority (p_min p_max priority : Int) : Int :=
  let priority := priority + p_max
  let priority := if priority > p_max then p_max else priority
  let priority := if priority < p_min then p_min else priority
  priority

/-- `realtime_pthread_create (policy, priority, ...)`: the two priority
limits are asked for, the thread is created with the attributes set. -/
def realtime_pthread_create (hw : Hw) (priority : Int) (w : World) : Int × World :=
  let (rmin, w) := w.call hw
  let w := w.log (Ev.sched_get_priority rmin.ret)
  let (rmax, w) := w.call hw
  let w := w.log (Ev.sched_get_priority rmax.ret)
  let (r, w) := w.call hw
  (r.ret, w.log (Ev.thread_create (some (sched_priority rmin.ret rmax.ret priority)) r.ret))

/-- `pthread_create (&process_thread, NULL, run_thread, &io)`: default
scheduling, no priority set. -/
def default_pthread_create (hw : Hw) (w : World) : Int × World :=
  let (r, w) := w.call hw
  (r.ret, w.log (Ev.thread_create none r.ret))

/-! ## `main`

Of option parsing the model keeps what bounds the settings: every numeric
option is read with `atoi` and forced into a range (`parse_nchan`,
`parse_periods`, `parse_period`, `parse_rate`).  `main` itself is modelled
from "all systems go" on: it starts from the settings option parsing leaves
in `io` and in `Options`, which lie in `AlsaIO.in_range`. -/

/-- `case 'i':` and `case 'o':` of option parsing, `v = atoi (optarg)`: a
negative count is "auto" (0), a count above 64 becomes 64. -/
def parse_nchan (v : Int) : Nat :=
  if v < 0 then 0 else if v > 64 then 64 else v.toNat

/-- `case 'n':` and `case 'N':` of option parsing: the periods per cycle,
forced into 1 to 32. -/
def parse_periods (v : Int) : Nat :=
  if v < 1 then 1 else if v > 32 then 32 else v.toNat

/-- `case 'p':` of option parsing: the frames per period, forced into 8 to
8192. -/
def parse_period (v : Int) : Nat :=
  if v < 8 then 8 else if v > 8192 then 8192 else v.toNat

/-- `case 'r':` of option parsing: the sample rate, forced into 8000 to
192000. -/
def parse_rate (v : Int) : Nat :=
  if v < 8000 then 8000 else if v > 192000 then 192000 else v.toNat

/-- The ranges in which option parsing leaves the settings, each of them
being its default (2 channels, 128 frames, 2 periods, 48000 Hz) or what the
functions above return. -/
def AlsaIO.in_range (io : AlsaIO) : Prop :=
  io.play_nchan ≤ 64 ∧ io.capt_nchan ≤ 64
  ∧ 8 ≤ io.samples_per_period ∧ io.samples_per_period ≤ 8192
  ∧ 1 ≤ io.play_periods_per_cycle ∧ io.play_periods_per_cycle ≤ 32
  ∧ 1 ≤ io.capt_periods_per_cycle ∧ io.capt_periods_per_cycle ≤ 32
  ∧ 8000 ≤ io.samplerate ∧ io.samplerate ≤ 192000

/-- What option parsing leaves outside of `io`. -/
structure Options where
  rt_priority : Int
  sync : Bool
  noop : Bool
  deriving DecidableEq, Repr

/-- The label `out:` of `main`: close what is open, return `rv`. -/
def main_out (hw : Hw) (rv : Int) (w : World) : Int × World :=
  let w := if w.io.play_handle then (w.call hw).2.log (Ev.pcm_close Dir.play) else w
  let w := if w.io.capt_handle then (w.call hw).2.log (Ev.pcm_close Dir.capt) else w
  (rv, w)

/-- The two `snd_pcm_open` calls: a handle is non-NULL when its call did
not fail. -/
def main_open (hw : Hw) (w : World) : World :=
  let (r, w) := w.call hw
  let w := w.log (Ev.pcm_open Dir.play r.ret)
  let w := { w with io := { w.io with play_handle := decide (0 ≤ r.ret) } }
  let (r, w) := w.call hw
  let w := w.log (Ev.pcm_open Dir.capt r.ret)
  { w with io := { w.io with capt_handle := decide (0 ≤ r.ret) } }

/-- The four parameter allocations: `true` when none failed. -/
def main_alloc (hw : Hw) : Nat → Nat → World → Bool × World
  | 0, _, w => (true, w)
  | n + 1, which, w =>
    let (r, w) := w.call hw
    let w := w.log (Ev.params_malloc which r.ret)
    if r.ret < 0 then (false, w) else main_alloc hw n (which + 1) w

/-- The block `/* setup */` of `main`: `true` when no step took `goto out`. -/
def main_setup (hw : Hw) (opt : Options) (w : World) : Bool × World :=
  let capt (w : World) : Bool × World :=
    if w.io.capt_handle then
      let (r, w) := set_hwpar hw Dir.capt w
      if r < 0 then (false, w)
      else
        let (r, w) := set_swpar hw Dir.capt w
        if r < 0 then (false, w)
        else
          let (r, w) := cfg_call hw Dir.capt Cfg.poll_descriptors_count w
          let w := { w with io := { w.io with capt_npfd := r.ret } }
          if w.io.play_handle && opt.sync then
            let (r, w) := w.call hw
            let w := w.log (Ev.link r.ret)
            (true, { w with io := { w.io with synced := decide (r.ret = 0) } })
          else (true, w)
    else (true, w)
  let w := { w with io := { w.io with synced := false } }
  if w.io.play_handle then
    let (r, w) := set_hwpar hw Dir.play w
    if r < 0 then (false, w)
    else
      let (r, w) := set_swpar hw Dir.play w
      if r < 0 then (false, w)
      else
        let (r, w) := cfg_call hw Dir.play Cfg.poll_descriptors_count w
        capt { w with io := { w.io with play_npfd := r.ret } }
  else capt w

/-- One of the two blocks under `/* verify settings */`: rate, period size
and number of periods are read back; each `if` is
`get (...) || (val != requested) || dir`.  `true` when no `if` took
`goto out`. -/
def verify_stream (hw : Hw) (d : Dir) (w : World) : Bool × World :=
  let (r, w) := cfg_call hw d Cfg.get_rate w
  if r.ret ≠ 0 ∨ r.val ≠ w.io.samplerate ∨ r.dir ≠ 0 then (false, w)
  else
    let (r, w) := cfg_call hw d Cfg.get_period_size w
    if r.ret ≠ 0 ∨ r.val ≠ w.io.samples_per_period ∨ r.dir ≠ 0 then (false, w)
    else
      let (r, w) := cfg_call hw d Cfg.get_periods w
      if r.ret ≠ 0 ∨ r.val ≠ w.io.ppc d ∨ r.dir ≠ 0 then (false, w)
      else (true, w)

/-- The block `/* verify settings */` of `main`. -/
def verify_settings (hw : Hw) (w : World) : Bool × World :=
  let capt (w : World) : Bool × World :=
    if w.io.capt_handle then verify_stream hw Dir.capt w else (true, w)
  if w.io.play_handle then
    let (ok, w) := verify_stream hw Dir.play w
    if ok then capt w else (false, w)
  else capt w

/-- The `switch` over the sample format: bytes per sample, or `default:`. -/
def bytes_per_sample (format : Nat) : Option Nat :=
  if format = SND_PCM_FORMAT_FLOAT_LE ∨ format = SND_PCM_FORMAT_S32_LE
      ∨ format = SND_PCM_FORMAT_S32_BE ∨ format = SND_PCM_FORMAT_S24_LE
      ∨ format = SND_PCM_FORMAT_S24_BE then some 4
  else if format = SND_PCM_FORMAT_S24_3LE ∨ format = SND_PCM_FORMAT_S24_3BE then some 3
  else if format = SND_PCM_FORMAT_S16_LE ∨ format = SND_PCM_FORMAT_S16_BE then some 2
  else none

/-- The two blocks of `main` that read the sample format back, and the
report that sets the channel count of a disabled direction to 0. -/
def main_formats (hw : Hw) (w : World) : Bool × World :=
  let report (w : World) : Bool × World :=
    let w := if w.io.play_handle then w else { w with io := { w.io with play_nchan := 0 } }
    let w := if w.io.capt_handle then w else { w with io := { w.io with capt_nchan := 0 } }
    (true, w)
  let capt (w : World) : Bool × World :=
    if w.io.capt_handle then
      let (r, w) := cfg_call hw Dir.capt Cfg.get_format w
      let (_, w) := cfg_call hw Dir.capt Cfg.get_access w
      match bytes_per_sample r.val with
      | some n => report { w with io := { w.io with capt_bytes_per_sample := n } }
      | none => (false, w)
    else report w
  if w.io.play_handle then
    let (r, w) := cfg_call hw Dir.play Cfg.get_format w
    let (_, w) := cfg_call hw Dir.play Cfg.get_access w
    match bytes_per_sample r.val with
    | some n => capt { w with io := { w.io with play_bytes_per_sample := n } }
    | none => (false, w)
  else capt w

/-- The launch of the worker in `main`: real-time scheduling when
`rt_priority < 0`, the default otherwise. -/
def main_launch (hw : Hw) (opt : Options) (w : World) : Int × World :=
  if opt.rt_priority < 0 then realtime_pthread_create hw opt.rt_priority w
  else default_pthread_create hw w

/-- The end of `main`, from `pcm_start` to `return rv`.  With `--no-op` the
program only sleeps.  `pthread_join` is the run of `run_thread` to its end. -/
def main_run (hw : Hw) (signalled : Nat → Bool) (fuel turns : Nat) (opt : Options)
    (w : World) : Option (Int × World) :=
  let stop (w : World) : Option (Int × World) :=
    let (r, w) := pcm_stop hw w
    if r ≠ 0 then some (main_out hw (-1) w) else some (main_out hw 0 w)
  let (r, w) := pcm_start hw w
  if r ≠ 0 then some (main_out hw (-1) w)
  else if opt.noop then stop w
  else
    let (err, w) := main_launch hw opt w
    if err ≠ 0 then some (main_out hw (-1) (pcm_stop hw w).2)
    else
      match run_thread hw signalled fuel turns w with
      | none => none
      | some w => stop w

/-- The part of `main` from `/* verify settings */` on. -/
def main_tail (hw : Hw) (signalled : Nat → Bool) (fuel turns : Nat) (opt : Options)
    (w : World) : Option (Int × World) :=
  let (ok, w) := verify_settings hw w
  if ok then
    let (ok, w) := main_formats hw w
    if ok then main_run hw signalled fuel turns opt w
    else some (main_out hw (-1) w)
  else some (main_out hw (-1) w)

/-- `main`, after option parsing. -/
def main (hw : Hw) (signalled : Nat → Bool) (fuel turns : Nat) (opt : Options)
    (w : World) : Option (Int × World) :=
  let w := main_open hw w
  if !w.io.play_handle && !w.io.capt_handle then some (main_out hw (-1) w)
  else
    let (ok, w) := main_alloc hw 4 0 w
    if ok then
      let (ok, w) := main_setup hw opt w
      if ok then main_tail hw signalled fuel turns opt w
      else some (main_out hw (-1) w)
    else some (main_out hw (-1) w)

/-! ## Vocabulary of the statements -/

/-- The calls of the start sequence `pcm_start`: the availability query,
begin, commit and start. -/
def Ev.starting : Ev → Prop
  | Ev.avail_update _ _ => True
  | Ev.mmap_begin _ _ _ _ => True
  | Ev.mmap_commit _ _ _ _ => True
  | Ev.start _ _ => True
  | _ => False

/-- World `w'` continues the trace of `w` with calls that all satisfy `Q`. -/
def Emits (Q : Ev → Prop) (w w' : World) : Prop :=
  ∃ evs, w'.trace = w.trace ++ evs ∧ ∀ e ∈ evs, Q e

/-- Every stop command `pcm_stop` makes for the streams of `io` is in `D`, and
none of the stop commands in `D` failed. -/
def all_stopped (io : AlsaIO) (D : List Ev) : Prop :=
  (∀ d r, Ev.drop d r ∈ D → 0 ≤ r) ∧
  (io.play_handle = true → ∃ r, Ev.drop Dir.play r ∈ D) ∧
  (io.capt_handle = true → io.synced = false → ∃ r, Ev.drop Dir.capt r ∈ D)

/-- Every prepare command `recover` makes for the streams of `io` is in `P`,
and none of the prepare commands in `P` failed. -/
def all_prepared (io : AlsaIO) (P : List Ev) : Prop :=
  (∀ d r, Ev.prepare d r ∈ P → 0 ≤ r) ∧
  (io.play_handle = true → ∃ r, Ev.prepare Dir.play r ∈ P) ∧
  (io.capt_handle = true → io.synced = false → ∃ r, Ev.prepare Dir.capt r ∈ P)

/-- A query that succeeded and returned exactly `v`, direction indicator 0. -/
def query_ok (r : Resp) (v : Nat) : Prop := r.ret = 0 ∧ r.val = v ∧ r.dir = 0

/-- The answers to the calls number `n`, `n + 1` and `n + 2` are those of a
stream whose rate, period size and period count are the requested ones. -/
def stream_verified (hw : Hw) (io : AlsaIO) (d : Dir) (n : Nat) : Prop :=
  query_ok (hw n) io.samplerate ∧ query_ok (hw (n + 1)) io.samples_per_period ∧
    query_ok (hw (n + 2)) (io.ppc d)

/-- Parameter calls and `snd_pcm_close`: the calls that start nothing. -/
def Ev.quiet : Ev → Prop
  | Ev.cfg _ _ _ => True
  | Ev.pcm_close _ => True
  | _ => False

/-! ## Concrete inputs -/

/-- The answer "success, nothing to report". -/
def Resp.ok : Resp :=
  { ret := 0, val := 0, dir := 0, offset := 0, frames := 0, areas := fun _ => ⟨0, 0, 0⟩,
    revents := 0, status := ⟨0, ⟨0, 0⟩, ⟨0, 0⟩⟩ }

/-- The settings `main` starts from (48 kHz, 128 frames, 2 periods, 2
channels, 10 seconds), no stream open. -/
def AlsaIO.default : AlsaIO :=
  { samplerate := 48000, samples_per_period := 128, play_periods_per_cycle := 2,
    capt_periods_per_cycle := 2, play_nchan := 2, capt_nchan := 2, run_for := ⟨10, 0⟩,
    debug := false, play_handle := false, capt_handle := false, synced := false,
    play_ptr := fun _ => 0, capt_ptr := fun _ => 0, capt_offset := 0, play_offset := 0,
    play_bytes_per_sample := 0, capt_bytes_per_sample := 0, play_step := 0, capt_step := 0,
    play_npfd := 0, capt_npfd := 0 }

/-- A world with the given settings, zeroed memory, no call made yet. -/
def World.init (io : AlsaIO) : World :=
  { io := io, mem := fun _ => 0, calls := 0, trace := [] }

/-- Playback only, one poll descriptor. -/
def world_play_only : World :=
  World.init { AlsaIO.default with play_handle := true, play_npfd := 1 }

/-- A library that reports the playback stream writable at the first poll
and then `avail` frames available. -/
def hw_play_avail (avail : Int) : Hw := fun n =>
  if n = 1 then { Resp.ok with ret := 1 }
  else if n = 2 then { Resp.ok with revents := POLLOUT }
  else if n = 3 then { Resp.ok with ret := avail }
  else Resp.ok

/-- The count the library reports for the playback stream when `pcm_wait`
asks in state `w`, after its loop. -/
def play_avail (hw : Hw) (w : World) : Int := (hw w.calls).ret

/-- The count the library reports for the capture stream when `pcm_wait`
asks after its loop ended in state `w`: the call follows the playback query
when playback is enabled. -/
def capt_avail (hw : Hw) (w : World) : Int :=
  (hw (if w.io.play_handle = true then w.calls + 1 else w.calls)).ret

/-- The reference channel resolution of the specification:
`let n = if req = 0 then hwmax else req; if n > 64 then 2 else n`. -/
def resolve_ref (req hwmax : Nat) : Nat :=
  let n := if req = 0 then hwmax else req
  if n > 64 then 2 else n

/-- A library that answers every call with success and zeroes. -/
def hw_ok : Hw := fun _ => Resp.ok

/-- Playback only, channel count "auto" (0). -/
def world_auto_play : World :=
  World.init { AlsaIO.default with play_handle := true, play_nchan := 0 }

/-- Options as `main` defaults them. -/
def Options.default : Options := { rt_priority := -20, sync := true, noop := false }

/-- The priority the specification asks for: `p_max + r` clamped into
`[p_min, p_max]`. -/
def clamp_priority (p_min p_max r : Int) : Int := max p_min (min p_max (p_max + r))

/-- A library whose scheduler reports the priority range `[1, 99]` to the
first two calls. -/
def hw_fifo : Hw := fun n =>
  if n = 0 then { Resp.ok with ret := 1 } else if n = 1 then { Resp.ok with ret := 99 } else Resp.ok

/-- The exact difference, in microseconds, between the status time stamp and
the trigger time stamp. -/
def elapsed_usec (stat : Status) : Int :=
  (stat.tstamp.tv_sec - stat.trigger_tstamp.tv_sec) * 1000000
    + (stat.tstamp.tv_usec - stat.trigger_tstamp.tv_usec)

/-- A status in the xrun state taken `2 ^ 31` seconds after the trigger. -/
def status_far : Status :=
  { state := SND_PCM_STATE_XRUN, tstamp := ⟨2147483648, 0⟩, trigger_tstamp := ⟨0, 0⟩ }

/-- A status in the xrun state taken 1.5 ms after the trigger, across a
second boundary. -/
def status_borrow : Status :=
  { state := SND_PCM_STATE_XRUN, tstamp := ⟨11, 500⟩, trigger_tstamp := ⟨10, 999000⟩ }

/-- The part of `io` that is settled before the streams run: everything
but the mmap pointers, offsets and strides, which are blanked here. -/
def AlsaIO.fixed (io : AlsaIO) : AlsaIO :=
  { io with play_ptr := fun _ => 0, capt_ptr := fun _ => 0, capt_offset := 0, play_offset := 0,
            play_step := 0, capt_step := 0 }

/-- Every call but the entry into `pcm_wait`. -/
def Ev.inner (e : Ev) : Prop := e ≠ Ev.enter_pcm_wait

/-- Number of times `pcm_wait` was entered. -/
def count_waits (t : List Ev) : Nat := t.count Ev.enter_pcm_wait

/-- The flag `signalled` is never set. -/
def never_signalled : Nat → Bool := fun _ => false

/-- What a step does to the world outside of memory: it adds calls that are
not entries into `pcm_wait`, and leaves the settled part of `io` alone. -/
def Steady (w w' : World) : Prop := Emits Ev.inner w w' ∧ w'.io.fixed = w.io.fixed

/-! ## The playback region and its samples -/

/-- The address of byte `b` of the sample of frame `frame` in a channel area:
the samples of a channel start `first` bits after `addr` and lie `step` bits
apart. -/
def sample_byte (a : Area) (frame b : Nat) : Nat :=
  a.addr + (a.first + a.step * frame) / 8 + b

/-- Every byte of each of the `samples_per_period` samples of every playback
channel is zero in `mem`, in the region that the answer `r` of
`snd_pcm_mmap_begin` describes. -/
def region_silent (io : AlsaIO) (r : Resp) (mem : Nat → Nat) : Prop :=
  ∀ j, j < io.play_nchan → ∀ k, k < io.samples_per_period →
    ∀ b, b < io.play_bytes_per_sample →
      mem (sample_byte (r.areas j) (r.offset + k) b) = 0

/-- The state in which `play_done` is called, in `pcm_start` as in
`run_thread`: after `play_init` and the `clear_chan` of every channel. -/
def at_commit (hw : Hw) (w : World) : World :=
  clear_all (play_init hw w.io.samples_per_period w).2

/-- The capture half of an inner turn of `run_thread`, which comes before
the playback half: `capt_init`, then `capt_done`. -/
def capt_period (hw : Hw) (w : World) : World :=
  let w := (capt_init hw w.io.samples_per_period w).2
  (capt_done hw (c_int w.io.samples_per_period) w).2

/-- A region of two channels whose samples lie 32 bits apart in channel 0
and 64 bits apart in channel 1. -/
def hw_mixed : Hw := fun _ =>
  { Resp.ok with frames := 2,
                 areas := fun j => if j = 0 then ⟨0, 0, 32⟩ else ⟨1000, 0, 64⟩ }

/-- Playback of two channels of 4-byte samples, 2 frames per period, over a
memory that holds 255 in every byte. -/
def world_noise : World :=
  { io := { AlsaIO.default with play_handle := true, samples_per_period := 2,
                                play_bytes_per_sample := 4 },
    mem := fun _ => 255, calls := 0, trace := [] }

/-- A region of two interleaved channels of 4-byte samples: both 64 bits
apart, channel 1 starting 32 bits into the frame. -/
def hw_interleaved : Hw := fun _ =>
  { Resp.ok with frames := 2,
                 areas := fun j => if j = 0 then ⟨1000, 0, 64⟩ else ⟨1000, 32, 64⟩ }

/-! ## Begin and commit -/

/-- The two calls of one period on stream `d`, as `pcm_start` and
`run_thread` make them when the stream is open: a begin asking for
`samples_per_period` frames, answered by call `n`, then a commit of
`samples_per_period` frames, answered by call `n + 1`, at the offset the
begin wrote; after a begin that failed the model goes on to a commit at
`offset0`, the offset held before (for the playback stream see the note at
`clear_chan`). -/
def period_events (d : Dir) (io : AlsaIO) (hw : Hw) (n : Nat) (offset0 : Nat) : List Ev :=
  [Ev.mmap_begin d io.samples_per_period (hw n).ret (hw n).frames,
   Ev.mmap_commit d (if (hw n).ret < 0 then offset0 else (hw n).offset)
     io.samples_per_period (hw (n + 1)).ret]

/-- A trace made of begins, each followed at once by a commit, in which
every begin that succeeded has its commit on the same stream with at most
the granted length. -/
def within_grant : List Ev → Bool
  | Ev.mmap_begin d _ ret granted :: Ev.mmap_commit d' _ frames _ :: t =>
    (decide (ret < 0) || (decide (d = d') && decide (frames ≤ granted))) && within_grant t
  | [] => true
  | _ => false

/-! ## What `clear_chan` writes -/

/-- Address `a` lies in one of the `len` stores of `clear_chan (dst, len)`
with stride `s`: the four bytes from `dst + k * s` on, for some `k < len`. -/
def in_store (s dst len a : Nat) : Prop :=
  ∃ k, k < len ∧ dst + k * s ≤ a ∧ a < dst + k * s + 4

/-! ## The inner loop of `run_thread` -/

/-- The calls of one begin/commit pair on stream `d` asking for `spp`
frames, when the stream is open; no call when it is not. -/
def pair_of (spp : Nat) (enabled : Bool) (d : Dir) (l : List Ev) : Prop :=
  if enabled = true then
    ∃ r g o f r', l = [Ev.mmap_begin d spp r g, Ev.mmap_commit d o f r']
  else l = []

/-- The calls of `k` turns of the inner loop: in each turn the pair of the
capture stream, then the pair of the playback stream. -/
def drained (spp : Nat) (capt play : Bool) : Nat → List Ev → Prop
  | 0, t => t = []
  | k + 1, t =>
    ∃ C P t', t = C ++ (P ++ t') ∧ pair_of spp capt Dir.capt C ∧ pair_of spp play Dir.play P
      ∧ drained spp capt play k t'

/-! ## The start sequence -/

/-- The number of frames committed by the calls of a trace. -/
def committed : List Ev → Nat
  | [] => 0
  | Ev.mmap_commit _ _ f _ :: t => f + committed t
  | _ :: t => committed t

/-- Playback and capture, one poll descriptor each, not linked. -/
def world_duplex : World :=
  World.init { AlsaIO.default with play_handle := true, capt_handle := true, play_npfd := 1,
                                   capt_npfd := 1 }

/-! ## The ways `pcm_wait` ends -/

/-- An answer after which `pcm_wait` goes on: a wait that reports a
descriptor, decoded events without the error flag, a count that is not
negative; and the calls that have no answer to look at. -/
def Ev.benign : Ev → Prop
  | Ev.enter_pcm_wait => True
  | Ev.poll_descriptors _ => True
  | Ev.ppoll _ r => 0 < r
  | Ev.poll_revents _ _ rev => rev &&& POLLERR = 0
  | Ev.avail_update _ r => 0 ≤ r
  | _ => False

/-- The wait timed out (`ppoll` returned 0) or failed (it returned a
negative value). -/
def Ev.idle : Ev → Prop
  | Ev.ppoll _ r => r ≤ 0
  | _ => False

/-- The decoded events of a stream carry the error flag, or an
available-frame query returned a negative value. -/
def Ev.alarm : Ev → Prop
  | Ev.poll_revents _ _ rev => rev &&& POLLERR ≠ 0
  | Ev.avail_update _ r => r < 0
  | _ => False

/-- The calls made inside `recover`: status queries, stop and prepare
commands, and the start sequence. -/
def Ev.recovering : Ev → Prop
  | Ev.status _ _ _ => True
  | Ev.drop _ _ => True
  | Ev.prepare _ _ => True
  | Ev.avail_update _ _ => True
  | Ev.mmap_begin _ _ _ _ => True
  | Ev.mmap_commit _ _ _ _ => True
  | Ev.start _ _ => True
  | _ => False

/-- Number of times `recover` was entered. -/
def count_recover (t : List Ev) : Nat := t.count Ev.enter_recover

/-- From `w` to `w'` only calls with a benign answer were made. -/
def Calm (w w' : World) : Prop := Emits Ev.benign w w'

/-- From `w` to `w'` the calls had benign answers up to a last one, which
either is a wait that timed out or failed, `w'` being the state right after
it, or is an alarm, `w'` being the state in which `recover`, called right
after it, ends. -/
def Stops (hw : Hw) (w w' : World) : Prop :=
  (∃ B e, w'.trace = w.trace ++ (B ++ [e]) ∧ (∀ x ∈ B, x.benign) ∧ e.idle)
  ∨ (∃ B e wr, wr.trace = w.trace ++ (B ++ [e]) ∧ (∀ x ∈ B, x.benign) ∧ e.alarm
      ∧ w' = (recover hw wr).2)

/-- A library whose answers are those of the list, in order, and "success,
nothing to report" after its end. -/
def hw_list (l : List Resp) : Hw := fun n => l.getD n Resp.ok

/-- The state in which `pcm_wait`, entered in `w`, calls `recover` when, with
playback only, the first wait reports a descriptor and the decoded events
are `rev`. -/
def world_at_alarm (hw : Hw) (w : World) (rev : Nat) : World :=
  ((((((w.log Ev.enter_pcm_wait).call hw).2.log (Ev.poll_descriptors Dir.play)).call hw).2.log
    (Ev.ppoll 1 1)).call hw).2.log (Ev.poll_revents Dir.play 1 rev)

/-- Playback only: the wait reports a descriptor, its decoded events carry
the error flag, and the stop command of the recovery fails. -/
def hw_pollerr : Hw :=
  hw_list [Resp.ok, { Resp.ok with ret := 1 }, { Resp.ok with revents := POLLERR },
           Resp.ok, { Resp.ok with ret := -5 }]

/-! ## A recovery that fails -/

/-- Playback only, 128 frames per period, 2 periods, a run of 1 second at
256 frames per second: 2 cycles. -/
def world_short_run : World :=
  World.init { AlsaIO.default with play_handle := true, play_npfd := 1, run_for := ⟨1, 0⟩,
                                   samplerate := 256 }

/-- Default scheduling for the worker. -/
def opt_plain : Options := { rt_priority := 0, sync := true, noop := false }

/-- A library that reports a maximum of 128 channels to the sixth call, the
one `set_hwpar` makes to `snd_pcm_hw_params_get_channels_max` when the calls
before it succeed at once. -/
def hw_many_channels : Hw := fun n => if n = 5 then { Resp.ok with val := 128 } else Resp.ok

/-- The answer of a begin that succeeds and grants `frames` frames of a
region of two interleaved channels of 4-byte samples at address 1000. -/
def Resp.region (frames : Nat) : Resp :=
  { Resp.ok with frames := frames,
                 areas := fun j => if j = 0 then ⟨1000, 0, 64⟩ else ⟨1000, 32, 64⟩ }

/-- A library whose first answer, to the begin, grants 64 frames. -/
def hw_short : Hw := fun n => if n = 0 then Resp.region 64 else Resp.ok

/-- A library whose first answer, to the begin, grants 128 frames. -/
def hw_full : Hw := fun n => if n = 0 then Resp.region 128 else Resp.ok

/-- The calls of `k` priming turns: `k` times a begin on the playback stream
that asks for `spp` frames and succeeds, followed by a commit of `spp`
frames on it. -/
def primed (spp : Nat) : Nat → List Ev → Prop
  | 0, t => t = []
  | k + 1, t =>
    ∃ r g o r' t', 0 ≤ r
      ∧ t = Ev.mmap_begin Dir.play spp r g :: Ev.mmap_commit Dir.play o spp r' :: t'
      ∧ primed spp k t'

/-- A library for `pcm_start` with 2 periods per cycle: the first call, the
availability query, returns `avail`; the second and the fourth, the begins,
grant 128 frames of a region; every other call succeeds. -/
def hw_start (avail : Int) : Hw := fun n =>
  if n = 0 then { Resp.ok with ret := avail }
  else if n = 1 ∨ n = 3 then Resp.region 128
  else Resp.ok

/-- A library whose every answer is success, a begin granting 128 frames of
a region. -/
def hw_region : Hw := fun _ => Resp.region 128

/-- A library whose begin grants 128 frames of a region of two channels that
are not interleaved, of 2-byte samples 16 bits apart: channel 0 from address
1000 on, channel 1 from address 5000 on. -/
def hw_s16 : Hw := fun _ =>
  { Resp.ok with frames := 128,
                 areas := fun j => if j = 0 then ⟨1000, 0, 16⟩ else ⟨5000, 0, 16⟩ }

/-- Playback with the default settings (2 channels, 128 frames per period)
and 2-byte samples, over a memory that holds 255 in every byte. -/
def world_s16 : World :=
  { io := { AlsaIO.default with play_handle := true, play_bytes_per_sample := 2 },
    mem := fun _ => 255, calls := 0, trace := [] }

/-- The loop of `pcm_wait` after `k` turns that all came to the bottom of the
loop body: the values of `need_play` and `need_capt` and the state at the
top of the next turn.  `none` when one of the `k` turns returned from
`pcm_wait` or the loop had ended before. -/
def pcm_wait_turns (hw : Hw) : Nat → Bool → Bool → World → Option (Bool × Bool × World)
  | 0, need_play, need_capt, w => some (need_play, need_capt, w)
  | k + 1, need_play, need_capt, w =>
    if need_play || need_capt then
      match pcm_wait_poll hw need_play need_capt w with
      | (PollStep.ret _, _) => none
      | (PollStep.again need_play need_capt, w) => pcm_wait_turns hw k need_play need_capt w
    else none

/-- A library for a whole run of `main_run` from `world_short_run`: the
start sequence, with both begins granting a region of 128 frames, and the
creation of the worker succeed; in the first cycle the decoded events carry
the error flag and the stop command of the recovery fails with -5; in the
second cycle the stream is writable, 128 frames are available and the begin
grants a region; everything after that succeeds. -/
def hw_failed_recovery : Hw :=
  hw_list [{ Resp.ok with ret := 256 }, Resp.region 128, Resp.ok, Resp.region 128, Resp.ok,
           Resp.ok, Resp.ok,
           Resp.ok, { Resp.ok with ret := 1 }, { Resp.ok with revents := POLLERR },
           Resp.ok, { Resp.ok with ret := -5 },
           Resp.ok, { Resp.ok with ret := 1 }, { Resp.ok with revents := POLLOUT },
           { Resp.ok with ret := 128 }, Resp.region 128]

/-- The state of that run in which `run_thread` is entered: after
`pcm_start` and the creation of the worker. -/
def world_at_launch : World :=
  (main_launch hw_failed_recovery opt_plain (pcm_start hw_failed_recovery world_short_run).2).2

/-! # Theorems -/

/-! ## Traces -/

@[simp] theorem call_io (hw : Hw) (w : World) : (w.call hw).2.io = w.io := rfl

@[simp] theorem call_mem (hw : Hw) (w : World) : (w.call hw).2.mem = w.mem := rfl

@[simp] theorem call_trace (hw : Hw) (w : World) : (w.call hw).2.trace = w.trace := rfl

@[simp] theorem call_calls (hw : Hw) (w : World) : (w.call hw).2.calls = w.calls + 1 := rfl

@[simp] theorem call_resp (hw : Hw) (w : World) : (w.call hw).1 = hw w.calls := rfl

@[simp] theorem log_io (w : World) (e : Ev) : (w.log e).io = w.io := rfl

@[simp] theorem log_mem (w : World) (e : Ev) : (w.log e).mem = w.mem := rfl

@[simp] theorem log_calls (w : World) (e : Ev) : (w.log e).calls = w.calls := rfl

@[simp] theorem log_trace (w : World) (e : Ev) : (w.log e).trace = w.trace ++ [e] := rfl

/-- `w'` extends the trace of `w` by events that all satisfy `Q`. -/

theorem Emits.refl (Q : Ev → Prop) (w : World) : Emits Q w w := ⟨[], by simp, by simp⟩

theorem Emits.of_trace_eq {Q : Ev → Prop} {w w' : World} (h : w'.trace = w.trace) : Emits Q w w' :=
  ⟨[], by simp [h], by simp⟩

theorem Emits.trans {Q : Ev → Prop} {a b c : World} (h1 : Emits Q a b) (h2 : Emits Q b c) :
    Emits Q a c := by
  obtain ⟨e1, t1, q1⟩ := h1
  obtain ⟨e2, t2, q2⟩ := h2
  refine ⟨e1 ++ e2, by rw [t2, t1, List.append_assoc], ?_⟩
  intro e he
  rcases List.mem_append.1 he with h | h
  · exact q1 e h
  · exact q2 e h

theorem Emits.log {Q : Ev → Prop} {a b : World} (h : Emits Q a b) (e : Ev) (he : Q e) :
    Emits Q a (b.log e) := by
  refine h.trans ⟨[e], rfl, ?_⟩
  intro x hx
  rw [List.mem_singleton] at hx
  exact hx ▸ he

theorem Emits.call {Q : Ev → Prop} {a b : World} (h : Emits Q a b) (hw : Hw) :
    Emits Q a (b.call hw).2 := h.trans (Emits.of_trace_eq rfl)

theorem for_range_emits (Q : Ev → Prop) (body : Nat → World → World)
    (hb : ∀ i w, Emits Q w (body i w)) : ∀ n lo w, Emits Q w (for_range n lo body w) := by
  intro n
  induction n with
  | zero => intro lo w; exact Emits.refl Q w
  | succ n ih => intro lo w; exact (hb lo w).trans (ih (lo + 1) (body lo w))

theorem for_range_inv (P : World → Prop) (body : Nat → World → World)
    (hb : ∀ i w, P w → P (body i w)) : ∀ n lo w, P w → P (for_range n lo body w) := by
  intro n
  induction n with
  | zero => intro lo w h; exact h
  | succ n ih => intro lo w h; exact ih (lo + 1) (body lo w) (hb lo w h)

@[simp] theorem clear_all_trace (w : World) : (clear_all w).trace = w.trace := by
  unfold clear_all
  refine for_range_inv (fun x => x.trace = w.trace) _ ?_ _ _ _ rfl
  intro i x h
  exact h

@[simp] theorem clear_all_io (w : World) : (clear_all w).io = w.io := by
  unfold clear_all
  refine for_range_inv (fun x => x.io = w.io) _ ?_ _ _ _ rfl
  intro i x h
  exact h

@[simp] theorem clear_all_calls (w : World) : (clear_all w).calls = w.calls := by
  unfold clear_all
  refine for_range_inv (fun x => x.calls = w.calls) _ ?_ _ _ _ rfl
  intro i x h
  exact h

theorem emits_call_log (Q : Ev → Prop) (hw : Hw) (w : World) (e : Ev) (he : Q e) :
    Emits Q w ((w.call hw).2.log e) :=
  ((Emits.refl Q w).call hw).log e he

theorem play_init_emits (hw : Hw) (len : Nat) (w : World) :
    Emits Ev.starting w (play_init hw len w).2 := by
  unfold play_init
  split
  · exact Emits.refl _ _
  · simp only []
    split
    · exact emits_call_log _ hw w _ (by exact trivial)
    · exact Emits.trans (emits_call_log _ hw w _ (by exact trivial)) (Emits.of_trace_eq rfl)

theorem play_done_emits (hw : Hw) (len : Int) (w : World) :
    Emits Ev.starting w (play_done hw len w).2 := by
  unfold play_done mmap_commit
  split
  · exact Emits.refl _ _
  · exact emits_call_log _ hw w _ (by exact trivial)

theorem prime_period_emits (hw : Hw) (w : World) :
    Emits Ev.starting w (prime_period hw w) := by
  unfold prime_period
  exact ((play_init_emits hw _ w).trans (Emits.of_trace_eq (clear_all_trace _))).trans
    (play_done_emits hw _ _)

theorem pcm_start_capt_emits (hw : Hw) (w : World) :
    Emits Ev.starting w (pcm_start_capt hw w).2 := by
  unfold pcm_start_capt
  split
  · simp only []
    split <;> exact emits_call_log _ hw w _ (by exact trivial)
  · exact Emits.refl _ _

theorem pcm_start_emits (hw : Hw) (w : World) :
    Emits Ev.starting w (pcm_start hw w).2 := by
  unfold pcm_start
  split
  · simp only []
    have h1 := emits_call_log Ev.starting hw w (Ev.avail_update Dir.play (hw w.calls).ret)
      (by exact trivial)
    split
    · exact h1
    · have h2 := h1.trans (for_range_emits Ev.starting (fun _ w => prime_period hw w)
        (fun _ w => prime_period_emits hw w) w.io.play_periods_per_cycle 0 _)
      have h3 := (h2.call hw).log (Ev.start Dir.play (hw (for_range w.io.play_periods_per_cycle 0
        (fun _ w => prime_period hw w)
        ((w.call hw).2.log (Ev.avail_update Dir.play (hw w.calls).ret))).calls).ret) (by exact trivial)
      split
      · exact h3
      · exact h3.trans (pcm_start_capt_emits hw _)
  · exact pcm_start_capt_emits hw w

theorem recover_start_emits (hw : Hw) (w : World) :
    Emits Ev.starting w (recover_start hw w).2 := by
  unfold recover_start
  simp only []
  split <;> exact pcm_start_emits hw w

theorem pcm_stop_capt_spec (hw : Hw) (w : World) :
    ∃ D, (pcm_stop_capt hw w).2.trace = w.trace ++ D ∧ (pcm_stop_capt hw w).2.io = w.io ∧
      (∀ e ∈ D, ∃ r, e = Ev.drop Dir.capt r) ∧
      ((pcm_stop_capt hw w).1 = 0 →
        (∀ r, Ev.drop Dir.capt r ∈ D → 0 ≤ r) ∧
        (w.io.capt_handle = true → w.io.synced = false → ∃ r, Ev.drop Dir.capt r ∈ D)) := by
  unfold pcm_stop_capt
  by_cases h : (w.io.capt_handle && !w.io.synced) = true
  · by_cases hr : (hw w.calls).ret < 0
    · refine ⟨[Ev.drop Dir.capt (hw w.calls).ret], ?_, ?_, ?_, ?_⟩ <;> simp [h, hr, World.call]
    · refine ⟨[Ev.drop Dir.capt (hw w.calls).ret], ?_, ?_, ?_, ?_⟩ <;> simp [h, hr, World.call]
      exact not_lt.1 hr
  · refine ⟨[], ?_, ?_, ?_, ?_⟩ <;> simp [h]
    intro hc
    simpa [hc] using h

theorem pcm_stop_spec (hw : Hw) (w : World) :
    ∃ D, (pcm_stop hw w).2.trace = w.trace ++ D ∧ (pcm_stop hw w).2.io = w.io ∧
      (∀ e ∈ D, ∃ d r, e = Ev.drop d r) ∧ ((pcm_stop hw w).1 = 0 → all_stopped w.io D) := by
  unfold pcm_stop
  by_cases hp : w.io.play_handle = true
  · by_cases hr : (hw w.calls).ret < 0
    · refine ⟨[Ev.drop Dir.play (hw w.calls).ret], ?_, ?_, ?_, ?_⟩ <;> simp [hp, hr, World.call]
    · obtain ⟨D, ht, hio, hD, hs⟩ :=
        pcm_stop_capt_spec hw ((w.call hw).2.log (Ev.drop Dir.play (hw w.calls).ret))
      refine ⟨Ev.drop Dir.play (hw w.calls).ret :: D, ?_, ?_, ?_, ?_⟩
      · simp [hp, hr, World.call] at ht ⊢
        simpa [World.call, World.log] using ht
      · simp [hp, hr, World.call] at hio ⊢
        simpa [World.call, World.log] using hio
      · intro e he
        rcases List.mem_cons.1 he with h | h
        · exact ⟨_, _, h⟩
        · obtain ⟨r, hr'⟩ := hD e h
          exact ⟨_, _, hr'⟩
      · simp [hp, hr, World.call]
        intro h0
        have := hs (by simpa [World.call, World.log] using h0)
        refine ⟨?_, ?_, ?_⟩
        · intro d r hm
          rcases List.mem_cons.1 hm with h | h
          · cases h; exact not_lt.1 hr
          · obtain ⟨r', hr'⟩ := hD _ h
            cases hr'
            exact this.1 _ h
        · intro _; exact ⟨_, List.mem_cons_self _ _⟩
        · intro hc hsy
          obtain ⟨r, hr'⟩ := this.2 (by simpa using hc) (by simpa using hsy)
          exact ⟨r, List.mem_cons_of_mem _ hr'⟩
  · obtain ⟨D, ht, hio, hD, hs⟩ := pcm_stop_capt_spec hw w
    refine ⟨D, ?_, ?_, ?_, ?_⟩
    · simpa [hp] using ht
    · simpa [hp] using hio
    · intro e he
      obtain ⟨r, hr'⟩ := hD e he
      exact ⟨_, _, hr'⟩
    · simp [hp]
      intro h0
      have := hs h0
      refine ⟨?_, ?_, ?_⟩
      · intro d r hm
        obtain ⟨r', hr'⟩ := hD _ hm
        cases hr'
        exact this.1 _ hm
      · intro h; exact absurd h hp
      · exact this.2

theorem recover_prepare_capt_spec (hw : Hw) (w : World) :
    ∃ P S, (recover_prepare_capt hw w).2.trace = w.trace ++ (P ++ S) ∧
      (∀ e ∈ P, ∃ r, e = Ev.prepare Dir.capt r) ∧ (∀ e ∈ S, e.starting) ∧
      (S ≠ [] → (∀ r, Ev.prepare Dir.capt r ∈ P → 0 ≤ r) ∧
        (w.io.capt_handle = true → w.io.synced = false → ∃ r, Ev.prepare Dir.capt r ∈ P)) := by
  unfold recover_prepare_capt
  by_cases h : (w.io.capt_handle && !w.io.synced) = true
  · by_cases hr : (hw w.calls).ret < 0
    · refine ⟨[Ev.prepare Dir.capt (hw w.calls).ret], [], ?_, ?_, ?_, ?_⟩ <;>
        simp [h, hr, World.call]
    · obtain ⟨S, hS, hq⟩ :=
        recover_start_emits hw ((w.call hw).2.log (Ev.prepare Dir.capt (hw w.calls).ret))
      refine ⟨[Ev.prepare Dir.capt (hw w.calls).ret], S, ?_, ?_, hq, ?_⟩
      · simp [h, hr, World.call] at hS ⊢
        simpa [World.call, World.log] using hS
      · simp
      · intro _
        simp
        exact not_lt.1 hr
  · obtain ⟨S, hS, hq⟩ := recover_start_emits hw w
    refine ⟨[], S, ?_, ?_, hq, ?_⟩
    · simpa [h] using hS
    · simp
    · intro _
      simp
      intro hc
      simpa [hc] using h

theorem recover_diagnose_spec (hw : Hw) (w : World) :
    ∃ E, (recover_diagnose hw w).trace = w.trace ++ E ∧ (recover_diagnose hw w).io = w.io ∧
      (∀ e ∈ E, ∃ d r x, e = Ev.status d r x) := by
  unfold recover_diagnose
  by_cases hp : w.io.play_handle = true <;> by_cases hc : w.io.capt_handle = true <;>
    simp [hp, hc, recover_status, World.call, World.log]

theorem recover_prepare_spec (hw : Hw) (w : World) :
    ∃ P S, (recover_prepare hw w).2.trace = w.trace ++ (P ++ S) ∧
      (∀ e ∈ P, ∃ d r, e = Ev.prepare d r) ∧ (∀ e ∈ S, e.starting) ∧
      (S ≠ [] → all_prepared w.io P) := by
  unfold recover_prepare
  by_cases hp : w.io.play_handle = true
  · by_cases hr : (hw w.calls).ret < 0
    · refine ⟨[Ev.prepare Dir.play (hw w.calls).ret], [], ?_, ?_, ?_, ?_⟩ <;>
        simp [hp, hr, World.call]
    · obtain ⟨P, S, ht, hP, hS, hd⟩ :=
        recover_prepare_capt_spec hw ((w.call hw).2.log (Ev.prepare Dir.play (hw w.calls).ret))
      refine ⟨Ev.prepare Dir.play (hw w.calls).ret :: P, S, ?_, ?_, hS, ?_⟩
      · simp [hp, hr, World.call] at ht ⊢
        simpa [World.call, World.log] using ht
      · intro e he
        rcases List.mem_cons.1 he with h | h
        · exact ⟨_, _, h⟩
        · obtain ⟨r, hr'⟩ := hP e h
          exact ⟨_, _, hr'⟩
      · intro hne
        have := hd hne
        refine ⟨?_, ?_, ?_⟩
        · intro d r hm
          rcases List.mem_cons.1 hm with h | h
          · cases h; exact not_lt.1 hr
          · obtain ⟨r', hr'⟩ := hP _ h
            cases hr'
            exact this.1 _ h
        · intro _; exact ⟨_, List.mem_cons_self _ _⟩
        · intro hc hsy
          obtain ⟨r, hr'⟩ := this.2 (by simpa using hc) (by simpa using hsy)
          exact ⟨r, List.mem_cons_of_mem _ hr'⟩
  · obtain ⟨P, S, ht, hP, hS, hd⟩ := recover_prepare_capt_spec hw w
    refine ⟨P, S, ?_, ?_, hS, ?_⟩
    · simpa [hp] using ht
    · intro e he
      obtain ⟨r, hr'⟩ := hP e he
      exact ⟨_, _, hr'⟩
    · intro hne
      have := hd hne
      refine ⟨?_, ?_, ?_⟩
      · intro d r hm
        obtain ⟨r', hr'⟩ := hP _ hm
        cases hr'
        exact this.1 _ hm
      · intro h; exact absurd h hp
      · exact this.2

/-- C3. The calls `recover` makes come in this order: the status queries,
then the stop (drop) commands, then the prepare commands, then the start
sequence of `pcm_start`; a prepare or a call of the start sequence is made
only after every stop command of `pcm_stop` has been made and has succeeded,
and a call of the start sequence only after every prepare has been made and
has succeeded. -/

theorem recover_order (hw : Hw) (w : World) :
    ∃ E D P S, (recover hw w).2.trace = w.trace ++ (E ++ (D ++ (P ++ S))) ∧
      (∀ e ∈ E, e = Ev.enter_recover ∨ ∃ d r x, e = Ev.status d r x) ∧
      (∀ e ∈ D, ∃ d r, e = Ev.drop d r) ∧
      (∀ e ∈ P, ∃ d r, e = Ev.prepare d r) ∧
      (∀ e ∈ S, e.starting) ∧
      (P ++ S ≠ [] → all_stopped w.io D) ∧
      (S ≠ [] → all_prepared w.io P) := by
  unfold recover
  obtain ⟨E, hE, hEio, hEq⟩ := recover_diagnose_spec hw (w.log Ev.enter_recover)
  obtain ⟨D, hD, hDio, hDq, hDs⟩ := pcm_stop_spec hw (recover_diagnose hw (w.log Ev.enter_recover))
  have hio : (pcm_stop hw (recover_diagnose hw (w.log Ev.enter_recover))).2.io = w.io := by
    rw [hDio, hEio]; rfl
  have hEq' : ∀ e ∈ Ev.enter_recover :: E, e = Ev.enter_recover ∨ ∃ d r x, e = Ev.status d r x := by
    intro e he
    rcases List.mem_cons.1 he with h | h
    · exact Or.inl h
    · exact Or.inr (hEq e h)
  by_cases hr : (pcm_stop hw (recover_diagnose hw (w.log Ev.enter_recover))).1 = 0
  · obtain ⟨P, S, hP, hPq, hSq, hPs⟩ :=
      recover_prepare_spec hw (pcm_stop hw (recover_diagnose hw (w.log Ev.enter_recover))).2
    refine ⟨Ev.enter_recover :: E, D, P, S, ?_, hEq', hDq, hPq, hSq, ?_, ?_⟩
    · simp only [hr, ne_eq, not_true_eq_false, if_false]
      rw [hP, hD, hE]
      simp [World.log]
    · intro _
      have := hDs hr
      rw [hEio] at this
      exact this
    · intro hne
      have := hPs hne
      rw [hio] at this
      exact this
  · refine ⟨Ev.enter_recover :: E, D, [], [], ?_, hEq', hDq, ?_, ?_, ?_, ?_⟩
    · simp only [ne_eq, hr, not_false_eq_true, if_true]
      rw [hD, hE]
      simp [World.log]
    · simp
    · simp
    · simp
    · simp

/-! ## C1: verification of the negotiated settings -/

theorem cfg_call_emits (hw : Hw) (d : Dir) (c : Cfg) (w : World) :
    Emits Ev.quiet w (cfg_call hw d c w).2 :=
  emits_call_log _ hw w _ (by exact trivial)

@[simp] theorem cfg_call_io (hw : Hw) (d : Dir) (c : Cfg) (w : World) :
    (cfg_call hw d c w).2.io = w.io := rfl

@[simp] theorem cfg_call_calls (hw : Hw) (d : Dir) (c : Cfg) (w : World) :
    (cfg_call hw d c w).2.calls = w.calls + 1 := rfl

@[simp] theorem cfg_call_resp (hw : Hw) (d : Dir) (c : Cfg) (w : World) :
    (cfg_call hw d c w).1 = hw w.calls := rfl

theorem verify_stream_spec (hw : Hw) (d : Dir) (w : World) :
    ((verify_stream hw d w).1 = true ↔ stream_verified hw w.io d w.calls) ∧
      (verify_stream hw d w).2.io = w.io ∧
      ((verify_stream hw d w).1 = true → (verify_stream hw d w).2.calls = w.calls + 3) ∧
      Emits Ev.quiet w (verify_stream hw d w).2 := by
  have e1 := cfg_call_emits hw d Cfg.get_rate w
  have e2 := e1.trans (cfg_call_emits hw d Cfg.get_period_size _)
  have e3 := e2.trans (cfg_call_emits hw d Cfg.get_periods _)
  unfold verify_stream stream_verified query_ok
  by_cases h1 : (hw w.calls).ret ≠ 0 ∨ (hw w.calls).val ≠ w.io.samplerate ∨ (hw w.calls).dir ≠ 0
  · simp only [cfg_call_resp, cfg_call_io, h1, if_true]
    refine ⟨?_, trivial, ?_, e1⟩
    · simp; intro a b c; simp [a, b, c] at h1
    · simp
  · by_cases h2 : (hw (w.calls + 1)).ret ≠ 0 ∨ (hw (w.calls + 1)).val ≠ w.io.samples_per_period ∨
        (hw (w.calls + 1)).dir ≠ 0
    · simp only [cfg_call_resp, cfg_call_io, cfg_call_calls, h1, h2, if_true, if_false]
      refine ⟨?_, trivial, ?_, e2⟩
      · simp; intro _ _ _ a b c; simp [a, b, c] at h2
      · simp
    · by_cases h3 : (hw (w.calls + 2)).ret ≠ 0 ∨ (hw (w.calls + 2)).val ≠ w.io.ppc d ∨
          (hw (w.calls + 2)).dir ≠ 0
      · simp only [cfg_call_resp, cfg_call_io, cfg_call_calls, h1, h2, h3, if_true, if_false]
        refine ⟨?_, trivial, ?_, e3⟩
        · simp; intro _ _ _ _ _ _ a b c; simp [a, b, c] at h3
        · simp
      · simp only [cfg_call_resp, cfg_call_io, cfg_call_calls, h1, h2, h3, if_false]
        refine ⟨?_, trivial, ?_, e3⟩
        · simp only [not_or, not_not] at h1 h2 h3
          simp [h1, h2, h3]
        · simp


theorem main_out_spec (hw : Hw) (rv : Int) (w : World) :
    (main_out hw rv w).1 = rv ∧ Emits Ev.quiet w (main_out hw rv w).2 := by
  unfold main_out
  refine ⟨rfl, ?_⟩
  by_cases hp : w.io.play_handle = true <;> by_cases hc : w.io.capt_handle = true <;>
    simp only [hp, hc, if_true, if_false, call_io, log_io, Bool.false_eq_true]
  · exact (emits_call_log _ hw w _ (by exact trivial)).trans
      (emits_call_log _ hw _ _ (by exact trivial))
  · exact (emits_call_log _ hw w _ (by exact trivial)).trans (Emits.refl _ _)
  · exact emits_call_log _ hw w _ (by exact trivial)
  · exact Emits.refl _ _

theorem verify_settings_spec (hw : Hw) (w : World) :
    ((verify_settings hw w).1 = true ↔
        (w.io.play_handle = true → stream_verified hw w.io Dir.play w.calls) ∧
        (w.io.capt_handle = true →
          stream_verified hw w.io Dir.capt (if w.io.play_handle = true then w.calls + 3 else w.calls))) ∧
      Emits Ev.quiet w (verify_settings hw w).2 := by
  unfold verify_settings
  obtain ⟨p1, p2, p3, p4⟩ := verify_stream_spec hw Dir.play w
  by_cases hp : w.io.play_handle = true
  · by_cases hv : (verify_stream hw Dir.play w).1 = true
    · obtain ⟨c1, c2, c3, c4⟩ := verify_stream_spec hw Dir.capt (verify_stream hw Dir.play w).2
      rw [p2, p3 hv] at c1
      by_cases hc : w.io.capt_handle = true
      · simp only [hp, hv, if_true, p2, hc]
        exact ⟨by rw [c1]; simp [p1.1 hv], p4.trans c4⟩
      · simp only [hp, hv, if_true, p2, hc]
        exact ⟨by simp [p1.1 hv], p4⟩
    · simp only [hp, hv, if_true]
      refine ⟨?_, p4⟩
      simp only [Bool.false_eq_true, if_false, false_iff, not_and]
      intro h
      exact absurd (p1.2 (h trivial)) hv
  · obtain ⟨c1, c2, c3, c4⟩ := verify_stream_spec hw Dir.capt w
    by_cases hc : w.io.capt_handle = true
    · simp only [hp, if_false, hc, if_true, Bool.false_eq_true]
      exact ⟨by rw [c1]; simp, c4⟩
    · simp only [hp, if_false, hc, Bool.false_eq_true]
      exact ⟨by simp, Emits.refl _ _⟩

/-- C1. The verification step of `main` lets setup go on exactly when, for
every enabled stream, each of the three queries (rate, period size, period
count) succeeds, returns direction indicator 0 and returns the requested
value; in every other case `main` returns `-1` having made, from there on,
only parameter queries and `snd_pcm_close`: no stream is started. -/
theorem verify_or_fail (hw : Hw) (signalled : Nat → Bool) (fuel turns : Nat) (opt : Options)
    (w : World) :
    ((verify_settings hw w).1 = true ↔
        (w.io.play_handle = true → stream_verified hw w.io Dir.play w.calls) ∧
        (w.io.capt_handle = true →
          stream_verified hw w.io Dir.capt (if w.io.play_handle = true then w.calls + 3 else w.calls))) ∧
      ((verify_settings hw w).1 = false →
        ∃ w', main_tail hw signalled fuel turns opt w = some (-1, w') ∧ Emits Ev.quiet w w') := by
  obtain ⟨h1, h2⟩ := verify_settings_spec hw w
  refine ⟨h1, ?_⟩
  intro hf
  obtain ⟨o1, o2⟩ := main_out_spec hw (-1) (verify_settings hw w).2
  refine ⟨(main_out hw (-1) (verify_settings hw w).2).2, ?_, h2.trans o2⟩
  unfold main_tail
  simp only [hf, Bool.false_eq_true, if_false]
  rfl

/-! ## C2: the progress value of `pcm_wait` -/

theorem pcm_wait_avail_spec (hw : Hw) (w : World)
    (hplay : w.io.play_handle = true → 0 ≤ play_avail hw w)
    (hcapt : w.io.capt_handle = true → 0 ≤ capt_avail hw w) :
    (pcm_wait_avail hw w).1 =
      min (if w.io.capt_handle = true then capt_avail hw w else 999999999)
        (if w.io.play_handle = true then play_avail hw w else 999999999) := by
  unfold pcm_wait_avail play_avail capt_avail at *
  by_cases hp : w.io.play_handle = true <;> by_cases hc : w.io.capt_handle = true <;>
    simp only [hp, hc, if_true, if_false, Bool.false_eq_true, call_io, log_io, call_resp,
      call_calls, log_calls, forall_true_left] at hplay hcapt ⊢
  · simp only [not_lt.2 hplay, not_lt.2 hcapt, if_false]
    split <;> omega
  · simp only [not_lt.2 hplay, if_false]
    split <;> omega
  · simp only [not_lt.2 hcapt, if_false]
    split <;> omega
  · rfl


theorem pcm_wait_capt_events_again (hw : Hw) (np nc : Bool) (n1 n2 : Int) (w w' : World)
    (np' nc' : Bool) (h : pcm_wait_capt_events hw np nc n1 n2 w = (PollStep.again np' nc', w')) :
    w'.io = w.io := by
  unfold pcm_wait_capt_events at h
  simp only [] at h
  repeat' split at h
  all_goals (cases h <;> rfl)

theorem pcm_wait_play_events_again (hw : Hw) (np nc : Bool) (n1 n2 : Int) (w w' : World)
    (np' nc' : Bool) (h : pcm_wait_play_events hw np nc n1 n2 w = (PollStep.again np' nc', w')) :
    w'.io = w.io := by
  unfold pcm_wait_play_events at h
  simp only [] at h
  repeat' split at h
  all_goals first
    | (cases h)
    | (simpa using pcm_wait_capt_events_again _ _ _ _ _ _ _ _ _ h)

theorem pcm_wait_descriptors_io (hw : Hw) (d : Dir) (need : Bool) (w : World) :
    (pcm_wait_descriptors hw d need w).io = w.io := by
  unfold pcm_wait_descriptors
  split <;> rfl

theorem pcm_wait_ppoll_again (hw : Hw) (np nc : Bool) (n1 n2 : Int) (w w' : World)
    (np' nc' : Bool) (h : pcm_wait_ppoll hw np nc n1 n2 w = (PollStep.again np' nc', w')) :
    w'.io = w.io := by
  unfold pcm_wait_ppoll at h
  simp only [] at h
  repeat' split at h
  all_goals first
    | (cases h)
    | (simpa using pcm_wait_play_events_again _ _ _ _ _ _ _ _ _ h)

theorem pcm_wait_poll_again (hw : Hw) (np nc : Bool) (w w' : World) (np' nc' : Bool)
    (h : pcm_wait_poll hw np nc w = (PollStep.again np' nc', w')) : w'.io = w.io := by
  unfold pcm_wait_poll at h
  have := pcm_wait_ppoll_again _ _ _ _ _ _ _ _ _ h
  rw [this, pcm_wait_descriptors_io, pcm_wait_descriptors_io]

theorem pcm_wait_loop_ready (hw : Hw) (fuel : Nat) (np nc : Bool) (w w1 : World)
    (h : pcm_wait_loop hw fuel np nc w = some (none, w1)) : w1.io = w.io := by
  induction fuel generalizing np nc w with
  | zero =>
    unfold pcm_wait_loop at h
    split_ifs at h
    simp only [Option.some.injEq, Prod.mk.injEq, true_and] at h
    rw [h]
  | succ n ih =>
    unfold pcm_wait_loop at h
    split_ifs at h
    · split at h
      · simp at h
      · rename_i np' nc' w' heq
        rw [ih _ _ _ h]
        exact pcm_wait_poll_again _ _ _ _ _ _ _ heq
    · simp only [Option.some.injEq, Prod.mk.injEq, true_and] at h
      rw [h]

/-- C2, as amended. When the loop of `pcm_wait` ends with every enabled
stream ready and every availability query returns a count that is not
negative, `pcm_wait` returns a value that is at most the count of every
enabled stream; it is the smaller of the two counts when both streams are
enabled, and the smaller of the stream's own count and 999999999 when only
one is: the stream's own count whenever that is at most 999999999. -/
theorem pcm_wait_progress (hw : Hw) (fuel : Nat) (w w1 : World)
    (hloop : pcm_wait_loop hw fuel w.io.play_handle w.io.capt_handle (w.log Ev.enter_pcm_wait)
      = some (none, w1))
    (hplay : w.io.play_handle = true → 0 ≤ play_avail hw w1)
    (hcapt : w.io.capt_handle = true → 0 ≤ capt_avail hw w1) :
    ∃ v w2, pcm_wait hw fuel w = some (v, w2) ∧
      (w.io.play_handle = true → v ≤ play_avail hw w1) ∧
      (w.io.capt_handle = true → v ≤ capt_avail hw w1) ∧
      (w.io.play_handle = true → w.io.capt_handle = true →
        v = min (play_avail hw w1) (capt_avail hw w1)) ∧
      (w.io.play_handle = true → w.io.capt_handle = false →
        v = min (play_avail hw w1) 999999999 ∧ (play_avail hw w1 ≤ 999999999 → v = play_avail hw w1)) ∧
      (w.io.play_handle = false → w.io.capt_handle = true →
        v = min (capt_avail hw w1) 999999999 ∧ (capt_avail hw w1 ≤ 999999999 → v = capt_avail hw w1)) := by
  have hio : w1.io = w.io := by
    have := pcm_wait_loop_ready _ _ _ _ _ _ hloop
    simpa using this
  have hv := pcm_wait_avail_spec hw w1 (by rw [hio]; exact hplay) (by rw [hio]; exact hcapt)
  rw [hio] at hv
  refine ⟨(pcm_wait_avail hw w1).1, (pcm_wait_avail hw w1).2, ?_, ?_⟩
  · unfold pcm_wait
    simp only [log_io, hloop]
  · rw [hv]
    refine ⟨?_, ?_, ?_, ?_, ?_⟩
    · intro hp; simp only [hp, if_true]; exact min_le_right _ _
    · intro hc; simp only [hc, if_true]; exact min_le_left _ _
    · intro hp hc; simp only [hp, hc, if_true]; exact min_comm _ _
    · intro hp hc
      rw [hp, hc]
      exact ⟨min_comm _ _, fun h => min_eq_right h⟩
    · intro hp hc
      rw [hp, hc]
      exact ⟨rfl, fun h => min_eq_left h⟩

/-- C2, witness: playback only, 256 frames available. -/
theorem pcm_wait_progress_witness :
    ∃ v w2, pcm_wait (hw_play_avail 256) 1 world_play_only = some (v, w2) ∧ v = 256 := by
  obtain ⟨v, w2, h, _, _, _, h4, _⟩ :=
    pcm_wait_progress (hw_play_avail 256) 1 world_play_only
      (((world_play_only.log Ev.enter_pcm_wait).call (hw_play_avail 256)).2.log
        (Ev.poll_descriptors Dir.play) |>.call (hw_play_avail 256) |>.2
        |>.log (Ev.ppoll 1 1) |>.call (hw_play_avail 256) |>.2
        |>.log (Ev.poll_revents Dir.play 1 POLLOUT))
      rfl (by intro _; decide) (by intro h; exact absurd h (by decide))
  exact ⟨v, w2, h, (h4 rfl rfl).2 (by decide)⟩

/-- C2, counterexample: playback only, the stream becomes ready and reports
1000000000 available frames; `pcm_wait` returns 999999999, not the stream's
own count. -/
theorem pcm_wait_progress_counterexample :
    world_play_only.io.play_handle = true ∧ world_play_only.io.capt_handle = false ∧
      (∃ w1, pcm_wait_loop (hw_play_avail 1000000000) 1 true false
          (world_play_only.log Ev.enter_pcm_wait) = some (none, w1) ∧
        play_avail (hw_play_avail 1000000000) w1 = 1000000000) ∧
      (pcm_wait (hw_play_avail 1000000000) 1 world_play_only).map Prod.fst = some 999999999 :=
  ⟨rfl, rfl, ⟨_, rfl, rfl⟩, rfl⟩

/-! ## C6: the channel count `set_hwpar` settles -/

theorem all_fail_io (hw : Hw) (d : Dir) (cs : List Cfg) (w : World) :
    (all_fail hw d cs w).2.io = w.io := by
  induction cs generalizing w with
  | nil => rfl
  | cons c cs ih =>
    unfold all_fail
    simp only []
    split
    · rw [ih]; rfl
    · rfl

theorem set_hwpar_negotiate_io (hw : Hw) (d : Dir) (w : World) :
    (set_hwpar_negotiate hw d w).2.io = w.io := by
  unfold set_hwpar_negotiate
  simp only []
  repeat' split
  all_goals simp [all_fail_io]

@[simp] theorem nchan_set_nchan (io : AlsaIO) (d : Dir) (n : Nat) :
    (io.set_nchan d n).nchan d = n := by
  cases d <;> rfl

theorem set_hwpar_channels_nchan (hw : Hw) (d : Dir) (w : World) :
    (set_hwpar_channels hw d w).2.io.nchan d = resolve_nchan (w.io.nchan d) (hw w.calls).val := by
  unfold set_hwpar_channels
  simp only []
  repeat' split
  all_goals simp

theorem resolve_nchan_eq_ref (req hwmax : Nat) : resolve_nchan req hwmax = resolve_ref req hwmax :=
  rfl


theorem set_hwpar_channels_ok (hw : Hw) (d : Dir) (w : World)
    (h1 : 1 ≤ resolve_nchan (w.io.nchan d) (hw w.calls).val)
    (hk : ∀ k, k < 5 → 0 ≤ (hw (w.calls + 1 + k)).ret) :
    (set_hwpar_channels hw d w).1 = 0 := by
  have k0 := hk 0 (by omega)
  have k1 := hk 1 (by omega)
  have k2 := hk 2 (by omega)
  have k3 := hk 3 (by omega)
  have k4 := hk 4 (by omega)
  simp only [Nat.add_zero] at k0
  unfold set_hwpar_channels
  simp only [cfg_call_resp, cfg_call_io, cfg_call_calls, nchan_set_nchan, not_lt.2 h1, if_false,
    not_lt.2 k0]
  simp only [Nat.add_assoc, Nat.reduceAdd] at k1 k2 k3 k4 ⊢
  simp only [not_lt.2 k1, not_lt.2 k2, not_lt.2 k3, not_lt.2 k4, if_false]

/-- C6. When the channel count settled in `set_hwpar` is below 1, `set_hwpar`
returns 0, not a negative value: the test `set_hwpar (...) < 0` of `main`
does not see the failure. -/
theorem set_hwpar_invalid_count (hw : Hw) (d : Dir) (w : World)
    (h : resolve_nchan (w.io.nchan d) (hw w.calls).val < 1) :
    (set_hwpar_channels hw d w).1 = 0 ∧ ¬ (set_hwpar_channels hw d w).1 < 0 ∧
      (set_hwpar_negotiate hw d w = (true, w) → (set_hwpar hw d w).1 = 0) := by
  have h0 : (set_hwpar_channels hw d w).1 = 0 := by
    unfold set_hwpar_channels
    simp only [cfg_call_resp, cfg_call_io, cfg_call_calls, nchan_set_nchan, h, if_true]
  refine ⟨h0, by rw [h0]; decide, ?_⟩
  intro hneg
  unfold set_hwpar
  rw [hneg]
  simpa using h0

/-- C6, at the failing input: playback requested with channel count "auto"
on hardware that reports a maximum of 0 channels.  `set_hwpar` returns 0 and
the setup block of `main` is not aborted: it goes on to the software
parameters, while the hardware parameters were never committed (there is no
`set_channels` and no `hw_params` call). -/
theorem set_hwpar_invalid_count_accepted :
    (set_hwpar hw_ok Dir.play world_auto_play).1 = 0 ∧
      (main_setup hw_ok Options.default world_auto_play).1 = true ∧
      (main_setup hw_ok Options.default world_auto_play).2.trace =
        [Ev.cfg Dir.play Cfg.hw_params_any 0, Ev.cfg Dir.play Cfg.set_periods_integer 0,
         Ev.cfg Dir.play (Cfg.set_access SND_PCM_ACCESS_MMAP_NONINTERLEAVED) 0,
         Ev.cfg Dir.play (Cfg.set_format SND_PCM_FORMAT_FLOAT_LE) 0,
         Ev.cfg Dir.play (Cfg.set_rate 48000) 0, Ev.cfg Dir.play Cfg.get_channels_max 0,
         Ev.cfg Dir.play Cfg.sw_params_current 0, Ev.cfg Dir.play Cfg.set_tstamp_mode 0,
         Ev.cfg Dir.play (Cfg.set_avail_min 128) 0, Ev.cfg Dir.play Cfg.sw_params 0,
         Ev.cfg Dir.play Cfg.poll_descriptors_count 0] :=
  ⟨rfl, rfl, rfl⟩

/-- C6, witness of `set_hwpar_invalid_count`: the same input, at the second
part of `set_hwpar`. -/
theorem set_hwpar_invalid_count_witness :
    (set_hwpar_channels hw_ok Dir.play world_auto_play).1 = 0 :=
  (set_hwpar_invalid_count hw_ok Dir.play world_auto_play (by decide)).1

/-! ## C7: the real-time priority -/

theorem sched_priority_eq_clamp (p_min p_max r : Int) (h : p_min ≤ p_max) :
    sched_priority p_min p_max r = clamp_priority p_min p_max r := by
  unfold sched_priority clamp_priority
  simp only []
  split_ifs <;> omega

/-- C7. For a policy range with `p_min ≤ p_max`, the priority
`realtime_pthread_create` creates the thread with is `p_max + r` clamped into
`[p_min, p_max]`, so it lies in `[p_min, p_max]`; for `r = -5` and the range
`[1, 99]` it is 94.  `main` launches the worker through
`realtime_pthread_create` exactly when the configured priority is negative,
and with default scheduling otherwise. -/
theorem realtime_priority (hw : Hw) (opt : Options) (w : World)
    (h : (hw w.calls).ret ≤ (hw (w.calls + 1)).ret) :
    (realtime_pthread_create hw opt.rt_priority w).2.trace =
        w.trace ++ [Ev.sched_get_priority (hw w.calls).ret,
          Ev.sched_get_priority (hw (w.calls + 1)).ret,
          Ev.thread_create
            (some (clamp_priority (hw w.calls).ret (hw (w.calls + 1)).ret opt.rt_priority))
            (hw (w.calls + 2)).ret] ∧
      (hw w.calls).ret ≤ clamp_priority (hw w.calls).ret (hw (w.calls + 1)).ret opt.rt_priority ∧
      clamp_priority (hw w.calls).ret (hw (w.calls + 1)).ret opt.rt_priority
        ≤ (hw (w.calls + 1)).ret ∧
      sched_priority 1 99 (-5) = 94 ∧
      (opt.rt_priority < 0 →
        main_launch hw opt w = realtime_pthread_create hw opt.rt_priority w) ∧
      (¬ opt.rt_priority < 0 →
        main_launch hw opt w = default_pthread_create hw w ∧
        (main_launch hw opt w).2.trace = w.trace ++ [Ev.thread_create none (hw w.calls).ret]) := by
  refine ⟨?_, ?_, ?_, by decide, ?_, ?_⟩
  · unfold realtime_pthread_create
    simp [sched_priority_eq_clamp _ _ _ h]
  · unfold clamp_priority; omega
  · unfold clamp_priority; omega
  · intro hn; unfold main_launch; simp [hn]
  · intro hn; unfold main_launch; simp [hn, default_pthread_create]

/-- C7, witness: priority `-5` on a scheduler with range `[1, 99]`. -/
theorem realtime_priority_witness :
    ((World.init AlsaIO.default).call hw_fifo).1.ret ≤ 99 ∧
      (realtime_pthread_create hw_fifo (-5) (World.init AlsaIO.default)).2.trace =
        [Ev.sched_get_priority 1, Ev.sched_get_priority 99, Ev.thread_create (some 94) 0] :=
  ⟨by decide,
    (realtime_priority hw_fifo { rt_priority := -5, sync := true, noop := false }
      (World.init AlsaIO.default) (by decide)).1⟩

/-! ## C8: the x-run time -/

theorem c_int_of_range (x : Int) (h1 : -2147483648 ≤ x) (h2 : x < 2147483648) : c_int x = x := by
  unfold c_int; omega

theorem rne24_fst_nonneg (n : Nat) (s : Bool) : (0 : Int) ≤ ((rne24 n s).1 : Int) :=
  Int.natCast_nonneg _

theorem F32.ofInt_m_nonneg (i : Int) (h : 0 ≤ i) : 0 ≤ (F32.ofInt i).m := by
  unfold F32.ofInt F32.round
  simp only [not_lt.2 h, decide_False, Bool.false_eq_true, if_false]
  exact Int.natCast_nonneg _

theorem F32.mul_m_nonneg (a b : F32) (ha : 0 ≤ a.m) (hb : 0 ≤ b.m) : 0 ≤ (F32.mul a b).m := by
  unfold F32.mul F32.round
  simp only [not_lt.2 (Int.mul_nonneg ha hb), decide_False, Bool.false_eq_true, if_false]
  exact Int.natCast_nonneg _

theorem F32.add_m_nonneg (a b : F32) (ha : 0 ≤ a.m) (hb : 0 ≤ b.m) : 0 ≤ (F32.add a b).m := by
  unfold F32.add F32.round
  have : 0 ≤ a.m * 2 ^ (a.e - min a.e b.e).toNat + b.m * 2 ^ (b.e - min a.e b.e).toNat :=
    Int.add_nonneg (Int.mul_nonneg ha (by positivity)) (Int.mul_nonneg hb (by positivity))
  simp only [not_lt.2 this, decide_False, Bool.false_eq_true, if_false]
  exact Int.natCast_nonneg _

theorem F32.toRat_nonneg (x : F32) (h : 0 ≤ x.m) : 0 ≤ x.toRat := by
  unfold F32.toRat
  exact mul_nonneg (by exact_mod_cast h) (by positivity)


theorem xrun_time_parts_exact (stat : Status)
    (hu1 : 0 ≤ stat.tstamp.tv_usec) (hu2 : stat.tstamp.tv_usec ≤ 999999)
    (ht1 : 0 ≤ stat.trigger_tstamp.tv_usec) (ht2 : stat.trigger_tstamp.tv_usec ≤ 999999)
    (hs1 : -2147483648 < stat.tstamp.tv_sec - stat.trigger_tstamp.tv_sec)
    (hs2 : stat.tstamp.tv_sec - stat.trigger_tstamp.tv_sec < 2147483648) :
    0 ≤ (xrun_time_parts stat).2 ∧ (xrun_time_parts stat).2 < 1000000 ∧
      (xrun_time_parts stat).1 * 1000000 + (xrun_time_parts stat).2 = elapsed_usec stat := by
  unfold xrun_time_parts elapsed_usec
  simp only []
  rw [c_int_of_range _ (le_of_lt hs1) hs2,
    c_int_of_range (stat.tstamp.tv_usec - stat.trigger_tstamp.tv_usec) (by omega) (by omega)]
  split
  · rw [c_int_of_range _ (by omega) (by omega), c_int_of_range _ (by omega) (by omega)]
    refine ⟨by omega, by omega, by ring⟩
  · refine ⟨by omega, by omega, rfl⟩

/-- C8, as amended. For a status whose microsecond fields are in
`[0, 999999]` and whose seconds fields differ by less than `2 ^ 31` (the
difference fits the `int` it is stored in), the pair `(ds, du)` of
`xrun_time` after the borrow step has `0 ≤ du < 1000000` and
`ds * 1000000 + du` is the exact difference in microseconds; so in the xrun
state the duration returned is not negative when the status time stamp is
not earlier than the trigger time stamp.  For a status that is not in the
xrun state the duration returned is 0. -/
theorem xrun_time_exact (stat : Status)
    (hu1 : 0 ≤ stat.tstamp.tv_usec) (hu2 : stat.tstamp.tv_usec ≤ 999999)
    (ht1 : 0 ≤ stat.trigger_tstamp.tv_usec) (ht2 : stat.trigger_tstamp.tv_usec ≤ 999999)
    (hs1 : -2147483648 < stat.tstamp.tv_sec - stat.trigger_tstamp.tv_sec)
    (hs2 : stat.tstamp.tv_sec - stat.trigger_tstamp.tv_sec < 2147483648) :
    0 ≤ (xrun_time_parts stat).2 ∧ (xrun_time_parts stat).2 < 1000000 ∧
      (xrun_time_parts stat).1 * 1000000 + (xrun_time_parts stat).2 = elapsed_usec stat ∧
      (stat.state = SND_PCM_STATE_XRUN →
        xrun_time stat = F32.add (F32.ofInt (xrun_time_parts stat).1)
          (F32.mul F32.micro (F32.ofInt (xrun_time_parts stat).2))) ∧
      (stat.state = SND_PCM_STATE_XRUN → 0 ≤ elapsed_usec stat → 0 ≤ (xrun_time stat).toRat) ∧
      (stat.state ≠ SND_PCM_STATE_XRUN → xrun_time stat = F32.zero ∧ (xrun_time stat).toRat = 0) := by
  obtain ⟨h1, h2, h3⟩ := xrun_time_parts_exact stat hu1 hu2 ht1 ht2 hs1 hs2
  refine ⟨h1, h2, h3, ?_, ?_, ?_⟩
  · intro hx
    unfold xrun_time
    simp only [hx, if_true]
  · intro hx he
    have hds : 0 ≤ (xrun_time_parts stat).1 := by omega
    unfold xrun_time
    simp only [hx, if_true]
    exact F32.toRat_nonneg _ (F32.add_m_nonneg _ _ (F32.ofInt_m_nonneg _ hds)
      (F32.mul_m_nonneg _ _ (by decide) (F32.ofInt_m_nonneg _ h1)))
  · intro hx
    unfold xrun_time
    simp only [hx, if_false]
    simp [F32.toRat, F32.zero]

/-- C8, witness: an x-run of 1.5 ms across a second boundary gives
`(ds, du) = (0, 1500)`. -/
theorem xrun_time_exact_witness :
    xrun_time_parts status_borrow = (0, 1500) ∧ elapsed_usec status_borrow = 1500 ∧
      0 ≤ (xrun_time status_borrow).toRat :=
  ⟨by decide, by decide,
    (xrun_time_exact status_borrow (by decide) (by decide) (by decide) (by decide) (by decide)
      (by decide)).2.2.2.2.1 rfl (by decide)⟩

/-- C8, counterexample: a status in the xrun state, microsecond fields 0,
taken `2 ^ 31` seconds after the trigger.  The pair computed is
`(-2147483648, 0)`: it does not stand for the exact difference, and the
duration returned is negative although the status is later than the
trigger. -/
theorem xrun_time_counterexample :
    status_far.state = SND_PCM_STATE_XRUN ∧
      status_far.tstamp.tv_usec = 0 ∧ status_far.trigger_tstamp.tv_usec = 0 ∧
      0 ≤ elapsed_usec status_far ∧
      xrun_time_parts status_far = (-2147483648, 0) ∧
      (xrun_time_parts status_far).1 * 1000000 + (xrun_time_parts status_far).2
        ≠ elapsed_usec status_far ∧
      xrun_time status_far = ⟨-8388608, 8⟩ ∧ (xrun_time status_far).toRat < 0 := by
  refine ⟨rfl, rfl, rfl, by decide, by decide, by decide, by decide, ?_⟩
  have : xrun_time status_far = ⟨-8388608, 8⟩ := by decide
  rw [this]
  norm_num [F32.toRat]

/-! ## What the steady state leaves unchanged -/

theorem Emits.mono {Q Q' : Ev → Prop} {a b : World} (h : Emits Q a b) (hq : ∀ e, Q e → Q' e) :
    Emits Q' a b := by
  obtain ⟨evs, h1, h2⟩ := h
  exact ⟨evs, h1, fun e he => hq e (h2 e he)⟩

theorem Emits.count_waits {a b : World} (h : Emits Ev.inner a b) :
    count_waits b.trace = count_waits a.trace := by
  obtain ⟨evs, h1, h2⟩ := h
  unfold ModAlsaTest.count_waits
  have hz : List.count Ev.enter_pcm_wait evs = 0 :=
    List.count_eq_zero_of_not_mem (fun hm => h2 _ hm rfl)
  rw [h1, List.count_append, hz, Nat.add_zero]

theorem starting_inner (e : Ev) (h : e.starting) : e.inner := by
  intro he
  rw [he] at h
  exact h

theorem Steady.same (w : World) : Steady w w := ⟨Emits.refl _ _, rfl⟩

theorem Steady.seq {a b c : World} (h1 : Steady a b) (h2 : Steady b c) : Steady a c :=
  ⟨h1.1.trans h2.1, h2.2.trans h1.2⟩

theorem Steady.call_log (hw : Hw) (w : World) (e : Ev) (he : e.inner) :
    Steady w ((w.call hw).2.log e) :=
  ⟨emits_call_log _ hw w e he, rfl⟩

theorem for_range_steady (body : Nat → World → World) (hb : ∀ i w, Steady w (body i w)) :
    ∀ n lo w, Steady w (for_range n lo body w) := by
  intro n
  induction n with
  | zero => intro lo w; exact Steady.same w
  | succ n ih => intro lo w; exact (hb lo w).seq (ih (lo + 1) (body lo w))

theorem clear_all_steady (w : World) : Steady w (clear_all w) :=
  ⟨Emits.of_trace_eq (clear_all_trace w), by rw [clear_all_io]⟩

theorem play_init_steady (hw : Hw) (len : Nat) (w : World) : Steady w (play_init hw len w).2 := by
  unfold play_init
  split
  · exact Steady.same w
  · simp only []
    split
    · exact Steady.call_log hw w _ (by intro h; cases h)
    · exact (Steady.call_log hw w _ (by intro h; cases h)).seq ⟨Emits.of_trace_eq rfl, rfl⟩

theorem capt_init_steady (hw : Hw) (len : Nat) (w : World) : Steady w (capt_init hw len w).2 := by
  unfold capt_init
  split
  · exact Steady.same w
  · simp only []
    split
    · exact Steady.call_log hw w _ (by intro h; cases h)
    · exact (Steady.call_log hw w _ (by intro h; cases h)).seq ⟨Emits.of_trace_eq rfl, rfl⟩

theorem play_done_steady (hw : Hw) (len : Int) (w : World) : Steady w (play_done hw len w).2 := by
  unfold play_done mmap_commit
  split
  · exact Steady.same w
  · exact Steady.call_log hw w _ (by intro h; cases h)

theorem capt_done_steady (hw : Hw) (len : Int) (w : World) : Steady w (capt_done hw len w).2 := by
  unfold capt_done mmap_commit
  split
  · exact Steady.same w
  · exact Steady.call_log hw w _ (by intro h; cases h)

theorem prime_period_steady (hw : Hw) (w : World) : Steady w (prime_period hw w) := by
  unfold prime_period
  exact ((play_init_steady hw _ w).seq (clear_all_steady _)).seq (play_done_steady hw _ _)

theorem process_period_steady (hw : Hw) (w : World) : Steady w (process_period hw w) := by
  unfold process_period
  exact ((((capt_init_steady hw _ w).seq (capt_done_steady hw _ _)).seq
    (play_init_steady hw _ _)).seq (clear_all_steady _)).seq (play_done_steady hw _ _)


theorem pcm_start_capt_steady (hw : Hw) (w : World) : Steady w (pcm_start_capt hw w).2 := by
  unfold pcm_start_capt
  split
  · simp only []
    split <;> exact Steady.call_log hw w _ (by intro h; cases h)
  · exact Steady.same w

theorem pcm_start_steady (hw : Hw) (w : World) : Steady w (pcm_start hw w).2 := by
  unfold pcm_start
  split
  · simp only []
    have h1 := Steady.call_log hw w (Ev.avail_update Dir.play (hw w.calls).ret)
      (by intro h; cases h)
    split
    · exact h1
    · have h2 := h1.seq (for_range_steady (fun _ w => prime_period hw w)
        (fun _ w => prime_period_steady hw w) w.io.play_periods_per_cycle 0 _)
      have h3 := h2.seq (Steady.call_log hw _ (Ev.start Dir.play
        (hw (for_range w.io.play_periods_per_cycle 0 (fun _ w => prime_period hw w)
          ((w.call hw).2.log (Ev.avail_update Dir.play (hw w.calls).ret))).calls).ret)
        (by intro h; cases h))
      split
      · exact h3
      · exact h3.seq (pcm_start_capt_steady hw _)
  · exact pcm_start_capt_steady hw w

theorem pcm_stop_capt_steady (hw : Hw) (w : World) : Steady w (pcm_stop_capt hw w).2 := by
  unfold pcm_stop_capt
  split
  · simp only []
    split <;> exact Steady.call_log hw w _ (by intro h; cases h)
  · exact Steady.same w

theorem pcm_stop_steady (hw : Hw) (w : World) : Steady w (pcm_stop hw w).2 := by
  unfold pcm_stop
  split
  · simp only []
    have h1 := Steady.call_log hw w (Ev.drop Dir.play (hw w.calls).ret) (by intro h; cases h)
    split
    · exact h1
    · exact h1.seq (pcm_stop_capt_steady hw _)
  · exact pcm_stop_capt_steady hw w

theorem recover_start_steady (hw : Hw) (w : World) : Steady w (recover_start hw w).2 := by
  unfold recover_start
  simp only []
  split <;> exact pcm_start_steady hw w

theorem recover_prepare_capt_steady (hw : Hw) (w : World) :
    Steady w (recover_prepare_capt hw w).2 := by
  unfold recover_prepare_capt
  split
  · simp only []
    have h1 := Steady.call_log hw w (Ev.prepare Dir.capt (hw w.calls).ret) (by intro h; cases h)
    split
    · exact h1
    · exact h1.seq (recover_start_steady hw _)
  · exact recover_start_steady hw w

theorem recover_prepare_steady (hw : Hw) (w : World) : Steady w (recover_prepare hw w).2 := by
  unfold recover_prepare
  split
  · simp only []
    have h1 := Steady.call_log hw w (Ev.prepare Dir.play (hw w.calls).ret) (by intro h; cases h)
    split
    · exact h1
    · exact h1.seq (recover_prepare_capt_steady hw _)
  · exact recover_prepare_capt_steady hw w

theorem recover_status_steady (hw : Hw) (d : Dir) (w : World) :
    Steady w (recover_status hw d w) :=
  Steady.call_log hw w _ (by intro h; cases h)

theorem recover_diagnose_steady (hw : Hw) (w : World) : Steady w (recover_diagnose hw w) := by
  unfold recover_diagnose
  simp only []
  split <;> split
  · exact (recover_status_steady hw _ w).seq (recover_status_steady hw _ _)
  · exact recover_status_steady hw _ w
  · exact recover_status_steady hw _ w
  · exact Steady.same w

theorem recover_steady (hw : Hw) (w : World) : Steady w (recover hw w).2 := by
  unfold recover
  simp only []
  have h0 : Steady w (w.log Ev.enter_recover) :=
    ⟨(Emits.refl _ w).log _ (by intro h; cases h), rfl⟩
  have h1 := h0.seq (recover_diagnose_steady hw _)
  have h2 := h1.seq (pcm_stop_steady hw _)
  split
  · exact h2
  · exact h2.seq (recover_prepare_steady hw _)


theorem Steady.log' {w w' : World} (e : Ev) (h : Steady w w') (he : e.inner) :
    Steady w (w'.log e) :=
  ⟨h.1.log e he, h.2⟩

theorem Steady.call' {w w' : World} (hw : Hw) (h : Steady w w') : Steady w (w'.call hw).2 :=
  ⟨h.1.call hw, h.2⟩

theorem Steady.recover' {w w' : World} (hw : Hw) (h : Steady w w') :
    Steady w (recover hw w').2 :=
  h.seq (recover_steady hw w')

theorem pcm_wait_capt_events_steady (hw : Hw) (np nc : Bool) (n1 n2 : Int) (w : World) :
    Steady w (pcm_wait_capt_events hw np nc n1 n2 w).2 := by
  unfold pcm_wait_capt_events
  simp only []
  split_ifs <;> dsimp only <;>
    repeat (first
      | exact Steady.same _
      | apply Steady.recover'
      | (apply Steady.log' _ _ (by intro h; cases h))
      | apply Steady.call')

theorem pcm_wait_play_events_steady (hw : Hw) (np nc : Bool) (n1 n2 : Int) (w : World) :
    Steady w (pcm_wait_play_events hw np nc n1 n2 w).2 := by
  unfold pcm_wait_play_events
  split
  · simp only []
    have h1 := Steady.call_log hw w (Ev.poll_revents Dir.play n1 (hw w.calls).revents)
      (by intro h; cases h)
    split
    · exact h1.seq (recover_steady hw _)
    · split <;> exact h1.seq (pcm_wait_capt_events_steady hw _ _ _ _ _)
  · exact pcm_wait_capt_events_steady hw _ _ _ _ _

theorem pcm_wait_descriptors_steady (hw : Hw) (d : Dir) (need : Bool) (w : World) :
    Steady w (pcm_wait_descriptors hw d need w) := by
  unfold pcm_wait_descriptors
  split
  · exact Steady.call_log hw w _ (by intro h; cases h)
  · exact Steady.same w

theorem pcm_wait_ppoll_steady (hw : Hw) (np nc : Bool) (n1 n2 : Int) (w : World) :
    Steady w (pcm_wait_ppoll hw np nc n1 n2 w).2 := by
  unfold pcm_wait_ppoll
  simp only []
  have h1 := Steady.call_log hw w (Ev.ppoll n2 (hw w.calls).ret) (by intro h; cases h)
  split
  · exact h1
  · split
    · exact h1
    · exact h1.seq (pcm_wait_play_events_steady hw _ _ _ _ _)

theorem pcm_wait_poll_steady (hw : Hw) (np nc : Bool) (w : World) :
    Steady w (pcm_wait_poll hw np nc w).2 := by
  unfold pcm_wait_poll
  exact ((pcm_wait_descriptors_steady hw Dir.play np w).seq
    (pcm_wait_descriptors_steady hw Dir.capt nc _)).seq (pcm_wait_ppoll_steady hw _ _ _ _ _)

theorem pcm_wait_loop_steady (hw : Hw) (fuel : Nat) (np nc : Bool) (w w' : World)
    (r : Option Int) (h : pcm_wait_loop hw fuel np nc w = some (r, w')) : Steady w w' := by
  induction fuel generalizing np nc w with
  | zero =>
    unfold pcm_wait_loop at h
    split_ifs at h
    cases h
    exact Steady.same _
  | succ n ih =>
    unfold pcm_wait_loop at h
    split_ifs at h
    · have hp := pcm_wait_poll_steady hw np nc w
      split at h
      · rename_i v w1 heq
        cases h
        rw [heq] at hp
        exact hp
      · rename_i np' nc' w1 heq
        rw [heq] at hp
        exact hp.seq (ih _ _ _ h)
    · cases h
      exact Steady.same _

theorem pcm_wait_avail_steady (hw : Hw) (w : World) : Steady w (pcm_wait_avail hw w).2 := by
  unfold pcm_wait_avail
  simp only []
  split_ifs <;> dsimp only <;>
    repeat (first
      | exact Steady.same _
      | apply Steady.recover'
      | (apply Steady.log' _ _ (by intro h; cases h))
      | apply Steady.call')

theorem pcm_wait_steady (hw : Hw) (fuel : Nat) (w w' : World) (v : Int)
    (h : pcm_wait hw fuel w = some (v, w')) :
    count_waits w'.trace = count_waits w.trace + 1 ∧ w'.io.fixed = w.io.fixed := by
  unfold pcm_wait at h
  simp only [log_io] at h
  have key : Steady (w.log Ev.enter_pcm_wait) w' := by
    split at h
    · cases h
    · rename_i v1 w1 heq
      cases h
      exact pcm_wait_loop_steady _ _ _ _ _ _ _ heq
    · rename_i w1 heq
      have h' := pcm_wait_avail_steady hw w1
      simp only [Option.some.injEq] at h
      rw [h] at h'
      exact (pcm_wait_loop_steady _ _ _ _ _ _ _ heq).seq h'
  refine ⟨?_, key.2⟩
  rw [key.1.count_waits]
  simp [count_waits]


/-! ## C4: the number of outer cycles of `run_thread` -/

theorem fixed_period {a b : AlsaIO} (h : a.fixed = b.fixed) :
    a.samples_per_period = b.samples_per_period := by
  have := congrArg AlsaIO.samples_per_period h
  exact this

theorem store_int_zero_keeps (mem : Nat → Nat) (dst a : Nat) (h : mem a = 0) :
    store_int_zero mem dst a = 0 := by
  unfold store_int_zero
  split
  · rfl
  · exact h

theorem clear_loop_keeps (step : Nat) :
    ∀ len dst mem a, mem a = 0 → clear_loop step len dst mem a = 0 := by
  intro len
  induction len with
  | zero => intro dst mem a h; exact h
  | succ n ih =>
    intro dst mem a h
    exact ih (dst + step) (store_int_zero mem dst) a (store_int_zero_keeps mem dst a h)

theorem clear_loop_zero (step : Nat) :
    ∀ len dst mem k b, k < len → b < 4 →
      clear_loop step len dst mem (dst + k * step + b) = 0 := by
  intro len
  induction len with
  | zero => intro dst mem k b hk; omega
  | succ n ih =>
    intro dst mem k b hk hb
    cases k with
    | zero =>
      refine clear_loop_keeps step n (dst + step) _ _ ?_
      unfold store_int_zero
      rw [if_pos]
      constructor <;> omega
    | succ k =>
      have := ih (dst + step) (store_int_zero mem dst) k b (by omega) hb
      have e : dst + (k + 1) * step + b = dst + step + k * step + b := by ring
      rw [e]
      exact this

theorem clear_range_zero (io0 : AlsaIO) :
    ∀ n lo w, w.io = io0 →
      (∀ a, w.mem a = 0 →
        (for_range n lo
          (fun j w => clear_chan (w.io.play_ptr j) w.io.samples_per_period w) w).mem a = 0)
      ∧ (∀ j, lo ≤ j → j < lo + n → ∀ k, k < io0.samples_per_period → ∀ b, b < 4 →
        (for_range n lo
          (fun j w => clear_chan (w.io.play_ptr j) w.io.samples_per_period w) w).mem
            (io0.play_ptr j + k * io0.play_step + b) = 0) := by
  intro n
  induction n with
  | zero =>
    intro lo w _
    exact ⟨fun a h => h, fun j h1 h2 => by omega⟩
  | succ n ih =>
    intro lo w hio
    have hio1 : (clear_chan (w.io.play_ptr lo) w.io.samples_per_period w).io = io0 := hio
    obtain ⟨ih1, ih2⟩ := ih (lo + 1) (clear_chan (w.io.play_ptr lo) w.io.samples_per_period w) hio1
    refine ⟨?_, ?_⟩
    · intro a h
      exact ih1 a (clear_loop_keeps _ _ _ _ a h)
    · intro j h1 h2 k hk b hb
      by_cases hj : j = lo
      · subst hj
        refine ih1 _ ?_
        show clear_loop w.io.play_step w.io.samples_per_period (w.io.play_ptr j) w.mem _ = 0
        rw [hio]
        exact clear_loop_zero _ _ _ _ k b hk hb
      · exact ih2 j (by omega) (by omega) k hk b hb

theorem play_init_ok (hw : Hw) (len : Nat) (w : World) (hopen : w.io.play_handle = true)
    (hret : 0 ≤ (hw w.calls).ret) :
    (play_init hw len w).2.mem = w.mem
    ∧ (play_init hw len w).2.io.samples_per_period = w.io.samples_per_period
    ∧ (play_init hw len w).2.io.play_nchan = w.io.play_nchan
    ∧ (play_init hw len w).2.io.play_step = ((hw w.calls).areas 0).step / 8
    ∧ ∀ j, j < w.io.play_nchan →
        (play_init hw len w).2.io.play_ptr j = chan_ptr ((hw w.calls).areas j) (hw w.calls).offset := by
  unfold play_init
  simp only [hopen, Bool.not_true, Bool.false_eq_true, if_false, World.call, World.log,
    not_lt.mpr hret]
  refine ⟨trivial, trivial, trivial, trivial, ?_⟩
  intro j hj
  simp only [hj, if_true]

theorem c_ulong_of_lt (n : Nat) (h : n < 2 ^ 64) : c_ulong (n : Int) = n := by
  unfold c_ulong
  have : ((n : Int) % 18446744073709551616) = n := by
    apply Int.emod_eq_of_lt
    · exact Int.natCast_nonneg n
    · have : (n : Int) < ((2 ^ 64 : Nat) : Int) := by exact_mod_cast h
      simpa using this
  rw [this]
  simp

theorem sample_byte_eq (a : Area) (s off k b : Nat) (hs : a.step = 8 * s)
    (hfit : a.first + a.step * off < 2 ^ 64) :
    sample_byte a (off + k) b = chan_ptr a off + k * s + b := by
  unfold sample_byte chan_ptr
  have e : ((a.first : Int) + (a.step : Int) * (off : Int)) = ((a.first + a.step * off : Nat) : Int) := by
    push_cast; rfl
  rw [e, c_ulong_of_lt _ hfit, hs]
  have : a.first + 8 * s * (off + k) = a.first + 8 * s * off + 8 * (k * s) := by ring
  rw [this, Nat.add_mul_div_left _ _ (by decide : 0 < 8)]
  omega

/-- C9 (amended): when `play_init` obtains a region in which every channel
has the step of channel 0, a whole number of bytes, the bit offset
`first + step * offset` fits `unsigned long`, and a sample is at most 4 bytes
wide, then in the state in which `play_done` is called every byte of each of
the `samples_per_period` samples of every playback channel of the region is
zero; that state is the one committed both by a priming turn of `pcm_start`
and by an inner turn of `run_thread`. -/
theorem silence_before_commit (hw : Hw) (w : World)
    (hopen : w.io.play_handle = true)
    (hret : 0 ≤ (hw w.calls).ret)
    (hwidth : w.io.play_bytes_per_sample ≤ 4)
    (hstep : ∀ j, j < w.io.play_nchan →
      ((hw w.calls).areas j).step = ((hw w.calls).areas 0).step)
    (hbyte : 8 ∣ ((hw w.calls).areas 0).step)
    (hfit : ∀ j, j < w.io.play_nchan →
      ((hw w.calls).areas j).first + ((hw w.calls).areas j).step * (hw w.calls).offset
        < 2 ^ 64) :
    region_silent w.io (hw w.calls) (at_commit hw w).mem
    ∧ prime_period hw w
        = (play_done hw (c_int (at_commit hw w).io.samples_per_period) (at_commit hw w)).2
    ∧ ∀ w0, capt_period hw w0 = w →
        process_period hw w0
          = (play_done hw (c_int (at_commit hw w).io.samples_per_period) (at_commit hw w)).2 := by
  refine ⟨?_, rfl, ?_⟩
  · obtain ⟨_, hspp, hn, hst, hptr⟩ := play_init_ok hw w.io.samples_per_period w hopen hret
    obtain ⟨s, hs⟩ := hbyte
    intro j hj k hk b hb
    have h2 := (clear_range_zero (play_init hw w.io.samples_per_period w).2.io
      (play_init hw w.io.samples_per_period w).2.io.play_nchan 0
      (play_init hw w.io.samples_per_period w).2 rfl).2 j (Nat.zero_le j)
      (by rw [hn]; omega) k (by rw [hspp]; exact hk) b (by omega)
    rw [hptr j hj, hst, hs, Nat.mul_div_cancel_left s (by decide : 0 < 8)] at h2
    rw [sample_byte_eq _ s _ k b ((hstep j hj).trans hs) (hfit j hj)]
    exact h2
  · intro w0 h0
    subst h0
    rfl

/-- C9 (amended), at an input: two interleaved channels of 4-byte samples
over a memory full of 255. -/
theorem silence_before_commit_witness :
    region_silent world_noise.io (hw_interleaved world_noise.calls)
      (at_commit hw_interleaved world_noise).mem
    ∧ (at_commit hw_interleaved world_noise).mem 1012 = 0
    ∧ (at_commit hw_interleaved world_noise).mem 1016 = 255 :=
  ⟨(silence_before_commit hw_interleaved world_noise rfl (by decide) (by decide)
      (by intro j hj; simp [hw_interleaved]; split <;> rfl) ⟨8, by decide⟩
      (by intro j hj; simp [hw_interleaved]; split <;> decide)).1,
   by decide, by decide⟩

/-- C9 as stated fails: with two channels of 4-byte samples, 32 bits apart in
channel 0 and 64 bits apart in channel 1, a priming turn commits 2 frames
while the second sample of channel 1 (bytes 1008 to 1011) still holds what
memory held before. -/
theorem silence_before_commit_counterexample :
    world_noise.io.play_handle = true
    ∧ world_noise.io.play_bytes_per_sample = 4
    ∧ (prime_period hw_mixed world_noise).trace
        = [Ev.mmap_begin Dir.play 2 0 2, Ev.mmap_commit Dir.play 0 2 0]
    ∧ (prime_period hw_mixed world_noise).mem = (at_commit hw_mixed world_noise).mem
    ∧ sample_byte ((hw_mixed 0).areas 1) ((hw_mixed 0).offset + 1) 0 = 1008
    ∧ (at_commit hw_mixed world_noise).mem 1008 = 255
    ∧ ¬ region_silent world_noise.io (hw_mixed world_noise.calls)
          (at_commit hw_mixed world_noise).mem := by
  refine ⟨rfl, rfl, by decide, rfl, by decide, by decide, ?_⟩
  intro h
  have := h 1 (by decide) 1 (by decide) 0 (by decide)
  revert this
  decide

/-! ## The calls of one period -/

theorem c_ulong_c_int (n : Nat) (h : n < 2 ^ 31) : c_ulong (c_int (n : Int)) = n := by
  rw [c_int_of_range _ (by omega) (by omega)]
  exact c_ulong_of_lt n (by omega)

theorem prime_period_trace (hw : Hw) (w : World) (hspp : w.io.samples_per_period < 2 ^ 31) :
    (prime_period hw w).trace
      = w.trace ++ (if w.io.play_handle = true
          then period_events Dir.play w.io hw w.calls w.io.play_offset else [])
    ∧ (prime_period hw w).calls = (if w.io.play_handle = true then w.calls + 2 else w.calls)
    ∧ (prime_period hw w).io.fixed = w.io.fixed := by
  unfold prime_period play_init play_done mmap_commit period_events
  by_cases hp : w.io.play_handle = true
  · by_cases hr : (hw w.calls).ret < 0
    · simp [hp, hr, World.call, World.log, c_ulong_c_int _ hspp, AlsaIO.fixed]
    · simp [hp, hr, World.call, World.log, c_ulong_c_int _ hspp, AlsaIO.fixed]
  · simp [hp, World.call, World.log, AlsaIO.fixed]

theorem capt_period_trace (hw : Hw) (w : World) (hspp : w.io.samples_per_period < 2 ^ 31) :
    (capt_period hw w).trace
      = w.trace ++ (if w.io.capt_handle = true
          then period_events Dir.capt w.io hw w.calls w.io.capt_offset else [])
    ∧ (capt_period hw w).calls = (if w.io.capt_handle = true then w.calls + 2 else w.calls)
    ∧ (capt_period hw w).io.fixed = w.io.fixed
    ∧ (capt_period hw w).io.play_offset = w.io.play_offset := by
  unfold capt_period capt_init capt_done mmap_commit period_events
  by_cases hp : w.io.capt_handle = true
  · by_cases hr : (hw w.calls).ret < 0
    · simp [hp, hr, World.call, World.log, c_ulong_c_int _ hspp, AlsaIO.fixed]
    · simp [hp, hr, World.call, World.log, c_ulong_c_int _ hspp, AlsaIO.fixed]
  · simp [hp, World.call, World.log, AlsaIO.fixed]

/-! ## C15: the frame of `clear_chan` -/

theorem clear_loop_frame (s : Nat) :
    ∀ len dst mem a, ¬ in_store s dst len a → clear_loop s len dst mem a = mem a := by
  intro len
  induction len with
  | zero => intro dst mem a _; rfl
  | succ n ih =>
    intro dst mem a h
    have h1 : ¬ in_store s (dst + s) n a := by
      rintro ⟨k, hk, h2, h3⟩
      refine h ⟨k + 1, by omega, ?_, ?_⟩
      · have e : dst + (k + 1) * s = dst + s + k * s := by ring
        omega
      · have e : dst + (k + 1) * s = dst + s + k * s := by ring
        omega
    have h0 : ¬ (dst ≤ a ∧ a < dst + 4) := by
      intro h2
      exact h ⟨0, by omega, by omega, by omega⟩
    show clear_loop s n (dst + s) (store_int_zero mem dst) a = mem a
    rw [ih (dst + s) (store_int_zero mem dst) a h1]
    unfold store_int_zero
    rw [if_neg h0]

theorem in_store_bound (s dst len a : Nat) (hs : 4 ≤ s) (h : in_store s dst len a) :
    dst ≤ a ∧ a < dst + len * s := by
  obtain ⟨k, hk, h1, h2⟩ := h
  have h3 : (k + 1) * s ≤ len * s := Nat.mul_le_mul_right s hk
  have h4 : (k + 1) * s = k * s + s := by ring
  constructor
  · have : dst ≤ dst + k * s := Nat.le_add_right _ _
    omega
  · omega

/-- What `clear_chan` leaves alone.  With a stride `s` of at least 4 bytes,
`clear_chan (dst, len)` leaves every byte below `dst` and every byte at
offset `len * s` or more unchanged; whatever the stride, a byte it changes
lies in one of its `len` stores, each the four bytes from `dst + k * s` on,
and nothing else in the program state changes. -/
theorem clear_chan_frame (w : World) (dst len a : Nat) (hs : 4 ≤ w.io.play_step)
    (ha : a < dst ∨ dst + len * w.io.play_step ≤ a) :
    (clear_chan dst len w).mem a = w.mem a
    ∧ (∀ b, in_store w.io.play_step dst len b ∨ (clear_chan dst len w).mem b = w.mem b)
    ∧ (clear_chan dst len w).io = w.io
    ∧ (clear_chan dst len w).trace = w.trace
    ∧ (clear_chan dst len w).calls = w.calls := by
  refine ⟨?_, ?_, rfl, rfl, rfl⟩
  · refine clear_loop_frame _ len dst w.mem a ?_
    intro h
    have := in_store_bound _ dst len a hs h
    omega
  · intro b
    by_cases h : in_store w.io.play_step dst len b
    · exact Or.inl h
    · exact Or.inr (clear_loop_frame _ len dst w.mem b h)

/-! ## C14: the inner loop of `run_thread` -/

theorem fixed_handles {a b : AlsaIO} (h : a.fixed = b.fixed) :
    a.play_handle = b.play_handle ∧ a.capt_handle = b.capt_handle := by
  have h1 := congrArg AlsaIO.play_handle h
  have h2 := congrArg AlsaIO.capt_handle h
  exact ⟨h1, h2⟩

theorem prime_period_pair (hw : Hw) (w : World) :
    ∃ P, (prime_period hw w).trace = w.trace ++ P
      ∧ pair_of w.io.samples_per_period w.io.play_handle Dir.play P := by
  unfold prime_period play_init play_done mmap_commit pair_of
  by_cases hp : w.io.play_handle = true
  · by_cases hr : (hw w.calls).ret < 0
    · simp [hp, hr, World.call, World.log]
    · simp [hp, hr, World.call, World.log]
  · simp [hp, World.call, World.log]

theorem capt_period_pair (hw : Hw) (w : World) :
    ∃ C, (capt_period hw w).trace = w.trace ++ C
      ∧ pair_of w.io.samples_per_period w.io.capt_handle Dir.capt C
      ∧ (capt_period hw w).io.fixed = w.io.fixed := by
  unfold capt_period capt_init capt_done mmap_commit pair_of
  by_cases hp : w.io.capt_handle = true
  · by_cases hr : (hw w.calls).ret < 0
    · simp [hp, hr, World.call, World.log, AlsaIO.fixed]
    · simp [hp, hr, World.call, World.log, AlsaIO.fixed]
  · simp [hp, World.call, World.log, AlsaIO.fixed]

theorem process_period_pairs (hw : Hw) (w : World) :
    ∃ C P, (process_period hw w).trace = w.trace ++ (C ++ P)
      ∧ pair_of w.io.samples_per_period w.io.capt_handle Dir.capt C
      ∧ pair_of w.io.samples_per_period w.io.play_handle Dir.play P := by
  obtain ⟨C, hC, hCp, hfix⟩ := capt_period_pair hw w
  obtain ⟨P, hP, hPp⟩ := prime_period_pair hw (capt_period hw w)
  have e : process_period hw w = prime_period hw (capt_period hw w) := rfl
  refine ⟨C, P, ?_, hCp, ?_⟩
  · rw [e, hP, hC, List.append_assoc]
  · rw [fixed_period hfix, (fixed_handles hfix).1] at hPp
    exact hPp

theorem drain_exact (hw : Hw) (fuel : Nat) :
    ∀ (nr : Int) (w : World), 1 ≤ w.io.samples_per_period →
      w.io.samples_per_period < 9223372036854775808 → nr < 9223372036854775808 →
      nr.toNat / w.io.samples_per_period ≤ fuel →
      drain hw fuel nr w
          = some (nr - ((nr.toNat / w.io.samples_per_period * w.io.samples_per_period : Nat) : Int),
                  (process_period hw)^[nr.toNat / w.io.samples_per_period] w)
      ∧ ∃ evs, ((process_period hw)^[nr.toNat / w.io.samples_per_period] w).trace = w.trace ++ evs
          ∧ drained w.io.samples_per_period w.io.capt_handle w.io.play_handle
              (nr.toNat / w.io.samples_per_period) evs := by
  induction fuel with
  | zero =>
    intro nr w h1 h2 h3 hf
    have hk : nr.toNat / w.io.samples_per_period = 0 := Nat.le_zero.1 hf
    have hlt : nr.toNat < w.io.samples_per_period := (Nat.div_eq_zero_iff (by omega)).1 hk
    have hc : c_long w.io.samples_per_period = w.io.samples_per_period := by
      unfold c_long; omega
    have : ¬ nr ≥ c_long w.io.samples_per_period := by rw [hc]; omega
    unfold drain
    rw [hk]
    simp only [this, if_false, Nat.zero_mul, Nat.cast_zero, sub_zero, Function.iterate_zero, id]
    exact ⟨trivial, [], by simp, rfl⟩
  | succ n ih =>
    intro nr w h1 h2 h3 hf
    have hc : c_long w.io.samples_per_period = w.io.samples_per_period := by
      unfold c_long; omega
    unfold drain
    by_cases hge : nr ≥ c_long w.io.samples_per_period
    · rw [if_pos hge]
      rw [hc] at hge
      have hs := process_period_steady hw w
      have hspp : (process_period hw w).io.samples_per_period = w.io.samples_per_period :=
        fixed_period hs.2
      have hh := fixed_handles hs.2
      have hsub : c_long (nr - w.io.samples_per_period) = nr - w.io.samples_per_period := by
        unfold c_long; omega
      have hnat : (nr - (w.io.samples_per_period : Int)).toNat
          = nr.toNat - w.io.samples_per_period := by omega
      have hle : w.io.samples_per_period ≤ nr.toNat := by omega
      have hdiv : nr.toNat / w.io.samples_per_period
          = (nr.toNat - w.io.samples_per_period) / w.io.samples_per_period + 1 := by
        rw [Nat.div_eq_sub_div (by omega) hle]
      obtain ⟨e1, evs, e2, e3⟩ := ih (c_long (nr - w.io.samples_per_period)) (process_period hw w)
        (by rw [hspp]; exact h1) (by rw [hspp]; exact h2) (by rw [hsub]; omega)
        (by rw [hspp, hsub, hnat]; omega)
      rw [hspp, hsub, hnat] at e1 e2 e3
      rw [hh.1, hh.2] at e3
      obtain ⟨C, P, hCP, hC, hP⟩ := process_period_pairs hw w
      refine ⟨?_, C ++ P ++ evs, ?_, ?_⟩
      · have hi : nr - (w.io.samples_per_period : Int)
            - (((nr.toNat - w.io.samples_per_period) / w.io.samples_per_period
                * w.io.samples_per_period : Nat) : Int)
            = nr - ((((nr.toNat - w.io.samples_per_period) / w.io.samples_per_period + 1)
                * w.io.samples_per_period : Nat) : Int) := by
          push_cast
          ring
        rw [hsub, e1, hdiv, Function.iterate_succ_apply, hi]
      · rw [hdiv, Function.iterate_succ_apply, e2, hCP]
        simp
      · rw [hdiv]
        exact ⟨C, P, evs, by simp, hC, hP, e3⟩
    · rw [if_neg hge]
      rw [hc] at hge
      have hlt : nr.toNat < w.io.samples_per_period := by omega
      have hk : nr.toNat / w.io.samples_per_period = 0 := Nat.div_eq_of_lt hlt
      rw [hk]
      simp only [Nat.zero_mul, Nat.cast_zero, sub_zero, Function.iterate_zero, id]
      exact ⟨trivial, [], by simp, rfl⟩

/-- C14. For a period of `P` frames with `1 ≤ P < 2 ^ 63`, as is every
period `main` can set (128, or 8 to 8192), and a progress value `nr` (a
`long`), the inner loop of `run_thread` ends, given fuel for
`k = max nr 0 / P` turns, after exactly `k` turns, none when `nr < P`; each
turn is one run of the loop body (the begin/commit pair of the capture
stream, then that of the playback stream, each stream that is open) and
takes `P` from the remaining count, which is `nr - k * P` at the end, is
less than `P`, and is `nr mod P` when `nr ≥ 0`. -/
theorem drain_iterations (hw : Hw) (fuel : Nat) (nr : Int) (w : World)
    (h1 : 1 ≤ w.io.samples_per_period) (h2 : w.io.samples_per_period < 2 ^ 63)
    (hnr : nr < 2 ^ 63) (hf : nr.toNat / w.io.samples_per_period ≤ fuel) :
    drain hw fuel nr w
        = some (nr - ((nr.toNat / w.io.samples_per_period * w.io.samples_per_period : Nat) : Int),
                (process_period hw)^[nr.toNat / w.io.samples_per_period] w)
    ∧ (∃ evs, ((process_period hw)^[nr.toNat / w.io.samples_per_period] w).trace
          = w.trace ++ evs
        ∧ drained w.io.samples_per_period w.io.capt_handle w.io.play_handle
            (nr.toNat / w.io.samples_per_period) evs)
    ∧ nr - ((nr.toNat / w.io.samples_per_period * w.io.samples_per_period : Nat) : Int)
        < w.io.samples_per_period
    ∧ (0 ≤ nr →
        nr.toNat / w.io.samples_per_period = (nr / w.io.samples_per_period).toNat
        ∧ nr - ((nr.toNat / w.io.samples_per_period * w.io.samples_per_period : Nat) : Int)
            = nr % w.io.samples_per_period)
    ∧ (nr < w.io.samples_per_period → nr.toNat / w.io.samples_per_period = 0) := by
  obtain ⟨e1, e2⟩ := drain_exact hw fuel nr w h1 (by omega) (by omega) hf
  refine ⟨e1, e2, ?_, ?_, ?_⟩
  · by_cases h0 : 0 ≤ nr
    · have hm := Nat.mod_lt nr.toNat (show 0 < w.io.samples_per_period by omega)
      have hd := Nat.div_add_mod nr.toNat w.io.samples_per_period
      have hn : (nr.toNat : Int) = nr := Int.toNat_of_nonneg h0
      have : ((nr.toNat / w.io.samples_per_period * w.io.samples_per_period : Nat) : Int)
          = nr - ((nr.toNat % w.io.samples_per_period : Nat) : Int) := by
        have : nr.toNat / w.io.samples_per_period * w.io.samples_per_period
            = nr.toNat - nr.toNat % w.io.samples_per_period := by
          rw [Nat.mul_comm]; omega
        rw [this, Nat.cast_sub (Nat.mod_le _ _), hn]
      rw [this]
      omega
    · have : nr.toNat = 0 := by omega
      rw [this]
      simp
      omega
  · intro h0
    have hn : (nr.toNat : Int) = nr := Int.toNat_of_nonneg h0
    have hq : ((nr.toNat / w.io.samples_per_period : Nat) : Int)
        = nr / (w.io.samples_per_period : Int) := by
      rw [Int.natCast_div, hn]
    constructor
    · rw [← hq, Int.toNat_natCast]
    · rw [Int.emod_def, Nat.cast_mul, hq, mul_comm]
  · intro hlt
    apply Nat.div_eq_of_lt
    omega

/-! ## The calls of the start sequence -/

theorem committed_append (a b : List Ev) : committed (a ++ b) = committed a + committed b := by
  induction a with
  | nil => simp [committed]
  | cons e t ih =>
    cases e <;> simp [committed, ih]
    omega

theorem pcm_start_capt_trace (hw : Hw) (w : World) :
    ∃ C, (pcm_start_capt hw w).2.trace = w.trace ++ C
      ∧ (w.io.capt_handle = true → w.io.synced = false →
          C = [Ev.start Dir.capt (hw w.calls).ret])
      ∧ (¬ (w.io.capt_handle = true ∧ w.io.synced = false) → C = [])
      ∧ ((pcm_start_capt hw w).1 = 0 ∨ (pcm_start_capt hw w).1 = -1)
      ∧ ((pcm_start_capt hw w).1 = 0 ↔ ∀ rc, Ev.start Dir.capt rc ∈ C → 0 ≤ rc) := by
  unfold pcm_start_capt
  by_cases hc : w.io.capt_handle = true <;> by_cases hs : w.io.synced = true
  · exact ⟨[], by simp [hc, hs], by simp [hs], by simp, by simp [hc, hs], by simp [hc, hs]⟩
  · by_cases hr : (hw w.calls).ret < 0
    · refine ⟨[Ev.start Dir.capt (hw w.calls).ret], ?_, ?_, ?_, ?_, ?_⟩ <;>
        simp [hc, hs, hr, World.call, World.log]
    · refine ⟨[Ev.start Dir.capt (hw w.calls).ret], ?_, ?_, ?_, ?_, ?_⟩ <;>
        simp [hc, hs, hr, World.call, World.log]
      exact not_lt.1 hr
  · exact ⟨[], by simp [hc, hs], by simp [hs], by simp, by simp [hc, hs], by simp [hc, hs]⟩
  · exact ⟨[], by simp [hc, hs], by simp [hc], by simp, by simp [hc, hs], by simp [hc, hs]⟩

/-! ## How a turn of `pcm_wait` ends -/

theorem Calm.still (w : World) : Calm w w := Emits.refl _ _

theorem Calm.step (hw : Hw) (w : World) (e : Ev) (he : e.benign) :
    Calm w ((w.call hw).2.log e) := emits_call_log _ hw w e he

theorem Calm.next {a b c : World} (h1 : Calm a b) (h2 : Calm b c) : Calm a c :=
  Emits.trans h1 h2

theorem Stops.after {hw : Hw} {a b c : World} (h1 : Calm a b) (h2 : Stops hw b c) :
    Stops hw a c := by
  obtain ⟨B0, hB0, hQ0⟩ := h1
  rcases h2 with ⟨B, e, ht, hB, he⟩ | ⟨B, e, wr, ht, hB, he, hw'⟩
  · refine Or.inl ⟨B0 ++ B, e, ?_, ?_, he⟩
    · rw [ht, hB0]; simp
    · intro x hx
      rcases List.mem_append.1 hx with h | h
      · exact hQ0 x h
      · exact hB x h
  · refine Or.inr ⟨B0 ++ B, e, wr, ?_, ?_, he, hw'⟩
    · rw [ht, hB0]; simp
    · intro x hx
      rcases List.mem_append.1 hx with h | h
      · exact hQ0 x h
      · exact hB x h

theorem Stops.alarm (hw : Hw) (w : World) (e : Ev) (he : e.alarm) :
    Stops hw w (recover hw ((w.call hw).2.log e)).2 :=
  Or.inr ⟨[], e, (w.call hw).2.log e, by simp, by simp, he, rfl⟩

theorem Stops.idle (hw : Hw) (w : World) (e : Ev) (he : e.idle) :
    Stops hw w ((w.call hw).2.log e) :=
  Or.inl ⟨[], e, by simp, by simp, he⟩

theorem pcm_wait_capt_events_ends (hw : Hw) (np nc : Bool) (n1 n2 : Int) (w : World) :
    (∀ v, (pcm_wait_capt_events hw np nc n1 n2 w).1 = PollStep.ret v →
        v = 0 ∧ Stops hw w (pcm_wait_capt_events hw np nc n1 n2 w).2)
    ∧ (∀ a b, (pcm_wait_capt_events hw np nc n1 n2 w).1 = PollStep.again a b →
        Calm w (pcm_wait_capt_events hw np nc n1 n2 w).2) := by
  by_cases hn : nc = true
  · by_cases he : (hw w.calls).revents &&& POLLERR = 0
    · have e : ∃ a b, pcm_wait_capt_events hw np nc n1 n2 w
          = (PollStep.again a b,
              (w.call hw).2.log (Ev.poll_revents Dir.capt (n2 - n1) (hw w.calls).revents)) := by
        unfold pcm_wait_capt_events
        by_cases hi : (hw w.calls).revents &&& POLLIN = 0
        · exact ⟨np, nc, by simp [hn, he, hi, World.call]⟩
        · exact ⟨np, false, by simp [hn, he, hi, World.call]⟩
      obtain ⟨a, b, e⟩ := e
      rw [e]
      exact ⟨fun v hv => (by simp at hv), fun _ _ _ => Calm.step hw w _ he⟩
    · have e : pcm_wait_capt_events hw np nc n1 n2 w
          = (PollStep.ret 0, (recover hw
              ((w.call hw).2.log (Ev.poll_revents Dir.capt (n2 - n1) (hw w.calls).revents))).2) := by
        unfold pcm_wait_capt_events
        simp [hn, he, World.call]
      rw [e]
      refine ⟨fun v hv => ?_, fun a b hab => (by simp at hab)⟩
      cases hv
      exact ⟨rfl, Stops.alarm hw w _ he⟩
  · have e : pcm_wait_capt_events hw np nc n1 n2 w = (PollStep.again np nc, w) := by
      unfold pcm_wait_capt_events
      simp [hn]
    rw [e]
    exact ⟨fun v hv => (by simp at hv), fun _ _ _ => Calm.still w⟩

theorem pcm_wait_play_events_ends (hw : Hw) (np nc : Bool) (n1 n2 : Int) (w : World) :
    (∀ v, (pcm_wait_play_events hw np nc n1 n2 w).1 = PollStep.ret v →
        v = 0 ∧ Stops hw w (pcm_wait_play_events hw np nc n1 n2 w).2)
    ∧ (∀ a b, (pcm_wait_play_events hw np nc n1 n2 w).1 = PollStep.again a b →
        Calm w (pcm_wait_play_events hw np nc n1 n2 w).2) := by
  by_cases hn : np = true
  · by_cases he : (hw w.calls).revents &&& POLLERR = 0
    · have e : ∃ a, pcm_wait_play_events hw np nc n1 n2 w
          = pcm_wait_capt_events hw a nc n1 n2
              ((w.call hw).2.log (Ev.poll_revents Dir.play n1 (hw w.calls).revents)) := by
        unfold pcm_wait_play_events
        by_cases hi : (hw w.calls).revents &&& POLLOUT = 0
        · exact ⟨np, by simp [hn, he, hi, World.call]⟩
        · exact ⟨false, by simp [hn, he, hi, World.call]⟩
      obtain ⟨a, e⟩ := e
      rw [e]
      have hc := Calm.step hw w (Ev.poll_revents Dir.play n1 (hw w.calls).revents) he
      obtain ⟨h1, h2⟩ := pcm_wait_capt_events_ends hw a nc n1 n2
        ((w.call hw).2.log (Ev.poll_revents Dir.play n1 (hw w.calls).revents))
      exact ⟨fun v hv => ⟨(h1 v hv).1, Stops.after hc (h1 v hv).2⟩,
        fun a b hab => hc.next (h2 a b hab)⟩
    · have e : pcm_wait_play_events hw np nc n1 n2 w
          = (PollStep.ret 0, (recover hw
              ((w.call hw).2.log (Ev.poll_revents Dir.play n1 (hw w.calls).revents))).2) := by
        unfold pcm_wait_play_events
        simp [hn, he, World.call]
      rw [e]
      refine ⟨fun v hv => ?_, fun a b hab => (by simp at hab)⟩
      cases hv
      exact ⟨rfl, Stops.alarm hw w _ he⟩
  · have e : pcm_wait_play_events hw np nc n1 n2 w = pcm_wait_capt_events hw np nc n1 n2 w := by
      unfold pcm_wait_play_events
      simp [hn]
    rw [e]
    exact pcm_wait_capt_events_ends hw np nc n1 n2 w

theorem pcm_wait_ppoll_ends (hw : Hw) (np nc : Bool) (n1 n2 : Int) (w : World) :
    (∀ v, (pcm_wait_ppoll hw np nc n1 n2 w).1 = PollStep.ret v →
        v = 0 ∧ Stops hw w (pcm_wait_ppoll hw np nc n1 n2 w).2)
    ∧ (∀ a b, (pcm_wait_ppoll hw np nc n1 n2 w).1 = PollStep.again a b →
        Calm w (pcm_wait_ppoll hw np nc n1 n2 w).2) := by
  by_cases hr : 0 < (hw w.calls).ret
  · have e : pcm_wait_ppoll hw np nc n1 n2 w
        = pcm_wait_play_events hw np nc n1 n2 ((w.call hw).2.log (Ev.ppoll n2 (hw w.calls).ret)) := by
      unfold pcm_wait_ppoll
      have h1 : ¬ (hw w.calls).ret < 0 := by omega
      have h2 : ¬ (hw w.calls).ret = 0 := by omega
      simp [h1, h2, World.call]
    rw [e]
    have hc := Calm.step hw w (Ev.ppoll n2 (hw w.calls).ret) hr
    obtain ⟨h1, h2⟩ := pcm_wait_play_events_ends hw np nc n1 n2
      ((w.call hw).2.log (Ev.ppoll n2 (hw w.calls).ret))
    exact ⟨fun v hv => ⟨(h1 v hv).1, Stops.after hc (h1 v hv).2⟩,
      fun a b hab => hc.next (h2 a b hab)⟩
  · have e : pcm_wait_ppoll hw np nc n1 n2 w
        = (PollStep.ret 0, (w.call hw).2.log (Ev.ppoll n2 (hw w.calls).ret)) := by
      unfold pcm_wait_ppoll
      by_cases h1 : (hw w.calls).ret < 0
      · simp [h1, World.call]
      · have h2 : (hw w.calls).ret = 0 := by omega
        simp [h2, World.call]
    rw [e]
    refine ⟨fun v hv => ?_, fun a b hab => (by simp at hab)⟩
    cases hv
    exact ⟨rfl, Stops.idle hw w _ (not_lt.1 hr)⟩

theorem pcm_wait_descriptors_calm (hw : Hw) (d : Dir) (need : Bool) (w : World) :
    Calm w (pcm_wait_descriptors hw d need w) := by
  unfold pcm_wait_descriptors
  split
  · exact Calm.step hw w _ trivial
  · exact Calm.still w

theorem pcm_wait_poll_ends (hw : Hw) (np nc : Bool) (w : World) :
    (∀ v, (pcm_wait_poll hw np nc w).1 = PollStep.ret v →
        v = 0 ∧ Stops hw w (pcm_wait_poll hw np nc w).2)
    ∧ (∀ a b, (pcm_wait_poll hw np nc w).1 = PollStep.again a b →
        Calm w (pcm_wait_poll hw np nc w).2) := by
  unfold pcm_wait_poll
  simp only []
  have hc := (pcm_wait_descriptors_calm hw Dir.play np w).next
    (pcm_wait_descriptors_calm hw Dir.capt nc _)
  obtain ⟨h1, h2⟩ := pcm_wait_ppoll_ends hw np nc (if np = true then 0 + w.io.play_npfd else 0)
    (if nc = true then (if np = true then 0 + w.io.play_npfd else 0) + w.io.capt_npfd
      else (if np = true then 0 + w.io.play_npfd else 0))
    (pcm_wait_descriptors hw Dir.capt nc (pcm_wait_descriptors hw Dir.play np w))
  exact ⟨fun v hv => ⟨(h1 v hv).1, Stops.after hc (h1 v hv).2⟩,
    fun a b hab => hc.next (h2 a b hab)⟩

theorem pcm_wait_avail_ends (hw : Hw) (w : World) :
    Calm w (pcm_wait_avail hw w).2
    ∨ ((pcm_wait_avail hw w).1 = 0 ∧ Stops hw w (pcm_wait_avail hw w).2) := by
  unfold pcm_wait_avail
  by_cases hp : w.io.play_handle = true
  · by_cases hr : (hw w.calls).ret < 0
    · right
      simp only [hp, if_true, World.call, hr]
      exact ⟨trivial, Stops.alarm hw w _ hr⟩
    · have hc := Calm.step hw w (Ev.avail_update Dir.play (hw w.calls).ret) (not_lt.1 hr)
      by_cases hcap : w.io.capt_handle = true
      · by_cases hr2 : (hw (w.calls + 1)).ret < 0
        · right
          simp only [hp, if_true, World.call, World.log, hr, if_false, hcap, hr2]
          exact ⟨trivial, Stops.after hc (Stops.alarm hw _ _ hr2)⟩
        · left
          simp only [hp, if_true, World.call, World.log, hr, if_false, hcap, hr2]
          exact hc.next (Calm.step hw _ (Ev.avail_update Dir.capt (hw (w.calls + 1)).ret)
            (not_lt.1 hr2))
      · left
        simp only [hp, if_true, World.call, World.log, hr, if_false, hcap, Bool.false_eq_true]
        exact hc
  · by_cases hcap : w.io.capt_handle = true
    · by_cases hr2 : (hw w.calls).ret < 0
      · right
        simp only [hp, Bool.false_eq_true, if_false, World.call, hcap, if_true, hr2]
        exact ⟨trivial, Stops.alarm hw w _ hr2⟩
      · left
        simp only [hp, Bool.false_eq_true, if_false, World.call, hcap, if_true, hr2]
        exact Calm.step hw w _ (not_lt.1 hr2)
    · left
      simp only [hp, Bool.false_eq_true, if_false, hcap]
      exact Calm.still w

theorem starting_recovering (e : Ev) (h : e.starting) : e.recovering := by
  cases e <;> first | exact h | exact trivial

theorem recover_trace (hw : Hw) (w : World) :
    ∃ R, (recover hw w).2.trace = w.trace ++ (Ev.enter_recover :: R) ∧ ∀ e ∈ R, e.recovering := by
  unfold recover
  obtain ⟨E, hE, _, hEq⟩ := recover_diagnose_spec hw (w.log Ev.enter_recover)
  obtain ⟨D, hD, _, hDq, _⟩ := pcm_stop_spec hw (recover_diagnose hw (w.log Ev.enter_recover))
  have hED : ∀ e ∈ E ++ D, e.recovering := by
    intro e he
    rcases List.mem_append.1 he with h | h
    · obtain ⟨d, r, x, rfl⟩ := hEq e h
      exact trivial
    · obtain ⟨d, r, rfl⟩ := hDq e h
      exact trivial
  by_cases hr : (pcm_stop hw (recover_diagnose hw (w.log Ev.enter_recover))).1 = 0
  · obtain ⟨P, S, hP, hPq, hSq, _⟩ :=
      recover_prepare_spec hw (pcm_stop hw (recover_diagnose hw (w.log Ev.enter_recover))).2
    refine ⟨E ++ D ++ (P ++ S), ?_, ?_⟩
    · simp only [hr, ne_eq, not_true_eq_false, if_false]
      rw [hP, hD, hE]
      simp [World.log]
    · intro e he
      rcases List.mem_append.1 he with h | h
      · exact hED e h
      · rcases List.mem_append.1 h with h | h
        · obtain ⟨d, r, rfl⟩ := hPq e h
          exact trivial
        · exact starting_recovering e (hSq e h)
  · refine ⟨E ++ D, ?_, hED⟩
    simp only [ne_eq, hr, not_false_eq_true, if_true]
    rw [hD, hE]
    simp [World.log]

theorem count_recover_benign (l : List Ev) (h : ∀ e ∈ l, e.benign) : count_recover l = 0 := by
  unfold count_recover
  apply List.count_eq_zero_of_not_mem
  intro hm
  exact h _ hm

theorem count_recover_recovering (l : List Ev) (h : ∀ e ∈ l, e.recovering) :
    count_recover l = 0 := by
  unfold count_recover
  apply List.count_eq_zero_of_not_mem
  intro hm
  exact h _ hm

theorem count_recover_append (a b : List Ev) :
    count_recover (a ++ b) = count_recover a + count_recover b := by
  unfold count_recover
  exact List.count_append _ _ _

/-! ## A cycle without progress -/

theorem drain_nothing (hw : Hw) (fuel : Nat) (w : World) (h1 : 1 ≤ w.io.samples_per_period)
    (h2 : w.io.samples_per_period < 9223372036854775808) : drain hw fuel 0 w = some (0, w) := by
  have : ¬ (0 : Int) ≥ c_long w.io.samples_per_period := by
    unfold c_long; omega
  cases fuel <;> unfold drain <;> rw [if_neg this]

/-! ## The settings option parsing leaves -/

theorem parse_nchan_le (v : Int) : parse_nchan v ≤ 64 := by
  unfold parse_nchan
  split_ifs <;> omega

theorem parse_nchan_above (v : Int) (h : 64 < v) : parse_nchan v = 64 := by
  unfold parse_nchan
  split_ifs <;> omega

theorem parse_periods_range (v : Int) : 1 ≤ parse_periods v ∧ parse_periods v ≤ 32 := by
  unfold parse_periods
  split_ifs <;> omega

theorem parse_period_range (v : Int) : 8 ≤ parse_period v ∧ parse_period v ≤ 8192 := by
  unfold parse_period
  split_ifs <;> omega

theorem parse_rate_range (v : Int) : 8000 ≤ parse_rate v ∧ parse_rate v ≤ 192000 := by
  unfold parse_rate
  split_ifs <;> omega

theorem default_in_range : AlsaIO.default.in_range := by
  unfold AlsaIO.in_range AlsaIO.default
  decide

theorem parsed_in_range (io : AlsaIO) (o i n n' p r : Int) :
    ({ io with play_nchan := parse_nchan o, capt_nchan := parse_nchan i,
               play_periods_per_cycle := parse_periods n,
               capt_periods_per_cycle := parse_periods n',
               samples_per_period := parse_period p,
               samplerate := parse_rate r } : AlsaIO).in_range := by
  unfold AlsaIO.in_range
  exact ⟨parse_nchan_le o, parse_nchan_le i, (parse_period_range p).1, (parse_period_range p).2,
    (parse_periods_range n).1, (parse_periods_range n).2, (parse_periods_range n').1,
    (parse_periods_range n').2, (parse_rate_range r).1, (parse_rate_range r).2⟩

/-! ## C5: channel count resolution in `set_hwpar` -/

/-- C5. The channel count `set_hwpar` settles for a direction is
`resolve_ref req hwmax`, where `req` is the count it is entered with and
`hwmax` what `snd_pcm_hw_params_get_channels_max` reports: for the second
part of `set_hwpar` in any state, and for `set_hwpar` as a whole once the
steps before it have succeeded.  When the count to resolve is above 64, be
it the request itself or, for an auto request, the maximum of the hardware,
it is resolved to 2, the call that sets the channel count is made with 2,
and `set_hwpar` returns 0 when the calls that follow succeed.  An auto
request on hardware with 1 to 64 channels is resolved to the hardware's
maximum.  Option parsing hands over a count of at most 64, a request above
64 as 64, so that in a run of `main` the value 2 comes from an auto request
on hardware with more than 64 channels. -/
theorem set_hwpar_resolves (hw : Hw) (d : Dir) (w : World) :
    (set_hwpar_channels hw d w).2.io.nchan d = resolve_ref (w.io.nchan d) (hw w.calls).val ∧
    ((set_hwpar_negotiate hw d w).1 = true →
      (set_hwpar hw d w).2.io.nchan d =
        resolve_ref (w.io.nchan d) (hw (set_hwpar_negotiate hw d w).2.calls).val) ∧
    ((64 < w.io.nchan d ∨ (w.io.nchan d = 0 ∧ 64 < (hw w.calls).val)) →
      (set_hwpar_channels hw d w).2.io.nchan d = 2 ∧
      Ev.cfg d (Cfg.set_channels 2) (hw (w.calls + 1)).ret ∈ (set_hwpar_channels hw d w).2.trace ∧
      ((∀ k, k < 5 → 0 ≤ (hw (w.calls + 1 + k)).ret) → (set_hwpar_channels hw d w).1 = 0)) ∧
    (w.io.nchan d = 0 → 1 ≤ (hw w.calls).val → (hw w.calls).val ≤ 64 →
      (set_hwpar_channels hw d w).2.io.nchan d = (hw w.calls).val) ∧
    (∀ v : Int, parse_nchan v ≤ 64 ∧ (64 < v → parse_nchan v = 64)) ∧
    (1 ≤ w.io.nchan d → w.io.nchan d ≤ 64 →
      (set_hwpar_channels hw d w).2.io.nchan d = w.io.nchan d) := by
  have hn := set_hwpar_channels_nchan hw d w
  refine ⟨hn, ?_, ?_, ?_, ?_, ?_⟩
  · intro hok
    unfold set_hwpar
    simp only [hok, if_true]
    rw [set_hwpar_channels_nchan, set_hwpar_negotiate_io]
    rfl
  · intro h64
    have hr : resolve_nchan (w.io.nchan d) (hw w.calls).val = 2 := by
      unfold resolve_nchan
      rcases h64 with h | ⟨h0, h⟩
      · have : w.io.nchan d ≠ 0 := by omega
        simp [this, h]
      · simp [h0, h]
    refine ⟨by rw [hn, hr], ?_, ?_⟩
    · unfold set_hwpar_channels
      simp only [cfg_call_resp, cfg_call_io, cfg_call_calls, nchan_set_nchan, hr]
      simp only [show ¬ (2 < 1) by omega, if_false]
      repeat' split
      all_goals simp [cfg_call, World.log, World.call]
    · intro hk
      exact set_hwpar_channels_ok hw d w (by rw [hr]; omega) hk
  · intro h0 h1 h64
    rw [hn]
    unfold resolve_nchan
    simp [h0, not_lt.2 h64]
  · intro v
    exact ⟨parse_nchan_le v, parse_nchan_above v⟩
  · intro h1 h64
    rw [hn]
    unfold resolve_nchan
    have : w.io.nchan d ≠ 0 := by omega
    simp [this, not_lt.2 h64]

/-- C5, at an input main can produce: playback with an auto request on
hardware that reports 128 channels.  The count is resolved to 2, the call
that sets the channel count is made with 2, and `set_hwpar` returns 0.  A
request of 128 on the command line reaches `set_hwpar` as 64. -/
theorem set_hwpar_resolves_witness :
    world_auto_play.io.in_range
    ∧ (set_hwpar hw_many_channels Dir.play world_auto_play).1 = 0
    ∧ (set_hwpar hw_many_channels Dir.play world_auto_play).2.io.play_nchan = 2
    ∧ Ev.cfg Dir.play (Cfg.set_channels 2) 0
        ∈ (set_hwpar hw_many_channels Dir.play world_auto_play).2.trace
    ∧ parse_nchan 128 = 64 := by
  have h := (set_hwpar_resolves hw_many_channels Dir.play
    (set_hwpar_negotiate hw_many_channels Dir.play world_auto_play).2).2.2.1
    (Or.inr ⟨by decide, by decide⟩)
  refine ⟨by unfold AlsaIO.in_range; decide, ?_, h.1, h.2.1, by decide⟩
  exact h.2.2 (by intro k hk; interval_cases k <;> decide)

/-! ## C10: one commit per begin -/

/-- C10 (amended): with a period of fewer than `2 ^ 31` frames, a begin that
succeeds on the playback stream, in a priming turn of `pcm_start` as in an
inner turn of `run_thread`, is followed by exactly one commit on that
stream, and so is a begin that succeeds on the capture stream in an inner
turn of `run_thread`, whose capture half comes before its playback half; a
stream that is not open sees neither call.  The length passed to the commit
is `samples_per_period`, the length asked of the begin, whatever length was
granted: the commit stays within the grant exactly when the whole period was
granted. -/
theorem commit_per_begin (hw : Hw) (w : World) (hspp : w.io.samples_per_period < 2 ^ 31) :
    (w.io.play_handle = true → 0 ≤ (hw w.calls).ret →
      (prime_period hw w).trace
        = w.trace ++ [Ev.mmap_begin Dir.play w.io.samples_per_period (hw w.calls).ret
                        (hw w.calls).frames,
                      Ev.mmap_commit Dir.play (hw w.calls).offset w.io.samples_per_period
                        (hw (w.calls + 1)).ret])
    ∧ (w.io.capt_handle = true → 0 ≤ (hw w.calls).ret →
      (capt_period hw w).trace
        = w.trace ++ [Ev.mmap_begin Dir.capt w.io.samples_per_period (hw w.calls).ret
                        (hw w.calls).frames,
                      Ev.mmap_commit Dir.capt (hw w.calls).offset w.io.samples_per_period
                        (hw (w.calls + 1)).ret])
    ∧ (w.io.play_handle = false → (prime_period hw w).trace = w.trace)
    ∧ (w.io.capt_handle = false → (capt_period hw w).trace = w.trace)
    ∧ process_period hw w = prime_period hw (capt_period hw w)
    ∧ ∀ d req r granted offset frames r', 0 ≤ r →
        (within_grant [Ev.mmap_begin d req r granted, Ev.mmap_commit d offset frames r'] = true
          ↔ frames ≤ granted) := by
  obtain ⟨hp, _, _⟩ := prime_period_trace hw w hspp
  obtain ⟨hc, _, _, _⟩ := capt_period_trace hw w hspp
  refine ⟨?_, ?_, ?_, ?_, rfl, ?_⟩
  · intro h hr
    rw [hp, if_pos h]
    simp [period_events, not_lt.2 hr]
  · intro h hr
    rw [hc, if_pos h]
    simp [period_events, not_lt.2 hr]
  · intro h
    rw [hp]
    simp [h]
  · intro h
    rw [hc]
    simp [h]
  · intro d req r granted offset frames r' hr
    simp [within_grant, not_lt.2 hr]

/-- C10 (amended), at an input: playback only, a begin that grants the 128
frames asked for, then the commit of 128 frames. -/
theorem commit_per_begin_witness :
    (prime_period hw_full world_play_only).trace
      = [Ev.mmap_begin Dir.play 128 0 128, Ev.mmap_commit Dir.play 0 128 0]
    ∧ within_grant (prime_period hw_full world_play_only).trace = true :=
  ⟨(commit_per_begin hw_full world_play_only (by decide)).1 rfl (by decide), by decide⟩

/-- C10 as stated fails: a begin that succeeds and grants 64 of the 128
frames asked for is followed by a commit of 128 frames. -/
theorem commit_per_begin_counterexample :
    (prime_period hw_short world_play_only).trace
      = [Ev.mmap_begin Dir.play 128 0 64, Ev.mmap_commit Dir.play 0 128 0]
    ∧ within_grant (prime_period hw_short world_play_only).trace = false
    ∧ (process_period hw_short world_play_only).trace
      = [Ev.mmap_begin Dir.play 128 0 64, Ev.mmap_commit Dir.play 0 128 0] := by
  refine ⟨by decide, by decide, by decide⟩

/-! ## C13: the start sequence -/

theorem priming_trace (hw : Hw) :
    ∀ n lo w, w.io.play_handle = true → w.io.samples_per_period < 2 ^ 31 →
      (∀ i, i < n → 0 ≤ (hw (w.calls + 2 * i)).ret) →
      ∃ P, (for_range n lo (fun _ w => prime_period hw w) w).trace = w.trace ++ P
        ∧ primed w.io.samples_per_period n P
        ∧ committed P = w.io.samples_per_period * n
        ∧ (for_range n lo (fun _ w => prime_period hw w) w).io.fixed = w.io.fixed
        ∧ (for_range n lo (fun _ w => prime_period hw w) w).calls = w.calls + 2 * n := by
  intro n
  induction n with
  | zero =>
    intro lo w _ _ _
    exact ⟨[], by simp [for_range], rfl, rfl, rfl, rfl⟩
  | succ n ih =>
    intro lo w hp hs hb
    obtain ⟨h1, h2, h3⟩ := prime_period_trace hw w hs
    have hspp := fixed_period h3
    have hh := (fixed_handles h3).1
    rw [if_pos hp] at h1 h2
    obtain ⟨P, e1, e2, e3, e4, e5⟩ := ih (lo + 1) (prime_period hw w) (by rw [hh]; exact hp)
      (by rw [hspp]; exact hs)
      (by
        intro i hi
        have := hb (i + 1) (by omega)
        rw [h2]
        have e : w.calls + 2 + 2 * i = w.calls + 2 * (i + 1) := by ring
        rw [e]
        exact this)
    rw [hspp] at e2 e3
    have hb0 : 0 ≤ (hw w.calls).ret := by
      have := hb 0 (by omega)
      simpa using this
    refine ⟨period_events Dir.play w.io hw w.calls w.io.play_offset ++ P, ?_, ?_, ?_, ?_, ?_⟩
    · show (for_range n (lo + 1) _ (prime_period hw w)).trace = _
      rw [e1, h1, List.append_assoc]
    · exact ⟨_, _, _, _, P, hb0, rfl, e2⟩
    · rw [committed_append, e3]
      simp [period_events, committed]
      ring
    · show (for_range n (lo + 1) _ (prime_period hw w)).io.fixed = _
      rw [e4, h3]
    · show (for_range n (lo + 1) _ (prime_period hw w)).calls = _
      rw [e5, h2]
      ring

/-- C13 (amended): for `pcm_start` with the playback stream open, a period of
fewer than `2 ^ 31` frames and fewer than `2 ^ 32` periods per cycle, every
begin of the priming succeeding.  If the available-frame count reported at
entry, taken as an `unsigned int` (modulo `2 ^ 32`), differs from
`samples_per_period * play_periods_per_cycle`, the function returns -1 and
the availability query is the only call it made.  Otherwise its calls are
the query, then exactly `play_periods_per_cycle` begin/commit pairs of
`samples_per_period` frames each (that product of frames committed in all),
then the playback start command, then at most the capture start command,
which is made if and only if the capture stream is open, the streams are
not linked and the playback start command did not fail.  The result is 0
when no start command failed and -1 otherwise. -/
theorem pcm_start_sequence (hw : Hw) (w : World) (hplay : w.io.play_handle = true)
    (hspp : w.io.samples_per_period < 2 ^ 31) (hppc : w.io.play_periods_per_cycle < 2 ^ 32)
    (hbegin : ∀ i, i < w.io.play_periods_per_cycle → 0 ≤ (hw (w.calls + 1 + 2 * i)).ret) :
    (c_uint (hw w.calls).ret ≠ w.io.samples_per_period * w.io.play_periods_per_cycle →
      pcm_start hw w = (-1, (w.call hw).2.log (Ev.avail_update Dir.play (hw w.calls).ret)))
    ∧ (c_uint (hw w.calls).ret = w.io.samples_per_period * w.io.play_periods_per_cycle →
      ∃ P rs C,
        (pcm_start hw w).2.trace
          = w.trace ++ (Ev.avail_update Dir.play (hw w.calls).ret
              :: (P ++ (Ev.start Dir.play rs :: C)))
        ∧ primed w.io.samples_per_period w.io.play_periods_per_cycle P
        ∧ committed P = w.io.samples_per_period * w.io.play_periods_per_cycle
        ∧ ((∃ rc, C = [Ev.start Dir.capt rc]) ∨ C = [])
        ∧ ((∃ rc, C = [Ev.start Dir.capt rc])
            ↔ (w.io.capt_handle = true ∧ w.io.synced = false ∧ 0 ≤ rs))
        ∧ ((pcm_start hw w).1 = 0 ∨ (pcm_start hw w).1 = -1)
        ∧ ((pcm_start hw w).1 = 0
            ↔ (0 ≤ rs ∧ ∀ rc, Ev.start Dir.capt rc ∈ C → 0 ≤ rc))) := by
  have hprod : c_ulong ((w.io.samples_per_period * w.io.play_periods_per_cycle : Nat) : Int)
      = w.io.samples_per_period * w.io.play_periods_per_cycle := by
    apply c_ulong_of_lt
    calc w.io.samples_per_period * w.io.play_periods_per_cycle
        < 2 ^ 31 * 2 ^ 32 := Nat.mul_lt_mul'' hspp hppc
      _ < 2 ^ 64 := by norm_num
  have hprod' : c_ulong ((w.io.samples_per_period : Int) * (w.io.play_periods_per_cycle : Int))
      = w.io.samples_per_period * w.io.play_periods_per_cycle := by
    rw [← hprod]; push_cast; rfl
  constructor
  · intro hne
    unfold pcm_start
    simp only [hplay, if_true, World.call, World.log, hprod', ne_eq, hne, not_false_eq_true]
  · intro heq
    obtain ⟨P, e1, e2, e3, e4, _⟩ := priming_trace hw w.io.play_periods_per_cycle 0
      ((w.call hw).2.log (Ev.avail_update Dir.play (hw w.calls).ret)) hplay hspp hbegin
    have hh := fixed_handles e4
    have hsy : (for_range w.io.play_periods_per_cycle 0 (fun _ w => prime_period hw w)
        ((w.call hw).2.log (Ev.avail_update Dir.play (hw w.calls).ret))).io.synced
        = w.io.synced := by
      have := congrArg AlsaIO.synced e4
      exact this
    by_cases hr : (hw (for_range w.io.play_periods_per_cycle 0 (fun _ w => prime_period hw w)
        ((w.call hw).2.log (Ev.avail_update Dir.play (hw w.calls).ret))).calls).ret < 0
    · have hval : pcm_start hw w = (-1,
          ((for_range w.io.play_periods_per_cycle 0 (fun _ w => prime_period hw w)
          ((w.call hw).2.log (Ev.avail_update Dir.play (hw w.calls).ret))).call hw).2.log
          (Ev.start Dir.play (hw (for_range w.io.play_periods_per_cycle 0
            (fun _ w => prime_period hw w)
            ((w.call hw).2.log (Ev.avail_update Dir.play (hw w.calls).ret))).calls).ret)) := by
        unfold pcm_start
        simp only [World.call, World.log] at hr ⊢
        simp only [hplay, if_true, hprod', ne_eq, heq, not_true_eq_false, if_false, hr]
      refine ⟨P, (hw (for_range w.io.play_periods_per_cycle 0 (fun _ w => prime_period hw w)
        ((w.call hw).2.log (Ev.avail_update Dir.play (hw w.calls).ret))).calls).ret, [], ?_, e2, e3, Or.inr rfl, ?_, ?_, ?_⟩
      · rw [hval]
        simp only [log_trace, call_trace]
        rw [e1]
        simp [World.call, World.log]
      · constructor
        · rintro ⟨rc, h⟩; cases h
        · rintro ⟨_, _, h⟩; omega
      · rw [hval]; exact Or.inr rfl
      · rw [hval]
        constructor
        · intro h; cases h
        · rintro ⟨h, _⟩; omega
    · obtain ⟨C, c1, c2, c3, c4, c5⟩ := pcm_start_capt_trace hw
        (((for_range w.io.play_periods_per_cycle 0 (fun _ w => prime_period hw w)
          ((w.call hw).2.log (Ev.avail_update Dir.play (hw w.calls).ret))).call hw).2.log
          (Ev.start Dir.play (hw (for_range w.io.play_periods_per_cycle 0
            (fun _ w => prime_period hw w)
            ((w.call hw).2.log (Ev.avail_update Dir.play (hw w.calls).ret))).calls).ret))
      have hval : pcm_start hw w = pcm_start_capt hw
          (((for_range w.io.play_periods_per_cycle 0 (fun _ w => prime_period hw w)
          ((w.call hw).2.log (Ev.avail_update Dir.play (hw w.calls).ret))).call hw).2.log
          (Ev.start Dir.play (hw (for_range w.io.play_periods_per_cycle 0
            (fun _ w => prime_period hw w)
            ((w.call hw).2.log (Ev.avail_update Dir.play (hw w.calls).ret))).calls).ret)) := by
        unfold pcm_start
        simp only [World.call, World.log] at hr ⊢
        simp only [hplay, if_true, hprod', ne_eq, heq, not_true_eq_false, if_false, hr]
      simp only [log_io, call_io] at c2 c3
      rw [hh.2, hsy] at c2 c3
      refine ⟨P, (hw (for_range w.io.play_periods_per_cycle 0 (fun _ w => prime_period hw w)
        ((w.call hw).2.log (Ev.avail_update Dir.play (hw w.calls).ret))).calls).ret, C, ?_, e2, e3, ?_, ?_, ?_, ?_⟩
      · rw [hval, c1]
        simp only [log_trace, call_trace]
        rw [e1]
        simp [World.call, World.log]
      · by_cases hcs : w.io.capt_handle = true ∧ w.io.synced = false
        · exact Or.inl ⟨_, c2 hcs.1 hcs.2⟩
        · exact Or.inr (c3 hcs)
      · constructor
        · rintro ⟨rc, h⟩
          by_cases hcs : w.io.capt_handle = true ∧ w.io.synced = false
          · exact ⟨hcs.1, hcs.2, not_lt.1 hr⟩
          · rw [c3 hcs] at h; cases h
        · rintro ⟨h1, h2, _⟩
          exact ⟨_, c2 h1 h2⟩
      · rw [hval]; exact c4
      · rw [hval, c5]
        simp only [not_lt.1 hr, true_and]

/-- C13 (amended), at an input: playback and capture, not linked, the full
ring of 256 frames available, both begins granting a region of 128 frames. -/
theorem pcm_start_sequence_witness :
    (pcm_start (hw_start 256) world_duplex).1 = 0
    ∧ (pcm_start (hw_start 256) world_duplex).2.trace
        = [Ev.avail_update Dir.play 256,
           Ev.mmap_begin Dir.play 128 0 128, Ev.mmap_commit Dir.play 0 128 0,
           Ev.mmap_begin Dir.play 128 0 128, Ev.mmap_commit Dir.play 0 128 0,
           Ev.start Dir.play 0, Ev.start Dir.capt 0]
    ∧ ∃ P rs C,
        (pcm_start (hw_start 256) world_duplex).2.trace
          = world_duplex.trace
              ++ (Ev.avail_update Dir.play ((hw_start 256) world_duplex.calls).ret
                :: (P ++ (Ev.start Dir.play rs :: C)))
        ∧ committed P
          = world_duplex.io.samples_per_period * world_duplex.io.play_periods_per_cycle :=
  ⟨by decide, by decide,
   by
     obtain ⟨P, rs, C, h1, _, h3, _⟩ :=
       (pcm_start_sequence (hw_start 256) world_duplex rfl (by decide) (by decide)
         (by intro i hi; have : i < 2 := hi; interval_cases i <;> decide)).2 (by decide)
     exact ⟨P, rs, C, h1, h3⟩⟩

/-- C13 as stated fails: a count of `2 ^ 32 + 256` frames differs from the
256 frames of the ring, yet `pcm_start` goes on to prime and to start, the
count being held in an `unsigned int`. -/
theorem pcm_start_sequence_counterexample :
    ((hw_start 4294967552) world_play_only.calls).ret ≠
        world_play_only.io.samples_per_period * world_play_only.io.play_periods_per_cycle
    ∧ (pcm_start (hw_start 4294967552) world_play_only).1 = 0
    ∧ (pcm_start (hw_start 4294967552) world_play_only).2.trace
        = [Ev.avail_update Dir.play 4294967552,
           Ev.mmap_begin Dir.play 128 0 128, Ev.mmap_commit Dir.play 0 128 0,
           Ev.mmap_begin Dir.play 128 0 128, Ev.mmap_commit Dir.play 0 128 0,
           Ev.start Dir.play 0] := by
  refine ⟨by decide, by decide, by decide⟩

/-- C14, at an input: 300 frames of progress with the default period of 128
frames, playback only, drain in 2 turns and leave 44. -/
theorem drain_iterations_witness :
    world_play_only.io.in_range
    ∧ ∃ w', drain hw_region 2 300 world_play_only = some (44, w')
      ∧ w'.trace = [Ev.mmap_begin Dir.play 128 0 128, Ev.mmap_commit Dir.play 0 128 0,
                    Ev.mmap_begin Dir.play 128 0 128, Ev.mmap_commit Dir.play 0 128 0] :=
  ⟨by unfold AlsaIO.in_range; decide,
   (process_period hw_region)^[2] world_play_only,
   (drain_iterations hw_region 2 300 world_play_only (by decide) (by decide) (by decide)
      (by decide)).1,
   by decide⟩

theorem clear_chan_zero_at (w : World) (dst len k b a : Nat) (hk : k < len) (hb : b < 4)
    (ha : a = dst + k * w.io.play_step + b) : (clear_chan dst len w).mem a = 0 := by
  subst ha
  exact clear_loop_zero _ len dst w.mem k b hk hb

theorem clear_chan_same_at (w : World) (dst len a : Nat)
    (h : ¬ in_store w.io.play_step dst len a) : (clear_chan dst len w).mem a = w.mem a :=
  clear_loop_frame _ len dst w.mem a h

theorem clear_all_zero_at (w : World) (j k b a : Nat) (hj : j < w.io.play_nchan)
    (hk : k < w.io.samples_per_period) (hb : b < 4)
    (ha : a = w.io.play_ptr j + k * w.io.play_step + b) : (clear_all w).mem a = 0 := by
  subst ha
  exact (clear_range_zero w.io w.io.play_nchan 0 w rfl).2 j (Nat.zero_le j) (by omega) k hk b hb

theorem prime_period_mem (hw : Hw) (w : World) :
    (prime_period hw w).mem = (at_commit hw w).mem := by
  unfold prime_period at_commit play_done mmap_commit
  simp only []
  split <;> rfl

/-- C15, at the failing input: a device that offers 16-bit samples only, not
interleaved, with the default period of 128 frames.  `main` sets
`play_bytes_per_sample` to 2 for this format, `play_init` derives the
stride 2, and the period region of channel 0 is the 256 bytes from address
1000 on.  `clear_chan (dst, 128)` stores a 4-byte `int` at every stride: its
last store zeroes the bytes at offsets 256 and 257, past `len * s = 256`,
which held 255 before (the byte at offset 258 still does); they are zero
when `play_done` commits. -/
theorem clear_chan_overrun :
    world_s16.io.in_range
    ∧ bytes_per_sample SND_PCM_FORMAT_S16_LE = some 2
    ∧ world_s16.io.play_bytes_per_sample = 2
    ∧ (play_init hw_s16 128 world_s16).2.io.play_step = 2
    ∧ (play_init hw_s16 128 world_s16).2.io.play_ptr 0 = 1000
    ∧ (play_init hw_s16 128 world_s16).2.mem 1256 = 255
    ∧ (play_init hw_s16 128 world_s16).2.mem 1257 = 255
    ∧ (clear_chan 1000 128 (play_init hw_s16 128 world_s16).2).mem 1256 = 0
    ∧ (clear_chan 1000 128 (play_init hw_s16 128 world_s16).2).mem 1257 = 0
    ∧ (clear_chan 1000 128 (play_init hw_s16 128 world_s16).2).mem 1258 = 255
    ∧ (prime_period hw_s16 world_s16).mem 1256 = 0 := by
  have hstep : (play_init hw_s16 128 world_s16).2.io.play_step = 2 := by decide
  refine ⟨by unfold AlsaIO.in_range; decide, by decide, rfl, hstep, by decide, by decide,
    by decide, ?_, ?_, ?_, ?_⟩
  · exact clear_chan_zero_at _ 1000 128 127 2 1256 (by decide) (by decide) (by decide)
  · exact clear_chan_zero_at _ 1000 128 127 3 1257 (by decide) (by decide) (by decide)
  · refine (clear_chan_same_at _ 1000 128 1258 ?_).trans (by decide)
    rw [hstep]
    rintro ⟨k, hk, h1, h2⟩
    omega
  · rw [prime_period_mem]
    exact clear_all_zero_at _ 0 127 2 1256 (by decide) (by decide) (by decide) (by decide)

/-! ## C12: zero progress, from entry to return -/

theorem pcm_wait_turns_loop (hw : Hw) (k : Nat) :
    ∀ (np0 nc0 : Bool) (w0 : World) (np nc : Bool) (wi : World),
      pcm_wait_turns hw k np0 nc0 w0 = some (np, nc, wi) →
      (∀ m, pcm_wait_loop hw (k + m) np0 nc0 w0 = pcm_wait_loop hw m np nc wi)
      ∧ Calm w0 wi := by
  induction k with
  | zero =>
    intro np0 nc0 w0 np nc wi h
    unfold pcm_wait_turns at h
    simp only [Option.some.injEq, Prod.mk.injEq] at h
    obtain ⟨rfl, rfl, rfl⟩ := h
    exact ⟨fun m => by rw [Nat.zero_add], Calm.still _⟩
  | succ k ih =>
    intro np0 nc0 w0 np nc wi h
    unfold pcm_wait_turns at h
    split_ifs at h with hn
    obtain ⟨_, p2⟩ := pcm_wait_poll_ends hw np0 nc0 w0
    split at h
    · cases h
    · rename_i a b w1 heq
      have hc := p2 a b (by rw [heq])
      rw [heq] at hc
      obtain ⟨h1, h2⟩ := ih a b w1 np nc wi h
      refine ⟨fun m => ?_, hc.next h2⟩
      have e : k + 1 + m = (k + m) + 1 := by omega
      rw [e, ← h1 m]
      conv_lhs => unfold pcm_wait_loop
      simp only [hn, if_true, heq]

theorem pcm_wait_loop_returns (hw : Hw) (m : Nat) (np nc : Bool) (w : World) (v : Int)
    (hn : (np || nc) = true) (h : (pcm_wait_poll hw np nc w).1 = PollStep.ret v) :
    pcm_wait_loop hw (m + 1) np nc w = some (some v, (pcm_wait_poll hw np nc w).2) := by
  unfold pcm_wait_loop
  rcases hp : pcm_wait_poll hw np nc w with ⟨s, w'⟩
  rw [hp] at h
  simp only at h
  subst h
  simp only [hn, if_true]

theorem pcm_wait_loop_over (hw : Hw) (m : Nat) (np nc : Bool) (w : World)
    (hn : (np || nc) = false) : pcm_wait_loop hw m np nc w = some (none, w) := by
  cases m <;> unfold pcm_wait_loop <;> simp [hn]

theorem calm_classify (w w' : World) (h : Calm w w') :
    ∃ evs, w'.trace = w.trace ++ evs ∧ (¬ ∃ e ∈ evs, e.idle) ∧ (¬ ∃ e ∈ evs, e.alarm)
      ∧ count_recover evs = 0 := by
  obtain ⟨B, hB, hQ⟩ := h
  refine ⟨B, hB, ?_, ?_, count_recover_benign B hQ⟩
  · rintro ⟨e, he, hi⟩
    have := hQ e he
    cases e <;> first | exact absurd this (by exact id) | exact absurd hi (by exact id) | skip
    exact absurd hi (not_le.2 this)
  · rintro ⟨e, he, ha⟩
    have := hQ e he
    cases e <;> first | exact absurd this (by exact id) | exact absurd ha (by exact id) | skip
    · exact absurd this (not_le.2 ha)
    · exact absurd this ha

theorem stops_classify (hw : Hw) (w w' : World) (h : Stops hw w w') :
    ∃ evs, w'.trace = w.trace ++ evs
      ∧ ((∃ e ∈ evs, e.idle) → count_recover evs = 0)
      ∧ ((∃ e ∈ evs, e.alarm) → count_recover evs = 1)
      ∧ (count_recover evs = 1 → ∃ wr, w' = (recover hw wr).2
          ∧ count_recover wr.trace = count_recover w.trace)
      ∧ count_recover evs ≤ 1 := by
  rcases h with ⟨B, e0, ht, hB, he0⟩ | ⟨B, e0, wr, ht, hB, he0, hw'⟩
  · have hc : count_recover (B ++ [e0]) = 0 := by
      rw [count_recover_append, count_recover_benign B hB]
      cases e0 <;> first | exact absurd he0 (by exact id) | rfl
    refine ⟨B ++ [e0], ht, fun _ => hc, ?_, ?_, ?_⟩
    · rintro ⟨e, he, ha⟩
      exfalso
      rcases List.mem_append.1 he with h1 | h1
      · have := hB e h1
        cases e <;> first | exact absurd this (by exact id) | exact absurd ha (by exact id) | skip
        · exact absurd this (not_le.2 ha)
        · exact absurd this ha
      · rw [List.mem_singleton.1 h1] at ha
        cases e0 <;> first | exact absurd he0 (by exact id) | exact absurd ha (by exact id)
    · intro h1
      rw [hc] at h1
      cases h1
    · rw [hc]
      exact Nat.zero_le 1
  · obtain ⟨R, hR, hRq⟩ := recover_trace hw wr
    have h1 : count_recover [e0] = 0 := by
      cases e0 <;> first | exact absurd he0 (by exact id) | rfl
    have hc : count_recover (B ++ [e0] ++ (Ev.enter_recover :: R)) = 1 := by
      rw [count_recover_append, count_recover_append, count_recover_benign B hB]
      have h2 : count_recover (Ev.enter_recover :: R) = 1 := by
        have := count_recover_recovering R hRq
        unfold count_recover at this ⊢
        rw [List.count_cons_self, this]
      rw [h1, h2]
    refine ⟨B ++ [e0] ++ (Ev.enter_recover :: R), ?_, ?_, fun _ => hc, ?_, ?_⟩
    · rw [hw', hR, ht]
      simp
    · rintro ⟨e, he, hi⟩
      exfalso
      rcases List.mem_append.1 he with h1 | h1
      · rcases List.mem_append.1 h1 with h2 | h2
        · have := hB e h2
          cases e <;> first | exact absurd this (by exact id) | exact absurd hi (by exact id) | skip
          exact absurd hi (not_le.2 this)
        · rw [List.mem_singleton.1 h2] at hi
          cases e0 <;> first | exact absurd he0 (by exact id) | exact absurd hi (by exact id)
      · rcases List.mem_cons.1 h1 with h2 | h2
        · rw [h2] at hi
          exact hi
        · have := hRq e h2
          cases e <;> first | exact absurd this (by exact id) | exact absurd hi (by exact id)
    · intro _
      refine ⟨wr, hw', ?_⟩
      rw [ht, count_recover_append, count_recover_append, count_recover_benign B hB, h1]
      rfl
    · rw [hc]

theorem pcm_wait_poll_classify (hw : Hw) (np nc : Bool) (w : World) :
    ∃ evs, (pcm_wait_poll hw np nc w).2.trace = w.trace ++ evs
      ∧ ((∃ e ∈ evs, e.idle) →
          (pcm_wait_poll hw np nc w).1 = PollStep.ret 0 ∧ count_recover evs = 0)
      ∧ ((∃ e ∈ evs, e.alarm) →
          (pcm_wait_poll hw np nc w).1 = PollStep.ret 0 ∧ count_recover evs = 1)
      ∧ (count_recover evs ≠ 0 →
          (pcm_wait_poll hw np nc w).1 = PollStep.ret 0
          ∧ ∃ wr, (pcm_wait_poll hw np nc w).2 = (recover hw wr).2
            ∧ count_recover wr.trace = count_recover w.trace) := by
  obtain ⟨p1, p2⟩ := pcm_wait_poll_ends hw np nc w
  rcases hres : (pcm_wait_poll hw np nc w).1 with v | ⟨a, b⟩
  · obtain ⟨hv, hs⟩ := p1 v hres
    subst hv
    obtain ⟨evs, ht, hi, ha, hr, hle⟩ := stops_classify hw w _ hs
    refine ⟨evs, ht, fun h => ⟨rfl, hi h⟩, fun h => ⟨rfl, ha h⟩, fun h => ⟨rfl, hr (by omega)⟩⟩
  · obtain ⟨evs, ht, hi, ha, hc⟩ := calm_classify w _ (p2 a b hres)
    exact ⟨evs, ht, fun h => absurd h hi, fun h => absurd h ha, fun h => absurd hc h⟩

theorem pcm_wait_avail_classify (hw : Hw) (w : World) :
    ∃ evs, (pcm_wait_avail hw w).2.trace = w.trace ++ evs
      ∧ ((∃ e ∈ evs, e.alarm) → (pcm_wait_avail hw w).1 = 0 ∧ count_recover evs = 1)
      ∧ (count_recover evs ≠ 0 →
          (pcm_wait_avail hw w).1 = 0
          ∧ ∃ wr, (pcm_wait_avail hw w).2 = (recover hw wr).2
            ∧ count_recover wr.trace = count_recover w.trace) := by
  rcases pcm_wait_avail_ends hw w with h | ⟨hv, hs⟩
  · obtain ⟨evs, ht, _, ha, hc⟩ := calm_classify w _ h
    exact ⟨evs, ht, fun h => absurd h ha, fun h => absurd hc h⟩
  · obtain ⟨evs, ht, _, ha, hr, hle⟩ := stops_classify hw w _ hs
    exact ⟨evs, ht, fun h => ⟨hv, ha h⟩, fun h => ⟨hv, hr (by omega)⟩⟩

theorem pcm_wait_in_turn (hw : Hw) (k : Nat) (w : World) (np nc : Bool) (wi : World)
    (hreach : pcm_wait_turns hw k w.io.play_handle w.io.capt_handle (w.log Ev.enter_pcm_wait)
      = some (np, nc, wi)) :
    count_recover wi.trace = count_recover w.trace
    ∧ ((np || nc) = true → ∀ v, (pcm_wait_poll hw np nc wi).1 = PollStep.ret v →
        ∀ fuel, k < fuel → pcm_wait hw fuel w = some (v, (pcm_wait_poll hw np nc wi).2))
    ∧ ((np || nc) = false →
        ∀ fuel, k ≤ fuel → pcm_wait hw fuel w = some (pcm_wait_avail hw wi)) := by
  obtain ⟨hl, hc⟩ := pcm_wait_turns_loop hw k _ _ _ _ _ _ hreach
  refine ⟨?_, ?_, ?_⟩
  · obtain ⟨B, hB, hQ⟩ := hc
    rw [hB, count_recover_append, count_recover_benign B hQ]
    show count_recover (w.trace ++ [Ev.enter_pcm_wait]) + 0 = _
    rw [count_recover_append]
    rfl
  · intro hn v hv fuel hf
    obtain ⟨m, rfl⟩ : ∃ m, fuel = k + (m + 1) := ⟨fuel - k - 1, by omega⟩
    unfold pcm_wait
    simp only [log_io]
    rw [hl (m + 1), pcm_wait_loop_returns hw m np nc wi v hn hv]
  · intro hn fuel hf
    obtain ⟨m, rfl⟩ : ∃ m, fuel = k + m := ⟨fuel - k, by omega⟩
    unfold pcm_wait
    simp only [log_io]
    rw [hl m, pcm_wait_loop_over hw m np nc wi hn]

/-- C12. Let the loop of `pcm_wait`, entered in state `w`, have gone round
`k` times and stand at the top of its next turn.  If a stream is still
waited for, the calls of this turn, which are a function of the answers of
the library, decide: when the wait among them timed out or failed,
`pcm_wait` returns 0, for every fuel above `k`, and `recover` has not been
called; when decoded events among them carry the error flag, `pcm_wait`
returns 0, for every fuel above `k`, and `recover` has been called exactly
once.  If no stream is waited for any more, the loop is over and the
available-frame queries decide: when one of them returns a negative value,
`pcm_wait` returns 0, for every fuel from `k` on, and `recover` has been
called exactly once. -/
theorem pcm_wait_zero_progress (hw : Hw) (k : Nat) (w : World) (np nc : Bool) (wi : World)
    (hreach : pcm_wait_turns hw k w.io.play_handle w.io.capt_handle (w.log Ev.enter_pcm_wait)
      = some (np, nc, wi)) :
    ((np || nc) = true →
      ∃ evs, (pcm_wait_poll hw np nc wi).2.trace = wi.trace ++ evs
        ∧ ((∃ e ∈ evs, e.idle) →
            (∀ fuel, k < fuel →
              pcm_wait hw fuel w = some (0, (pcm_wait_poll hw np nc wi).2))
            ∧ count_recover (pcm_wait_poll hw np nc wi).2.trace = count_recover w.trace)
        ∧ ((∃ e ∈ evs, e.alarm) →
            (∀ fuel, k < fuel →
              pcm_wait hw fuel w = some (0, (pcm_wait_poll hw np nc wi).2))
            ∧ count_recover (pcm_wait_poll hw np nc wi).2.trace = count_recover w.trace + 1))
    ∧ ((np || nc) = false →
      ∃ evs, (pcm_wait_avail hw wi).2.trace = wi.trace ++ evs
        ∧ ((∃ e ∈ evs, e.alarm) →
            (∀ fuel, k ≤ fuel →
              pcm_wait hw fuel w = some (0, (pcm_wait_avail hw wi).2))
            ∧ count_recover (pcm_wait_avail hw wi).2.trace = count_recover w.trace + 1)) := by
  obtain ⟨hcount, hturn, hover⟩ := pcm_wait_in_turn hw k w np nc wi hreach
  constructor
  · intro hn
    obtain ⟨evs, ht, hi, ha, _⟩ := pcm_wait_poll_classify hw np nc wi
    refine ⟨evs, ht, ?_, ?_⟩
    · intro h
      obtain ⟨h1, h2⟩ := hi h
      refine ⟨hturn hn 0 h1, ?_⟩
      rw [ht, count_recover_append, h2, hcount]
      rfl
    · intro h
      obtain ⟨h1, h2⟩ := ha h
      refine ⟨hturn hn 0 h1, ?_⟩
      rw [ht, count_recover_append, h2, hcount]
  · intro hn
    obtain ⟨evs, ht, ha, _⟩ := pcm_wait_avail_classify hw wi
    refine ⟨evs, ht, ?_⟩
    intro h
    obtain ⟨h1, h2⟩ := ha h
    constructor
    · intro fuel hf
      rw [hover hn fuel hf]
      have : pcm_wait_avail hw wi = (0, (pcm_wait_avail hw wi).2) := by
        rw [← h1]
      rw [this]
    · rw [ht, count_recover_append, h2, hcount]

/-- C12, at two inputs, playback only, in the first turn of the loop.  The
decoded events carry the error flag: `pcm_wait` returns 0 for every fuel and
`recover` has been called once (its stop command fails here).  The wait
times out: `pcm_wait` returns 0 for every fuel and `recover` has not been
called. -/
theorem pcm_wait_zero_progress_witness :
    ((∀ fuel, 0 < fuel → pcm_wait hw_pollerr fuel world_play_only
        = some (0, (pcm_wait_poll hw_pollerr true false
            (world_play_only.log Ev.enter_pcm_wait)).2))
      ∧ count_recover (pcm_wait_poll hw_pollerr true false
          (world_play_only.log Ev.enter_pcm_wait)).2.trace = 1
      ∧ (pcm_wait_poll hw_pollerr true false (world_play_only.log Ev.enter_pcm_wait)).2.trace
        = [Ev.enter_pcm_wait, Ev.poll_descriptors Dir.play, Ev.ppoll 1 1,
           Ev.poll_revents Dir.play 1 8, Ev.enter_recover, Ev.status Dir.play 0 ⟨0, 0⟩,
           Ev.drop Dir.play (-5)])
    ∧ ((∀ fuel, 0 < fuel → pcm_wait hw_ok fuel world_play_only
        = some (0, (pcm_wait_poll hw_ok true false (world_play_only.log Ev.enter_pcm_wait)).2))
      ∧ count_recover (pcm_wait_poll hw_ok true false
          (world_play_only.log Ev.enter_pcm_wait)).2.trace = 0
      ∧ (pcm_wait_poll hw_ok true false (world_play_only.log Ev.enter_pcm_wait)).2.trace
        = [Ev.enter_pcm_wait, Ev.poll_descriptors Dir.play, Ev.ppoll 1 0]) := by
  constructor
  · obtain ⟨evs, ht, _, ha⟩ :=
      (pcm_wait_zero_progress hw_pollerr 0 world_play_only true false _ rfl).1 rfl
    have hl : (pcm_wait_poll hw_pollerr true false
        (world_play_only.log Ev.enter_pcm_wait)).2.trace
        = [Ev.enter_pcm_wait] ++ [Ev.poll_descriptors Dir.play, Ev.ppoll 1 1,
           Ev.poll_revents Dir.play 1 8, Ev.enter_recover, Ev.status Dir.play 0 ⟨0, 0⟩,
           Ev.drop Dir.play (-5)] := by decide
    have hevs := List.append_cancel_left
      (show [Ev.enter_pcm_wait] ++ _ = [Ev.enter_pcm_wait] ++ evs from hl.symm.trans ht)
    obtain ⟨h1, h2⟩ := ha ⟨Ev.poll_revents Dir.play 1 8, by rw [← hevs]; simp,
      (show (8 : Nat) &&& POLLERR ≠ 0 by decide)⟩
    exact ⟨h1, h2, hl⟩
  · obtain ⟨evs, ht, hi, _⟩ :=
      (pcm_wait_zero_progress hw_ok 0 world_play_only true false _ rfl).1 rfl
    have hl : (pcm_wait_poll hw_ok true false (world_play_only.log Ev.enter_pcm_wait)).2.trace
        = [Ev.enter_pcm_wait] ++ [Ev.poll_descriptors Dir.play, Ev.ppoll 1 0] := by decide
    have hevs := List.append_cancel_left
      (show [Ev.enter_pcm_wait] ++ _ = [Ev.enter_pcm_wait] ++ evs from hl.symm.trans ht)
    obtain ⟨h1, h2⟩ := hi ⟨Ev.ppoll 1 0, by rw [← hevs]; simp, (show (0 : Int) ≤ 0 by decide)⟩
    exact ⟨h1, h2, hl⟩

/-! ## C11: what becomes of a failed recovery -/

theorem main_run_result (hw : Hw) (signalled : Nat → Bool) (fuel turns : Nat) (opt : Options)
    (w0 wt : World) (hnoop : opt.noop = false) (hstart : (pcm_start hw w0).1 = 0)
    (hlaunch : (main_launch hw opt (pcm_start hw w0).2).1 = 0)
    (hrun : run_thread hw signalled fuel turns (main_launch hw opt (pcm_start hw w0).2).2
      = some wt) :
    main_run hw signalled fuel turns opt w0
      = some (main_out hw (if (pcm_stop hw wt).1 = 0 then 0 else -1) (pcm_stop hw wt).2) := by
  unfold main_run
  simp only [hstart, ne_eq, not_true_eq_false, if_false, hnoop, Bool.false_eq_true, hlaunch, hrun]
  by_cases h : (pcm_stop hw wt).1 = 0
  · simp [h]
  · simp [h]

theorem run_thread_loop_idle (hw : Hw) (signalled : Nat → Bool) (fuel end_ turns loop : Nat)
    (w w' : World) (v : Int) (hgo : w.io.run_for.m ≤ 0 ∨ loop < end_)
    (hwait : pcm_wait hw fuel w = some (v, w'))
    (hd : drain hw v.toNat v w' = some (0, w')) :
    run_thread_loop hw signalled fuel end_ (turns + 1) loop w
      = (if signalled loop = true then some w'
         else run_thread_loop hw signalled fuel end_ turns (loop + 1) w') := by
  have hc : (decide (w.io.run_for.m ≤ 0) || decide (loop < end_)) = true := by
    rcases hgo with h | h
    · simp [h]
    · simp [h]
  conv_lhs => unfold run_thread_loop
  simp only [hc, if_true, hwait, hd]

/-- C11 (amended): let the loop of `pcm_wait`, entered in state `w` from
`run_thread`, have gone round `k` times, and let its next turn, or, the loop
being over, its available-frame queries, call `recover`.  Whether `recover`
returns 0 or -1, its result is dropped: for every fuel above `k`,
`pcm_wait` returns 0 in the state `recover` left, the inner loop of that
cycle makes no begin or commit, and the outer loop goes on as after any
cycle without progress: it ends there if the flag `signalled` is set, and
otherwise takes its next turn, which polls again unless the number of
cycles asked for is reached.  The result of the program does not depend on
it either: once the worker has ended, `main` returns 0 exactly when its
final `pcm_stop` succeeds. -/
theorem recovery_result_dropped (hw : Hw) (signalled : Nat → Bool) (end_ turns loop k : Nat)
    (w : World) (np nc : Bool) (wi : World)
    (h1 : 1 ≤ w.io.samples_per_period) (h2 : w.io.samples_per_period < 2 ^ 63)
    (hreach : pcm_wait_turns hw k w.io.play_handle w.io.capt_handle (w.log Ev.enter_pcm_wait)
      = some (np, nc, wi))
    (htrig : ((np || nc) = true
          ∧ count_recover wi.trace < count_recover (pcm_wait_poll hw np nc wi).2.trace)
        ∨ ((np || nc) = false
          ∧ count_recover wi.trace < count_recover (pcm_wait_avail hw wi).2.trace))
    (hgo : w.io.run_for.m ≤ 0 ∨ loop < end_) :
    (∃ wr, count_recover wr.trace = count_recover w.trace
      ∧ ∀ fuel, k < fuel →
          pcm_wait hw fuel w = some (0, (recover hw wr).2)
          ∧ drain hw 0 0 (recover hw wr).2 = some (0, (recover hw wr).2)
          ∧ run_thread_loop hw signalled fuel end_ (turns + 1) loop w
              = (if signalled loop = true then some (recover hw wr).2
                 else run_thread_loop hw signalled fuel end_ turns (loop + 1)
                   (recover hw wr).2))
    ∧ ∀ (opt : Options) (w0 wt : World) (fuel turns' : Nat), opt.noop = false →
        (pcm_start hw w0).1 = 0 → (main_launch hw opt (pcm_start hw w0).2).1 = 0 →
        run_thread hw signalled fuel turns' (main_launch hw opt (pcm_start hw w0).2).2
          = some wt →
        main_run hw signalled fuel turns' opt w0
          = some (main_out hw (if (pcm_stop hw wt).1 = 0 then 0 else -1)
              (pcm_stop hw wt).2) := by
  refine ⟨?_, fun opt w0 wt fuel turns' hn hs hl hr =>
    main_run_result hw signalled fuel turns' opt w0 wt hn hs hl hr⟩
  obtain ⟨hcount, hturn, hover⟩ := pcm_wait_in_turn hw k w np nc wi hreach
  have key : ∃ wr, count_recover wr.trace = count_recover w.trace
      ∧ ∀ fuel, k < fuel → pcm_wait hw fuel w = some (0, (recover hw wr).2) := by
    rcases htrig with ⟨hn, hlt⟩ | ⟨hn, hlt⟩
    · obtain ⟨evs, ht, _, _, hr⟩ := pcm_wait_poll_classify hw np nc wi
      rw [ht, count_recover_append] at hlt
      obtain ⟨hret, wr, hwr, hcw⟩ := hr (by omega)
      refine ⟨wr, hcw.trans hcount, fun fuel hf => ?_⟩
      rw [hturn hn 0 hret fuel hf, hwr]
    · obtain ⟨evs, ht, _, hr⟩ := pcm_wait_avail_classify hw wi
      rw [ht, count_recover_append] at hlt
      obtain ⟨hret, wr, hwr, hcw⟩ := hr (by omega)
      refine ⟨wr, hcw.trans hcount, fun fuel hf => ?_⟩
      rw [hover hn fuel (by omega)]
      have : pcm_wait_avail hw wi = (0, (pcm_wait_avail hw wi).2) := by
        rw [← hret]
      rw [this, hwr]
  obtain ⟨wr, hcw, hwait⟩ := key
  refine ⟨wr, hcw, fun fuel hf => ?_⟩
  have hw' := hwait fuel hf
  have hspp : (recover hw wr).2.io.samples_per_period = w.io.samples_per_period :=
    fixed_period (pcm_wait_steady hw fuel w _ 0 hw').2
  have hd : drain hw 0 0 (recover hw wr).2 = some (0, (recover hw wr).2) :=
    drain_nothing hw 0 _ (by rw [hspp]; exact h1) (by rw [hspp]; omega)
  exact ⟨hw', hd, run_thread_loop_idle hw signalled fuel end_ turns loop w _ 0 hgo hw' hd⟩

/-- C11 (amended), at an input: playback only, the first cycle of a run of 2
cycles; the decoded events carry the error flag and the stop command of the
recovery fails, `recover` returns -1, and the loop takes its second turn
from the state `recover` left. -/
theorem recovery_result_dropped_witness :
    (recover hw_failed_recovery (world_at_alarm hw_failed_recovery world_at_launch POLLERR)).1
      = -1
    ∧ run_thread_loop hw_failed_recovery never_signalled 1 2 2 0 world_at_launch
      = run_thread_loop hw_failed_recovery never_signalled 1 2 1 1
          (recover hw_failed_recovery
            (world_at_alarm hw_failed_recovery world_at_launch POLLERR)).2 := by
  obtain ⟨⟨wr, _, h⟩, _⟩ := recovery_result_dropped hw_failed_recovery never_signalled 2 1 0 0
    world_at_launch true false (world_at_launch.log Ev.enter_pcm_wait) (by decide) (by decide)
    rfl (Or.inl ⟨rfl, by decide⟩) (Or.inr (by decide))
  obtain ⟨hwait, _, hloop⟩ := h 1 (by decide)
  have hconc : pcm_wait hw_failed_recovery 1 world_at_launch
      = some (0, (recover hw_failed_recovery
          (world_at_alarm hw_failed_recovery world_at_launch POLLERR)).2) := rfl
  have heq : (recover hw_failed_recovery wr).2
      = (recover hw_failed_recovery
          (world_at_alarm hw_failed_recovery world_at_launch POLLERR)).2 := by
    have := hwait.symm.trans hconc
    simp only [Option.some.injEq, Prod.mk.injEq, true_and] at this
    exact this
  rw [heq] at hloop
  exact ⟨by decide, hloop⟩

/-- C11 as stated fails: in the first cycle `recover` fails at the stop step
and returns -1; `run_thread` all the same takes its second turn, which
polls, begins and commits, and the program ends with the result 0. -/
theorem recovery_result_dropped_counterexample :
    (recover hw_failed_recovery (world_at_alarm hw_failed_recovery world_at_launch POLLERR)).1
      = -1
    ∧ pcm_wait hw_failed_recovery 1 world_at_launch
      = some (0, (recover hw_failed_recovery
          (world_at_alarm hw_failed_recovery world_at_launch POLLERR)).2)
    ∧ (main_run hw_failed_recovery never_signalled 1 2 opt_plain world_short_run).map
        (fun p => (p.1, p.2.trace))
      = some (0,
          [Ev.avail_update Dir.play 256,
           Ev.mmap_begin Dir.play 128 0 128, Ev.mmap_commit Dir.play 0 128 0,
           Ev.mmap_begin Dir.play 128 0 128, Ev.mmap_commit Dir.play 0 128 0,
           Ev.start Dir.play 0, Ev.thread_create none 0,
           Ev.enter_pcm_wait, Ev.poll_descriptors Dir.play, Ev.ppoll 1 1,
           Ev.poll_revents Dir.play 1 8,
           Ev.enter_recover, Ev.status Dir.play 0 ⟨0, 0⟩, Ev.drop Dir.play (-5),
           Ev.enter_pcm_wait, Ev.poll_descriptors Dir.play, Ev.ppoll 1 1,
           Ev.poll_revents Dir.play 1 4, Ev.avail_update Dir.play 128,
           Ev.mmap_begin Dir.play 128 0 128, Ev.mmap_commit Dir.play 0 128 0,
           Ev.drop Dir.play 0, Ev.pcm_close Dir.play]) := by
  refine ⟨by decide, rfl, by decide⟩

end ModAlsaTest
